import Mathlib

/-!
# bigtruss-roofing: field mapper and retry engine

A shallow embedding of `src/webhook-data-mapper.js` (class `WebhookDataMapper`) and
`src/webhook-error-handler.js` (class `WebhookErrorHandler`), followed by theorems about them.

Modelling conventions.

* A JavaScript string is the list of its UTF-16 code units (`JSString`), so that `length`,
  `substring`, `slice` and the regular expressions of the source count what JavaScript counts.
  `lit "abc"` is the string with the code units of an ASCII literal.
* A JavaScript number is an exact rational, `NaN` or an infinity (`JSNumber`).  The built-ins
  whose result depends on floating point or on the Unicode tables (`parseFloat`, the
  number-to-string conversion, `toLowerCase`) are fields of a `JSRuntime` that every function
  of the mapper takes as a parameter.
* A raw record is the list of the own enumerable properties of a JSON object, in the order
  `Object.keys` lists them.  Values are JSON values (and `undefined`).
* Code that throws returns `Except.error`; the only exception that the modelled code can
  raise is a `TypeError`.
* Clock readings, timestamps, durations and log output are not part of the state; the
  readings of `Date.now()` that decide control flow are inputs.
* The arithmetic of `calculateDelay` is the arithmetic of doubles: the operations follow
  IEEE 754 on `NaN` and the infinities, and on finite operands they round the exact result.
  The rounding and `Math.pow`, whose precision the language leaves to the implementation,
  are fields of a `FloatRuntime` that `calculateDelay` takes as a parameter (`exactDoubles`
  for closed examples).  The sign of a zero is not modelled.  The draws of `Math.random()`
  are inputs.
* The engine of the model holds natural numbers for `maxRetries` and for the threshold and
  the cooldown of the breaker, and finite numbers for the delays, where a decimal literal
  stands for the rational that it writes.  What the constructor stores for any number that
  a caller passes, `NaN` and the infinities included, is `storedNumbers`.
* Objects have no identity in the model of the mapper.  Where a theorem is about the objects
  that a call changes, the objects live in a heap (`Heap`), each at its address; `allocValue`
  creates the objects of a JSON value, and `readValue` gives the JSON value that a value of
  the heap stands for.
* Calls of `executeWithRetry` that overlap are sequences of stretches (`Stretch`): a stretch
  is what a call does to the engine between two of the points where it awaits.
-/

namespace Roofing

/-! ## JavaScript values -/

/-- A JavaScript string, as its sequence of UTF-16 code units. -/
abbrev JSString := List Nat

/-- The JavaScript string written as an ASCII literal in the source. -/
def lit (s : String) : JSString := s.toList.map Char.toNat

/-- A JavaScript number: an exact rational, NaN, or plus or minus infinity. -/
inductive JSNumber where
  | nan
  | inf (negative : Bool)
  | fin (q : ℚ)
  deriving DecidableEq

/-- A JSON value, or `undefined`. -/
inductive JSValue where
  | undefined
  | null
  | bool (b : Bool)
  | num (n : JSNumber)
  | str (s : JSString)
  | arr (items : List JSValue)
  | obj (props : List (JSString × JSValue))

/-- An exception raised by the modelled code. -/
inductive JSError where
  | typeError
  deriving DecidableEq

/-- The built-ins whose results depend on floating point or on the Unicode tables. -/
structure JSRuntime where
  /-- The global `parseFloat`, applied to a string. -/
  parseFloat : JSString → JSNumber
  /-- The conversion `Number::toString`. -/
  numberToString : JSNumber → JSString
  /-- The method `String.prototype.toLowerCase`. -/
  toLowerCase : JSString → JSString

/-- The result of `typeof v === 'string'`. -/
def JSValue.isString : JSValue → Bool
  | .str _ => true
  | _ => false

/-- The result of `typeof v === 'number'`. -/
def JSValue.isNumber : JSValue → Bool
  | .num _ => true
  | _ => false

/-- The result of `Array.isArray(v)`. -/
def JSValue.isArray : JSValue → Bool
  | .arr _ => true
  | _ => false

/-- The test `v !== null && v !== undefined && v !== ''`. -/
def JSValue.isPresent : JSValue → Bool
  | .null => false
  | .undefined => false
  | .str [] => false
  | _ => true

/-- Whether the object has an own property named `key`. -/
def hasOwn {V : Type} : List (JSString × V) → JSString → Bool
  | [], _ => false
  | (k, _) :: rest, key => k == key || hasOwn rest key

/-- The value of the own property `key` (the first one listed), if there is one. -/
def getOwn {V : Type} : List (JSString × V) → JSString → Option V
  | [], _ => none
  | (k, v) :: rest, key => if k == key then some v else getOwn rest key

/-- The method `Array.prototype.join` on strings. -/
def joinWith (sep : JSString) : List JSString → JSString
  | [] => []
  | [x] => x
  | x :: y :: rest => x ++ sep ++ joinWith sep (y :: rest)

mutual
/-- The conversion `String(v)` (also the conversion of a template literal and of the argument
of `RegExp.prototype.test`).  An array is joined with commas, its `null` and `undefined`
elements giving the empty string.  A JSON object gives `[object Object]`, unless it has an own
property `toString`: that property is not callable, neither is an own `valueOf`, and the
inherited `valueOf` returns the object, so the conversion throws a `TypeError`. -/
def toStringJS (rt : JSRuntime) : JSValue → Except JSError JSString
  | .undefined => .ok (lit "undefined")
  | .null => .ok (lit "null")
  | .bool true => .ok (lit "true")
  | .bool false => .ok (lit "false")
  | .num n => .ok (rt.numberToString n)
  | .str s => .ok s
  | .arr items => (elementStrings rt items).map (joinWith (lit ","))
  | .obj props =>
    if hasOwn props (lit "toString") then .error .typeError else .ok (lit "[object Object]")
/-- The strings that `Array.prototype.join` puts between the separators. -/
def elementStrings (rt : JSRuntime) : List JSValue → Except JSError (List JSString)
  | [] => .ok []
  | .undefined :: rest => (elementStrings rt rest).map (fun r => [] :: r)
  | .null :: rest => (elementStrings rt rest).map (fun r => [] :: r)
  | v :: rest =>
    match toStringJS rt v with
    | .error e => .error e
    | .ok s => (elementStrings rt rest).map (fun r => s :: r)
end

/-- The code units that the pattern `\s` matches and that `trim` removes: the ECMAScript
white space and line terminator code points. -/
def isWhiteSpace (c : Nat) : Bool :=
  (9 ≤ c && c ≤ 13) || c == 32 || c == 160 || c == 5760 || (8192 ≤ c && c ≤ 8202) ||
  c == 8232 || c == 8233 || c == 8239 || c == 8287 || c == 12288 || c == 65279

/-- The code units that the pattern `\d` matches: `0` to `9`. -/
def isDigit (c : Nat) : Bool := 48 ≤ c && c ≤ 57

/-- The method `String.prototype.trim`. -/
def trim (s : JSString) : JSString :=
  ((s.dropWhile isWhiteSpace).reverse.dropWhile isWhiteSpace).reverse

/-- The method `String.prototype.split` with a one-unit separator. -/
def splitOn (sep : Nat) : JSString → List JSString
  | [] => [[]]
  | c :: rest =>
    match splitOn sep rest with
    | [] => [[c]]
    | piece :: pieces => if c == sep then [] :: piece :: pieces else (c :: piece) :: pieces

/-- The method `String.prototype.includes`. -/
def includes (s sub : JSString) : Bool :=
  s.tails.any (fun t => sub.isPrefixOf t)

/-- The comparison `a < b` of two numbers. -/
def JSNumber.lt : JSNumber → JSNumber → Bool
  | .fin a, .fin b => decide (a < b)
  | .fin _, .inf negative => !negative
  | .inf negative, .fin _ => negative
  | .inf a, .inf b => a && !b
  | _, _ => false

/-- The arithmetic of doubles that depends on the platform. -/
structure FloatRuntime where
  /-- The double that the exact result of an operation on finite doubles is rounded to, and
  `none` when the result is so large that it is rounded to an infinity. -/
  round : ℚ → Option ℚ
  /-- The call `Math.pow(base, exponent)` on a finite base and an exponent that is a natural
  number.  The language leaves the precision of the result to the implementation. -/
  pow : ℚ → Nat → JSNumber

/-- The double that stands for the exact result `q` of an operation: the rounded result, or
the infinity with the sign of `q` when the result overflows. -/
def FloatRuntime.toDouble (fr : FloatRuntime) (q : ℚ) : JSNumber :=
  match fr.round q with
  | some d => .fin d
  | none => .inf (decide (q < 0))

/-- The negation `-a`. -/
def JSNumber.neg : JSNumber → JSNumber
  | .nan => .nan
  | .inf negative => .inf (!negative)
  | .fin q => .fin (-q)

/-- The product `a * b` of two doubles: `NaN` when an operand is `NaN` or when zero is
multiplied by an infinity, an infinity when an operand is one, and the rounded product
otherwise. -/
def JSNumber.mul (fr : FloatRuntime) : JSNumber → JSNumber → JSNumber
  | .nan, _ => .nan
  | _, .nan => .nan
  | .inf a, .inf b => .inf (a != b)
  | .inf a, .fin q => if q = 0 then .nan else .inf (a != decide (q < 0))
  | .fin p, .inf b => if p = 0 then .nan else .inf (decide (p < 0) != b)
  | .fin p, .fin q => fr.toDouble (p * q)

/-- The sum `a + b` of two doubles: `NaN` when an operand is `NaN` or when the operands are
the two infinities, an infinity when an operand is one, and the rounded sum otherwise. -/
def JSNumber.add (fr : FloatRuntime) : JSNumber → JSNumber → JSNumber
  | .nan, _ => .nan
  | _, .nan => .nan
  | .inf a, .inf b => if a = b then .inf a else .nan
  | .inf a, .fin _ => .inf a
  | .fin _, .inf b => .inf b
  | .fin p, .fin q => fr.toDouble (p + q)

/-- The difference `a - b` of two doubles. -/
def JSNumber.sub (fr : FloatRuntime) (a b : JSNumber) : JSNumber :=
  JSNumber.add fr a b.neg

/-- The call `Math.min(a, b)`: `NaN` when an argument is `NaN`. -/
def mathMin : JSNumber → JSNumber → JSNumber
  | .nan, _ => .nan
  | _, .nan => .nan
  | a, b => if b.lt a then b else a

/-- The call `Math.max(a, b)`: `NaN` when an argument is `NaN`. -/
def mathMax : JSNumber → JSNumber → JSNumber
  | .nan, _ => .nan
  | _, .nan => .nan
  | a, b => if a.lt b then b else a

/-- The decimal digits of a natural number, as `String(n)` writes them below `1e21`. -/
def natToString (n : Nat) : JSString := lit (toString n)

/-! ## WebhookDataMapper (`src/webhook-data-mapper.js`) -/

/-- The values of a rule's `type`. -/
inductive FieldType where
  | string | number | array | object | text | email | phone | select
  deriving DecidableEq

/-- The keys of `getValidationRules()`. -/
inductive ValidationName where
  | email | phone | postalCode | roofSize
  deriving DecidableEq

/-- The keys of `getTransformationRules()`. -/
inductive TransformationName where
  | stateCode | countryCode
  deriving DecidableEq

/-- One field rule of `getDefaultMappingRules()`; an attribute that a rule does not have is
`none`. -/
structure FieldRule where
  sources : List JSString
  required : Bool
  type : FieldType
  maxLength : Option Nat := none
  min : Option ℚ := none
  max : Option ℚ := none
  options : Option (List JSString) := none
  default : Option JSValue := none
  validation : Option ValidationName := none
  transformation : Option TransformationName := none

/-- A rule set: the categories in key order, each with its fields in key order. -/
abbrev MappingRules := List (JSString × List (JSString × FieldRule))

/-- The method `getDefaultMappingRules`. -/
def getDefaultMappingRules : MappingRules :=
  [ (lit "contact",
      [ (lit "firstName",
          { sources := [lit "firstName", lit "first_name", lit "fname", lit "given_name"],
            required := true, type := .string, maxLength := some 50 }),
        (lit "lastName",
          { sources := [lit "lastName", lit "last_name", lit "lname", lit "family_name",
              lit "surname"],
            required := true, type := .string, maxLength := some 50 }),
        (lit "email",
          { sources := [lit "email", lit "emailAddress", lit "email_address", lit "mail"],
            required := true, type := .email, validation := some .email }),
        (lit "phone",
          { sources := [lit "phone", lit "phoneNumber", lit "phone_number", lit "mobile",
              lit "cell", lit "telephone"],
            required := true, type := .phone, validation := some .phone }) ]),
    (lit "address",
      [ (lit "address",
          { sources := [lit "address", lit "street", lit "street_address", lit "address1",
              lit "property_address"],
            required := false, type := .string, maxLength := some 200 }),
        (lit "address2",
          { sources := [lit "address2", lit "apt", lit "apartment", lit "unit", lit "suite"],
            required := false, type := .string, maxLength := some 100 }),
        (lit "city",
          { sources := [lit "city", lit "locality", lit "town"],
            required := false, type := .string, maxLength := some 50 }),
        (lit "state",
          { sources := [lit "state", lit "province", lit "region", lit "state_province"],
            required := false, type := .string, maxLength := some 50,
            transformation := some .stateCode }),
        (lit "postalCode",
          { sources := [lit "postalCode", lit "zipCode", lit "zip", lit "postal_code",
              lit "zip_code"],
            required := false, type := .string, validation := some .postalCode }),
        (lit "country",
          { sources := [lit "country", lit "country_code"],
            required := false, type := .string, default := some (.str (lit "US")),
            transformation := some .countryCode }) ]),
    (lit "roofing",
      [ (lit "propertyType",
          { sources := [lit "propertyType", lit "property_type", lit "building_type"],
            required := false, type := .select,
            options := some [lit "residential", lit "commercial", lit "industrial",
              lit "multi-family"],
            default := some (.str (lit "residential")) }),
        (lit "roofType",
          { sources := [lit "roofType", lit "roof_type", lit "roofing_type"],
            required := false, type := .select,
            options := some [lit "asphalt", lit "metal", lit "tile", lit "slate", lit "wood",
              lit "flat", lit "other"] }),
        (lit "roofAge",
          { sources := [lit "roofAge", lit "roof_age", lit "age_of_roof"],
            required := false, type := .select,
            options := some [lit "0-5", lit "6-10", lit "11-15", lit "16-20", lit "21-30",
              lit "30+", lit "unknown"] }),
        (lit "roofSize",
          { sources := [lit "roofSize", lit "roof_size", lit "square_footage"],
            required := false, type := .string, validation := some .roofSize }),
        (lit "roofCondition",
          { sources := [lit "roofCondition", lit "roof_condition", lit "condition"],
            required := false, type := .select,
            options := some [lit "excellent", lit "good", lit "fair", lit "poor",
              lit "needs_replacement"] }) ]),
    (lit "service",
      [ (lit "serviceType",
          { sources := [lit "serviceType", lit "service_type", lit "service_needed",
              lit "request_type"],
            required := false, type := .select,
            options := some [lit "estimate", lit "repair", lit "replacement", lit "inspection",
              lit "maintenance", lit "emergency", lit "consultation"],
            default := some (.str (lit "estimate")) }),
        (lit "urgency",
          { sources := [lit "urgency", lit "priority", lit "timeline"],
            required := false, type := .select,
            options := some [lit "emergency", lit "urgent", lit "normal", lit "flexible"],
            default := some (.str (lit "normal")) }),
        (lit "preferredContactTime",
          { sources := [lit "preferredContactTime", lit "contact_time",
              lit "best_time_to_call"],
            required := false, type := .select,
            options := some [lit "morning", lit "afternoon", lit "evening", lit "anytime"],
            default := some (.str (lit "anytime")) }),
        (lit "budget",
          { sources := [lit "budget", lit "estimated_budget", lit "price_range"],
            required := false, type := .select,
            options := some [lit "under_5k", lit "5k_10k", lit "10k_20k", lit "20k_50k",
              lit "over_50k", lit "not_sure"] }) ]),
    (lit "attribution",
      [ (lit "source",
          { sources := [lit "source", lit "utm_source", lit "lead_source",
              lit "referral_source"],
            required := false, type := .string, default := some (.str (lit "website")) }),
        (lit "medium",
          { sources := [lit "medium", lit "utm_medium", lit "marketing_medium"],
            required := false, type := .string, default := some (.str (lit "organic")) }),
        (lit "campaign",
          { sources := [lit "campaign", lit "utm_campaign", lit "campaign_name"],
            required := false, type := .string }),
        (lit "term",
          { sources := [lit "term", lit "utm_term", lit "keyword"],
            required := false, type := .string }),
        (lit "content",
          { sources := [lit "content", lit "utm_content", lit "ad_content"],
            required := false, type := .string }) ]),
    (lit "additional",
      [ (lit "notes",
          { sources := [lit "notes", lit "message", lit "comments", lit "description",
              lit "details"],
            required := false, type := .text, maxLength := some 2000 }),
        (lit "tags",
          { sources := [lit "tags", lit "categories", lit "labels"],
            required := false, type := .array,
            default := some (.arr [.str (lit "website-lead")]) }),
        (lit "customFields",
          { sources := [lit "customFields", lit "custom_fields", lit "additional_data"],
            required := false, type := .object }),
        (lit "leadScore",
          { sources := [lit "leadScore", lit "lead_score", lit "score"],
            required := false, type := .number, min := some 0, max := some 100 }) ]) ]

/-- The code unit of the apostrophe that the messages of the source put around a name. -/
def apostrophe : JSString := [39]

/-- The pattern `/^[^\s@]+@[^\s@]+\.[^\s@]+$/`: the string splits into a run, `@`, a run, `.`
and a run, each run non-empty and free of white space and of `@`. -/
def emailPattern (s : JSString) : Bool :=
  let run := fun (r : JSString) => !r.isEmpty && r.all (fun c => !isWhiteSpace c && c != 64)
  (List.range s.length).any fun i =>
    (List.range s.length).any fun j =>
      decide (i < j) && s.get? i == some 64 && s.get? j == some 46 &&
        run (s.take i) && run ((s.take j).drop (i + 1)) && run (s.drop (j + 1))

/-- The part `[1-9][\d]{0,15}$` of the phone pattern: a digit from 1 to 9, then at most
fifteen digits, then the end of the string. -/
def phoneDigits : JSString → Bool
  | [] => false
  | d :: ds => (49 ≤ d && d ≤ 57) && ds.all isDigit && decide (ds.length ≤ 15)

/-- The pattern `/^[\+]?[1-9][\d]{0,15}$/`: an optional `+`, then `phoneDigits`.  A `+` at the
start can only be matched by `[\+]?`. -/
def phonePattern : JSString → Bool
  | 43 :: t => phoneDigits t
  | s => phoneDigits s

/-- The pattern `/^\d{5}(-\d{4})?$/` (key `us` of the postal code rule). -/
def usPostalPattern (s : JSString) : Bool :=
  (s.take 5).all isDigit && decide ((s.take 5).length = 5) &&
    (match s.drop 5 with
      | [] => true
      | c :: t => c == 45 && t.all isDigit && decide (t.length = 4))

/-- An ASCII letter, `A` to `Z` or `a` to `z`. -/
def isAsciiLetter (c : Nat) : Bool := (65 ≤ c && c ≤ 90) || (97 ≤ c && c ≤ 122)

/-- The pattern `/^[A-Za-z]\d[A-Za-z][ -]?\d[A-Za-z]\d$/` (key `ca` of the postal code
rule). -/
def caPostalPattern (s : JSString) : Bool :=
  match s with
  | [a, b, c, d, e, f] =>
    isAsciiLetter a && isDigit b && isAsciiLetter c && isDigit d && isAsciiLetter e && isDigit f
  | [a, b, c, sep, d, e, f] =>
    isAsciiLetter a && isDigit b && isAsciiLetter c && (sep == 32 || sep == 45) &&
      isDigit d && isAsciiLetter e && isDigit f
  | _ => false

/-- The canonical form under the `i` flag of a pattern without the `u` flag, for the
comparison with a lower-case ASCII letter of the pattern: `A` to `Z` become `a` to `z`, and no
code unit outside ASCII is folded into ASCII. -/
def foldAscii (c : Nat) : Nat := if 65 ≤ c && c ≤ 90 then c + 32 else c

/-- The pattern `/^\d+(\.\d+)?\s*(sq\s?ft|square\s?feet|sqft|sf)?$/i`.  No part after a run of
digits or of white space can start with a digit or a white space, so each run is the longest
one. -/
def roofSizePattern (s : JSString) : Bool :=
  let unit := fun (u : JSString) =>
    u == [] || u == lit "sqft" || u == lit "sf" || u == lit "squarefeet" ||
      (match u with
        | 115 :: 113 :: w :: t => isWhiteSpace w && t == lit "ft"
        | _ => false) ||
      (match u with
        | 115 :: 113 :: 117 :: 97 :: 114 :: 101 :: w :: t => isWhiteSpace w && t == lit "feet"
        | _ => false)
  let tail := fun (r : JSString) => unit ((r.dropWhile isWhiteSpace).map foldAscii)
  let r := s.dropWhile isDigit
  !(s.takeWhile isDigit).isEmpty &&
    (tail r ||
      (match r with
        | 46 :: f => !(f.takeWhile isDigit).isEmpty && tail (f.dropWhile isDigit)
        | _ => false))

/-- The method `formatPhoneNumber` on a string. -/
def formatPhoneNumber (phone : JSString) : JSString :=
  let cleaned := phone.filter isDigit
  if cleaned.length = 10 then
    lit "(" ++ cleaned.take 3 ++ lit ") " ++ (cleaned.take 6).drop 3 ++ lit "-" ++ cleaned.drop 6
  else if cleaned.length = 11 ∧ cleaned.head? = some 49 then
    lit "+1 (" ++ (cleaned.take 4).drop 1 ++ lit ") " ++ (cleaned.take 7).drop 4 ++ lit "-" ++
      cleaned.drop 7
  else
    phone

/-- The method `formatPhoneNumber` as `processValue` calls it, on any value: a value that is
not a string has no callable `replace`, so `phone.replace(...)` throws a `TypeError`. -/
def formatPhoneNumberValue : JSValue → Except JSError JSValue
  | .str phone => .ok (.str (formatPhoneNumber phone))
  | _ => .error .typeError

/-- One entry of `getValidationRules()`. -/
structure ValidationRule where
  pattern : Option (JSString → Bool) := none
  us : Option (JSString → Bool) := none
  ca : Option (JSString → Bool) := none
  message : JSString
  transform : Option (JSValue → Except JSError JSValue) := none

/-- The method `getValidationRules`. -/
def getValidationRules : ValidationName → ValidationRule
  | .email => { pattern := some emailPattern, message := lit "Invalid email format" }
  | .phone =>
    { pattern := some phonePattern, message := lit "Invalid phone number format",
      transform := some formatPhoneNumberValue }
  | .postalCode =>
    { us := some usPostalPattern, ca := some caPostalPattern,
      message := lit "Invalid postal code format" }
  | .roofSize =>
    { pattern := some roofSizePattern,
      message := lit "Invalid roof size format (e.g., " ++ [34] ++ lit "2500 sq ft" ++ [34] ++
        lit ")" }

/-- The method `getTransformationRules`. -/
def getTransformationRules : TransformationName → List (JSString × JSString)
  | .stateCode =>
    [ (lit "alabama", lit "AL"), (lit "alaska", lit "AK"), (lit "arizona", lit "AZ"),
      (lit "arkansas", lit "AR"), (lit "california", lit "CA"), (lit "colorado", lit "CO"),
      (lit "connecticut", lit "CT"), (lit "delaware", lit "DE"), (lit "florida", lit "FL"),
      (lit "georgia", lit "GA"), (lit "hawaii", lit "HI"), (lit "idaho", lit "ID"),
      (lit "illinois", lit "IL"), (lit "indiana", lit "IN"), (lit "iowa", lit "IA"),
      (lit "kansas", lit "KS"), (lit "kentucky", lit "KY"), (lit "louisiana", lit "LA"),
      (lit "maine", lit "ME"), (lit "maryland", lit "MD"), (lit "massachusetts", lit "MA"),
      (lit "michigan", lit "MI"), (lit "minnesota", lit "MN"), (lit "mississippi", lit "MS"),
      (lit "missouri", lit "MO"), (lit "montana", lit "MT"), (lit "nebraska", lit "NE"),
      (lit "nevada", lit "NV"), (lit "new hampshire", lit "NH"), (lit "new jersey", lit "NJ"),
      (lit "new mexico", lit "NM"), (lit "new york", lit "NY"),
      (lit "north carolina", lit "NC"), (lit "north dakota", lit "ND"), (lit "ohio", lit "OH"),
      (lit "oklahoma", lit "OK"), (lit "oregon", lit "OR"), (lit "pennsylvania", lit "PA"),
      (lit "rhode island", lit "RI"), (lit "south carolina", lit "SC"),
      (lit "south dakota", lit "SD"), (lit "tennessee", lit "TN"), (lit "texas", lit "TX"),
      (lit "utah", lit "UT"), (lit "vermont", lit "VT"), (lit "virginia", lit "VA"),
      (lit "washington", lit "WA"), (lit "west virginia", lit "WV"),
      (lit "wisconsin", lit "WI"), (lit "wyoming", lit "WY") ]
  | .countryCode =>
    [ (lit "united states", lit "US"), (lit "canada", lit "CA"), (lit "mexico", lit "MX"),
      (lit "united kingdom", lit "GB"), (lit "australia", lit "AU") ]

/-- The property names that every object literal inherits from `Object.prototype`; each of
them holds a function or an object, which is truthy. -/
def objectPrototypeKeys : List JSString :=
  [ lit "constructor", lit "hasOwnProperty", lit "isPrototypeOf", lit "propertyIsEnumerable",
    lit "toLocaleString", lit "toString", lit "valueOf", lit "__proto__",
    lit "__defineGetter__", lit "__defineSetter__", lit "__lookupGetter__",
    lit "__lookupSetter__" ]

/-- A value that `processValue` can produce: a JSON value, or the function or object that a
transformation table inherits under `key` from `Object.prototype`. -/
inductive Emitted where
  | value (v : JSValue)
  | inherited (key : JSString)

/-- The object that `processValue` builds and returns. -/
structure ProcessResultOf (V : Type) where
  isValid : Bool
  value : V
  errors : List JSString
  warnings : List JSString

/-- The result of `processValue`. -/
abbrev ProcessResult := ProcessResultOf Emitted

/-- The state of `processValue` after one of its stages: it goes on with `result`, it has
executed `return result`, or it has thrown. -/
inductive Stage where
  | next (result : ProcessResultOf JSValue)
  | ret (result : ProcessResultOf JSValue)
  | throw (e : JSError)

/-- Runs the following stage unless the function has returned or thrown. -/
def Stage.andThen (s : Stage) (f : ProcessResultOf JSValue → Stage) : Stage :=
  match s with
  | .next result => f result
  | .ret result => .ret result
  | .throw e => .throw e

/-- The stage `// Type conversion` of `processValue`. -/
def typeConversion (rt : JSRuntime) (value : JSValue) (rule : FieldRule) (fieldName : JSString)
    (result : ProcessResultOf JSValue) : Stage :=
  if rule.type = .string ∧ value.isString = false then
    match toStringJS rt value with
    | .error e => .throw e
    | .ok s => .next { result with value := .str s }
  else if rule.type = .number ∧ value.isNumber = false then
    match toStringJS rt value with
    | .error e => .throw e
    | .ok s =>
      match rt.parseFloat s with
      | .nan =>
        .ret { result with
          isValid := false
          errors := result.errors ++
            [lit "Invalid number format for field " ++ apostrophe ++ fieldName ++ apostrophe] }
      | numValue => .next { result with value := .num numValue }
  else if rule.type = .array ∧ value.isArray = false then
    match value with
    | .str s => .next { result with value := .arr ((splitOn 44 s).map (fun p => .str (trim p))) }
    | v => .next { result with value := .arr [v] }
  else
    .next result

/-- The stage `// Length validation` of `processValue`. -/
def lengthValidation (rule : FieldRule) (fieldName : JSString)
    (result : ProcessResultOf JSValue) : Stage :=
  match rule.maxLength, result.value with
  | some maxLength, .str s =>
    if maxLength ≠ 0 ∧ s.length > maxLength then
      .next { result with
        value := .str (s.take maxLength)
        warnings := result.warnings ++
          [lit "Field " ++ apostrophe ++ fieldName ++ apostrophe ++ lit " truncated to " ++
            natToString maxLength ++ lit " characters"] }
    else .next result
  | _, _ => .next result

/-- The stage `// Range validation for numbers` of `processValue`.  When the type is `number`
the value is a number here: it was one, or the type conversion made it one. -/
def rangeValidation (rt : JSRuntime) (rule : FieldRule) (fieldName : JSString)
    (result : ProcessResultOf JSValue) : Stage :=
  if rule.type = .number then
    match result.value with
    | .num n =>
      match rule.min with
      | some min =>
        if n.lt (.fin min) then
          .ret { result with
            isValid := false
            errors := result.errors ++
              [lit "Field " ++ apostrophe ++ fieldName ++ apostrophe ++ lit " must be at least " ++
                rt.numberToString (.fin min)] }
        else
          match rule.max with
          | some max =>
            if (JSNumber.fin max).lt n then
              .ret { result with
                isValid := false
                errors := result.errors ++
                  [lit "Field " ++ apostrophe ++ fieldName ++ apostrophe ++
                    lit " must be at most " ++ rt.numberToString (.fin max)] }
            else .next result
          | none => .next result
      | none =>
        match rule.max with
        | some max =>
          if (JSNumber.fin max).lt n then
            .ret { result with
              isValid := false
              errors := result.errors ++
                [lit "Field " ++ apostrophe ++ fieldName ++ apostrophe ++
                  lit " must be at most " ++ rt.numberToString (.fin max)] }
          else .next result
        | none => .next result
    | _ => .next result
  else .next result

/-- The stage `// Options validation` of `processValue`: `includes` compares with `===`, so
only a string can be among the options. -/
def optionsValidation (rt : JSRuntime) (rule : FieldRule) (fieldName : JSString)
    (result : ProcessResultOf JSValue) : Stage :=
  match rule.options with
  | some options =>
    let included := match result.value with
      | .str s => options.contains s
      | _ => false
    if included then .next result
    else
      match toStringJS rt result.value with
      | .error e => .throw e
      | .ok shown =>
        .next { result with
          warnings := result.warnings ++
            [lit "Field " ++ apostrophe ++ fieldName ++ apostrophe ++ lit " value " ++
              apostrophe ++ shown ++ apostrophe ++ lit " not in predefined options"] }
  | none => .next result

/-- The stage `// Pattern validation` of `processValue`. -/
def patternValidation (rt : JSRuntime) (rule : FieldRule)
    (result : ProcessResultOf JSValue) : Stage :=
  match rule.validation with
  | some name =>
    let validationRule := getValidationRules name
    let tested : Except JSError Bool := match validationRule.pattern with
      | some pattern => (toStringJS rt result.value).map pattern
      | none => .ok true
    match tested with
    | .error e => .throw e
    | .ok false =>
      .ret { result with isValid := false, errors := result.errors ++ [validationRule.message] }
    | .ok true =>
      match validationRule.transform with
      | some transform =>
        match transform result.value with
        | .error e => .throw e
        | .ok v => .next { result with value := v }
      | none => .next result
  | none => .next result

/-- The lookup `transformMap[lowerValue]` when it is truthy: an own entry of the table, or
what the table inherits from `Object.prototype`. -/
def transformLookup (table : List (JSString × JSString)) (key : JSString) : Option Emitted :=
  match getOwn table key with
  | some code => some (.value (.str code))
  | none => if objectPrototypeKeys.contains key then some (.inherited key) else none

/-- The stages `// Transformation` and `// Clean string values` of `processValue`. -/
def transformAndClean (rt : JSRuntime) (rule : FieldRule)
    (result : ProcessResultOf JSValue) : Except JSError ProcessResult :=
  let transformed : Except JSError Emitted := match rule.transformation with
    | some name =>
      match toStringJS rt result.value with
      | .error e => .error e
      | .ok s =>
        match transformLookup (getTransformationRules name) (rt.toLowerCase s) with
        | some v => .ok v
        | none => .ok (.value result.value)
    | none => .ok (.value result.value)
  match transformed with
  | .error e => .error e
  | .ok (.value (.str s)) =>
    .ok { isValid := result.isValid, value := .value (.str (trim s)), errors := result.errors,
          warnings := result.warnings }
  | .ok v =>
    .ok { isValid := result.isValid, value := v, errors := result.errors,
          warnings := result.warnings }

/-- The method `processValue`. -/
def processValue (rt : JSRuntime) (value : JSValue) (rule : FieldRule) (fieldName : JSString) :
    Except JSError ProcessResult :=
  let stages :=
    ((((typeConversion rt value rule fieldName
          { isValid := true, value := value, errors := [], warnings := [] }).andThen
        (lengthValidation rule fieldName)).andThen
        (rangeValidation rt rule fieldName)).andThen
        (optionsValidation rt rule fieldName)).andThen
        (patternValidation rt rule)
  match stages with
  | .throw e => .error e
  | .ret result =>
    .ok { isValid := result.isValid, value := .value result.value, errors := result.errors,
          warnings := result.warnings }
  | .next result => transformAndClean rt rule result

/-- The method `extractValue`.  When the record has an own property `hasOwnProperty`, the
call `data.hasOwnProperty(source)` calls that JSON value, which throws a `TypeError`. -/
def extractValue (data : List (JSString × JSValue)) : List JSString → Except JSError JSValue
  | [] => .ok .null
  | source :: rest =>
    if hasOwn data (lit "hasOwnProperty") then .error .typeError
    else
      match getOwn data source with
      | some v => if v.isPresent then .ok v else extractValue data rest
      | none => extractValue data rest

/-- An entry of the `errors` array of `mapData`: `field` with either `value` and `errors`, or
`error`. -/
structure FieldError where
  field : JSString
  value : Option JSValue := none
  errors : Option (List JSString) := none
  error : Option JSString := none

/-- The local variables `mappedData`, `errors` and `warnings` of `mapData`. -/
structure MapState where
  mappedData : List (JSString × Emitted)
  errors : List FieldError
  warnings : List JSString

/-- The assignment `object[key] = value`: an existing property keeps its place, a new one
comes last. -/
def setProp {V : Type} : List (JSString × V) → JSString → V → List (JSString × V)
  | [], key, value => [(key, value)]
  | (k, v) :: rest, key, value =>
    if k == key then (key, value) :: rest else (k, v) :: setProp rest key value

/-- The body of the inner `forEach` of `mapData`, for one field of one category. -/
def processField (rt : JSRuntime) (rawData : List (JSString × JSValue)) (st : MapState)
    (entry : JSString × FieldRule) : Except JSError MapState :=
  let field := entry.1
  let rule := entry.2
  match extractValue rawData rule.sources with
  | .error e => .error e
  | .ok value =>
    if value.isPresent then
      match processValue rt value rule field with
      | .error e => .error e
      | .ok processedValue =>
        if processedValue.isValid then
          .ok { st with
            mappedData := setProp st.mappedData field processedValue.value
            warnings := st.warnings ++ processedValue.warnings }
        else
          .ok { st with
            errors := st.errors ++
              [{ field := field, value := some value, errors := some processedValue.errors }] }
    else if rule.required then
      .ok { st with
        errors := st.errors ++
          [{ field := field,
             error := some (lit "Required field " ++ apostrophe ++ field ++ apostrophe ++
               lit " is missing") }] }
    else
      match rule.default with
      | some d => .ok { st with mappedData := setProp st.mappedData field (.value d) }
      | none => .ok st

/-- The two nested `forEach` loops of `mapData`, over the fields of the categories in order. -/
def processFields (rt : JSRuntime) (rawData : List (JSString × JSValue)) :
    MapState → List (JSString × FieldRule) → Except JSError MapState
  | st, [] => .ok st
  | st, entry :: rest =>
    match processField rt rawData st entry with
    | .error e => .error e
    | .ok st1 => processFields rt rawData st1 rest

/-- The object `_metadata` of a mapping result, without the time stamp `mappedAt`. -/
structure Metadata where
  originalFields : List JSString
  mappedFields : List JSString
  errors : List FieldError
  warnings : List JSString
  isValid : Bool

/-- The object that `mapData` returns: its properties other than `_metadata`, and
`_metadata`. -/
structure MappingResult where
  fields : List (JSString × Emitted)
  metadata : Metadata

/-- The fields of a rule set in the order in which `mapData` visits them. -/
def allFields (rules : MappingRules) : List (JSString × FieldRule) :=
  (rules.map Prod.snd).flatten

/-- The method `mapData` from the point where `mappingRules` is bound. -/
def mapDataWith (rt : JSRuntime) (mappingRules : MappingRules)
    (rawData : List (JSString × JSValue)) : Except JSError MappingResult :=
  match processFields rt rawData { mappedData := [], errors := [], warnings := [] }
      (allFields mappingRules) with
  | .error e => .error e
  | .ok st =>
    .ok { fields := st.mappedData
          metadata :=
            { originalFields := rawData.map Prod.fst
              mappedFields := (st.mappedData.map Prod.fst).filter (fun k => k != lit "_metadata")
              errors := st.errors
              warnings := st.warnings
              isValid := st.errors.length == 0 } }

/-- The method `mapData` called without `customMapping`: `mergeDeep(this.mappingRules, {})` is
a copy of the default rules. -/
def mapData (rt : JSRuntime) (rawData : List (JSString × JSValue)) :
    Except JSError MappingResult :=
  mapDataWith rt getDefaultMappingRules rawData

/-- The value of the property `key` of a mapping result, if the result has that key. -/
def MappingResult.get (r : MappingResult) (key : JSString) : Option Emitted :=
  getOwn r.fields key

/-- A runtime for closed examples.  It agrees with JavaScript on the lower case of ASCII
strings, on the conversion to a string of an integer of at most fifteen digits, and on
`parseFloat` of a string that is an optional minus sign followed by at most fifteen decimal
digits and nothing else. -/
def asciiRuntime : JSRuntime where
  parseFloat := fun s =>
    let body := match s with
      | 45 :: t => t
      | _ => s
    if body.isEmpty || !body.all isDigit then .nan
    else
      let n : ℚ := (body.foldl (fun acc c => acc * 10 + (c - 48)) 0 : Nat)
      match s with
      | 45 :: _ => .fin (-n)
      | _ => .fin n
  numberToString := fun n =>
    match n with
    | .nan => lit "NaN"
    | .inf true => lit "-Infinity"
    | .inf false => lit "Infinity"
    | .fin q => if q < 0 then lit "-" ++ natToString q.num.natAbs else natToString q.num.natAbs
  toLowerCase := fun s => s.map foldAscii

/-! ## WebhookErrorHandler (`src/webhook-error-handler.js`) -/

/-- The argument `options` of the constructor for a caller that passes natural numbers for
`maxRetries`, `circuitBreakerThreshold` and `circuitBreakerTimeout` and finite numbers for the
delays; an option that the caller leaves out is `none`.  The engine of the model holds such
numbers.  What the constructor stores for any number is `storedNumbers`. -/
structure ConstructorOptions where
  maxRetries : Option Nat := none
  baseDelay : Option ℚ := none
  maxDelay : Option ℚ := none
  exponentialBase : Option ℚ := none
  jitterRange : Option ℚ := none
  retryableErrors : Option (List JSString) := none
  enableLogging : Option Bool := none
  enableMetrics : Option Bool := none
  fallbackQueue : Option Bool := none
  circuitBreakerThreshold : Option Nat := none
  circuitBreakerTimeout : Option Nat := none

/-- The object `this.options`. -/
structure Options where
  maxRetries : Nat
  baseDelay : ℚ
  maxDelay : ℚ
  exponentialBase : ℚ
  jitterRange : ℚ
  retryableErrors : List JSString
  enableLogging : Bool
  enableMetrics : Bool
  fallbackQueue : Bool

/-- The object `this.metrics`, without the time stamp `lastReset`; `errorTypes` lists its
keys in insertion order. -/
structure Metrics where
  totalRequests : Nat
  successfulRequests : Nat
  failedRequests : Nat
  retriedRequests : Nat
  errorTypes : List (JSString × Nat)

/-- The object `this.circuitBreaker`; `lastFailureTime` is `none` for `null`. -/
structure CircuitBreaker where
  isOpen : Bool
  failureCount : Nat
  lastFailureTime : Option Nat
  threshold : Nat
  timeout : Nat

/-- A value that a delivery function raises: an object with its properties `name`, `message`
and `type` when they hold strings and with the numeric `status` of its property `response` when
that property is truthy (an `Error` has `name` and `message`), or a value that is not an
object. -/
inductive Thrown where
  | errorObject (name message : Option JSString) (response : Option Nat)
      (type : Option JSString)
  | null
  | undefined
  | str (s : JSString)
  | num (n : JSNumber)
  | bool (b : Bool)

/-- The object under `error` of a failure result, without `timestamp` and `duration`; a key
that the result does not have is `none`. -/
structure ErrorInfo where
  type : JSString
  message : JSString
  circuitBreakerTimeout : Option Nat := none
  attempts : Option Nat := none
  lastError : Option Thrown := none

/-- The object that `executeWithRetry` returns, without `timestamp` and `duration`; a key that
the result does not have is `none`. -/
structure DeliveryResult where
  success : Bool
  data : Option JSValue := none
  attempts : Option Nat := none
  error : Option ErrorInfo := none

/-- An item of `this.errorQueue`, without `timestamp`. -/
structure QueueItem where
  payload : JSValue
  error : DeliveryResult
  retryCount : Nat

/-- The state of a `WebhookErrorHandler`. -/
structure WebhookErrorHandler where
  options : Options
  metrics : Metrics
  errorQueue : List QueueItem
  circuitBreaker : CircuitBreaker

/-- The default of `options.retryableErrors`. -/
def defaultRetryableErrors : List JSString :=
  [ lit "NETWORK_ERROR", lit "500_SERVER_ERROR", lit "502_BAD_GATEWAY",
    lit "503_SERVICE_UNAVAILABLE", lit "504_TIMEOUT", lit "429_RATE_LIMITED" ]

/-- The expression `option || fallback` on an optional number: an absent option and the
number 0 give the fallback. -/
def orDefault {α : Type} [Zero α] [DecidableEq α] (option : Option α) (fallback : α) : α :=
  match option with
  | some v => if v = 0 then fallback else v
  | none => fallback

/-- The constructor of `WebhookErrorHandler`. -/
def WebhookErrorHandler.new (options : ConstructorOptions) : WebhookErrorHandler where
  options :=
    { maxRetries := orDefault options.maxRetries 3
      baseDelay := orDefault options.baseDelay 1000
      maxDelay := orDefault options.maxDelay 30000
      exponentialBase := orDefault options.exponentialBase 2
      jitterRange := orDefault options.jitterRange (1 / 10)
      retryableErrors := options.retryableErrors.getD defaultRetryableErrors
      enableLogging := options.enableLogging != some false
      enableMetrics := options.enableMetrics != some false
      fallbackQueue := options.fallbackQueue.getD false }
  metrics :=
    { totalRequests := 0, successfulRequests := 0, failedRequests := 0, retriedRequests := 0,
      errorTypes := [] }
  errorQueue := []
  circuitBreaker :=
    { isOpen := false, failureCount := 0, lastFailureTime := none,
      threshold := orDefault options.circuitBreakerThreshold 5
      timeout := orDefault options.circuitBreakerTimeout 60000 }

/-- The numeric options of the argument of the constructor as a caller can pass them: each
one is absent (`none`) or any number. -/
structure NumericOptions where
  maxRetries : Option JSNumber := none
  baseDelay : Option JSNumber := none
  maxDelay : Option JSNumber := none
  exponentialBase : Option JSNumber := none
  jitterRange : Option JSNumber := none
  circuitBreakerThreshold : Option JSNumber := none
  circuitBreakerTimeout : Option JSNumber := none

/-- The numbers that the constructor stores in `this.options` and `this.circuitBreaker`. -/
structure StoredNumbers where
  maxRetries : JSNumber
  baseDelay : JSNumber
  maxDelay : JSNumber
  exponentialBase : JSNumber
  jitterRange : JSNumber
  threshold : JSNumber
  timeout : JSNumber

/-- The expression `option || fallback` on an option that is absent or a number: `undefined`,
`NaN` and zero are falsy, every other number is truthy. -/
def orNumber (option : Option JSNumber) (fallback : ℚ) : JSNumber :=
  match option with
  | none => .fin fallback
  | some .nan => .fin fallback
  | some (.inf negative) => .inf negative
  | some (.fin q) => if q = 0 then .fin fallback else .fin q

/-- The numbers that the constructor stores for the numeric options `options`. -/
def storedNumbers (options : NumericOptions) : StoredNumbers where
  maxRetries := orNumber options.maxRetries 3
  baseDelay := orNumber options.baseDelay 1000
  maxDelay := orNumber options.maxDelay 30000
  exponentialBase := orNumber options.exponentialBase 2
  jitterRange := orNumber options.jitterRange (1 / 10)
  threshold := orNumber options.circuitBreakerThreshold 5
  timeout := orNumber options.circuitBreakerTimeout 60000

/-- The numeric options of an argument of the model, as numbers. -/
def ConstructorOptions.numeric (options : ConstructorOptions) : NumericOptions where
  maxRetries := options.maxRetries.map (fun n => .fin n)
  baseDelay := options.baseDelay.map .fin
  maxDelay := options.maxDelay.map .fin
  exponentialBase := options.exponentialBase.map .fin
  jitterRange := options.jitterRange.map .fin
  circuitBreakerThreshold := options.circuitBreakerThreshold.map (fun n => .fin n)
  circuitBreakerTimeout := options.circuitBreakerTimeout.map (fun n => .fin n)

/-- The numbers that an engine of the model holds. -/
def WebhookErrorHandler.numbers (h : WebhookErrorHandler) : StoredNumbers where
  maxRetries := .fin h.options.maxRetries
  baseDelay := .fin h.options.baseDelay
  maxDelay := .fin h.options.maxDelay
  exponentialBase := .fin h.options.exponentialBase
  jitterRange := .fin h.options.jitterRange
  threshold := .fin h.circuitBreaker.threshold
  timeout := .fin h.circuitBreaker.timeout

/-- What the constructor does with one numeric option, in the words of the specification as
amended: a supplied number other than `NaN` and zero is stored, and the default is stored
when the option is absent, `NaN` or zero. -/
def StoresOption (supplied : Option JSNumber) (fallback : ℚ) (stored : JSNumber) : Prop :=
  (∀ v, supplied = some v → v ≠ .nan → v ≠ .fin 0 → stored = v) ∧
    (supplied = none ∨ supplied = some .nan ∨ supplied = some (.fin 0) → stored = .fin fallback)

/-- The result of `analyzeError`, without `originalError`. -/
structure ErrorAnalysis where
  type : JSString
  retryable : Bool
  severity : JSString

/-- The call `error.message.includes(sub)`: it throws a `TypeError` unless `message` is a
string. -/
def messageIncludes (message : Option JSString) (sub : JSString) : Except JSError Bool :=
  match message with
  | some m => .ok (includes m sub)
  | none => .error .typeError

/-- The method `analyzeError` on an object, up to the check against the retryable list: the
classification by the chain of `if` and `else if`. -/
def classify (name message : Option JSString) (response : Option Nat) :
    Except JSError ErrorAnalysis :=
  let byStatus (status : Nat) : ErrorAnalysis :=
    if status ≥ 500 then
      { type := natToString status ++ lit "_SERVER_ERROR", retryable := true,
        severity := lit "high" }
    else if status = 429 then
      { type := lit "429_RATE_LIMITED", retryable := true, severity := lit "medium" }
    else if status = 408 then
      { type := lit "408_TIMEOUT", retryable := true, severity := lit "medium" }
    else if status ≥ 400 then
      { type := natToString status ++ lit "_CLIENT_ERROR", retryable := false,
        severity := lit "low" }
    else
      { type := lit "UNKNOWN_ERROR", retryable := false, severity := lit "medium" }
  let afterTimeout : Except JSError ErrorAnalysis :=
    match response with
    | some status => .ok (byStatus status)
    | none =>
      match messageIncludes message (lit "JSON") with
      | .error e => .error e
      | .ok true =>
        .ok { type := lit "JSON_PARSE_ERROR", retryable := false, severity := lit "low" }
      | .ok false =>
        match messageIncludes message (lit "parse") with
        | .error e => .error e
        | .ok true =>
          .ok { type := lit "JSON_PARSE_ERROR", retryable := false, severity := lit "low" }
        | .ok false =>
          match messageIncludes message (lit "CORS") with
          | .error e => .error e
          | .ok true =>
            .ok { type := lit "CORS_ERROR", retryable := false, severity := lit "high" }
          | .ok false =>
            .ok { type := lit "UNKNOWN_ERROR", retryable := false, severity := lit "medium" }
  let afterNetwork : Except JSError ErrorAnalysis :=
    if name = some (lit "AbortError") then
      .ok { type := lit "504_TIMEOUT", retryable := true, severity := lit "medium" }
    else
      match messageIncludes message (lit "timeout") with
      | .error e => .error e
      | .ok true => .ok { type := lit "504_TIMEOUT", retryable := true, severity := lit "medium" }
      | .ok false => afterTimeout
  if name = some (lit "TypeError") then
    match messageIncludes message (lit "fetch") with
    | .error e => .error e
    | .ok true => .ok { type := lit "NETWORK_ERROR", retryable := true, severity := lit "high" }
    | .ok false => afterNetwork
  else afterNetwork

/-- The method `analyzeError`.  On `null` and `undefined` the read of `error.name` throws a
`TypeError`; on any other value that is not an object, `error.name` and `error.message` are
`undefined`, and the call `error.message.includes('timeout')` throws a `TypeError`. -/
def analyzeError (options : Options) : Thrown → Except JSError ErrorAnalysis
  | .errorObject name message response _ =>
    match classify name message response with
    | .error e => .error e
    | .ok analysis =>
      if options.retryableErrors.contains analysis.type then
        .ok { analysis with retryable := true }
      else .ok analysis
  | _ => .error .typeError

/-- The method `calculateTimeout`. -/
def calculateTimeout (attempt : Nat) : Nat :=
  min (10000 + attempt * 5000) 60000

/-- The method `recordError`. -/
def recordError (h : WebhookErrorHandler) (errorType : JSString) : WebhookErrorHandler :=
  if h.options.enableMetrics then
    { h with metrics := { h.metrics with
        errorTypes := setProp h.metrics.errorTypes errorType
          ((getOwn h.metrics.errorTypes errorType).getD 0 + 1) } }
  else h

/-- The method `createErrorResult`, the keys of `details` being set in `info`. -/
def createErrorResult (info : ErrorInfo) : DeliveryResult :=
  { success := false, error := some info }

/-- The method `openCircuitBreaker`; `now` is the reading of `Date.now()`. -/
def openCircuitBreaker (h : WebhookErrorHandler) (now : Nat) : WebhookErrorHandler :=
  { h with circuitBreaker := { h.circuitBreaker with isOpen := true, lastFailureTime := some now } }

/-- The method `resetCircuitBreaker`. -/
def resetCircuitBreaker (h : WebhookErrorHandler) : WebhookErrorHandler :=
  if h.circuitBreaker.isOpen = true ∨ h.circuitBreaker.failureCount > 0 then
    { h with circuitBreaker := { h.circuitBreaker with
        isOpen := false, failureCount := 0, lastFailureTime := none } }
  else h

/-- The method `addToErrorQueue`. -/
def addToErrorQueue (h : WebhookErrorHandler) (payload : JSValue) (error : DeliveryResult) :
    WebhookErrorHandler :=
  { h with errorQueue := h.errorQueue ++ [{ payload := payload, error := error, retryCount := 0 }] }

/-- What one invocation of the delivery function does: it returns `data`, or it raises
`error`. -/
inductive Outcome where
  | resolve (data : JSValue)
  | reject (error : Thrown)

/-- The environment of one call of `executeWithRetry`: the reading of `Date.now()` at the
circuit breaker check, what the delivery function does when it is invoked with
`options.attempt = i` (its invocation number `i + 1` of the call), and the reading of
`Date.now()` in `openCircuitBreaker` when the failure of that invocation is handled. -/
structure Env where
  now : Nat
  deliveryFn : Nat → Outcome
  failTime : Nat → Nat

/-- One invocation of the delivery function: the `attempt` and the `timeout` it is given, and
the circuit breaker at that moment. -/
structure Invocation where
  attempt : Nat
  timeout : Nat
  breaker : CircuitBreaker

/-- How a call ends: it returns a result, an exception propagates to the caller, or the fuel
of the model runs out. -/
inductive Completion where
  | returned (result : DeliveryResult)
  | threw (e : JSError)
  | outOfFuel

/-- A call of `executeWithRetry`: the state it leaves, the invocations of the delivery function
it made, in order, and how it ended. -/
structure Run where
  handler : WebhookErrorHandler
  invocations : List Invocation
  completion : Completion

/-- The code of `executeWithRetry` after the loop, from `// All attempts failed`. -/
def allAttemptsFailed (h : WebhookErrorHandler) (payload : JSValue) (attempt : Nat)
    (lastError : Option Thrown) (invocations : List Invocation) : Run :=
  let h1 := { h with metrics := { h.metrics with failedRequests := h.metrics.failedRequests + 1 } }
  let lastType : Option JSString := match lastError with
    | some (.errorObject _ _ _ (some t)) => if t.isEmpty then none else some t
    | _ => none
  let lastMessage : Option JSString := match lastError with
    | some (.errorObject _ (some m) _ _) => if m.isEmpty then none else some m
    | _ => none
  let finalError := createErrorResult
    { type := lastType.getD (lit "MAX_RETRIES_EXCEEDED")
      message := lastMessage.getD (lit "Maximum retry attempts exceeded")
      attempts := some attempt
      lastError := lastError }
  let h2 := if h1.options.fallbackQueue then addToErrorQueue h1 payload finalError else h1
  { handler := h2, invocations := invocations, completion := .returned finalError }

/-- The loop `while (attempt <= this.options.maxRetries)` of `executeWithRetry` and the code
after it, entered with the given `attempt` and `lastError`; every iteration uses one unit of
fuel. -/
def retryLoop (env : Env) (payload : JSValue) :
    Nat → WebhookErrorHandler → Nat → Option Thrown → List Invocation → Run
  | 0, h, _, _, invocations =>
    { handler := h, invocations := invocations, completion := .outOfFuel }
  | fuel + 1, h, attempt, lastError, invocations =>
    if attempt ≤ h.options.maxRetries then
      let invocations1 := invocations ++
        [{ attempt := attempt, timeout := calculateTimeout attempt, breaker := h.circuitBreaker }]
      match env.deliveryFn attempt with
      | .resolve result =>
        let h1 := { h with metrics := { h.metrics with
          successfulRequests := h.metrics.successfulRequests + 1 } }
        let h2 := resetCircuitBreaker h1
        let h3 := if attempt > 0 then
            { h2 with metrics := { h2.metrics with
              retriedRequests := h2.metrics.retriedRequests + 1 } }
          else h2
        { handler := h3, invocations := invocations1,
          completion := .returned
            { success := true, data := some result, attempts := some (attempt + 1) } }
      | .reject error =>
        let lastError1 := some error
        let attempt1 := attempt + 1
        match analyzeError h.options error with
        | .error e => { handler := h, invocations := invocations1, completion := .threw e }
        | .ok errorAnalysis =>
          let h1 := recordError h errorAnalysis.type
          if errorAnalysis.retryable = false ∨ attempt1 > h1.options.maxRetries then
            allAttemptsFailed h1 payload attempt1 lastError1 invocations1
          else
            let h2 := { h1 with circuitBreaker := { h1.circuitBreaker with
              failureCount := h1.circuitBreaker.failureCount + 1 } }
            let h3 := if h2.circuitBreaker.failureCount ≥ h2.circuitBreaker.threshold then
                openCircuitBreaker h2 (env.failTime attempt)
              else h2
            retryLoop env payload fuel h3 attempt1 lastError1 invocations1
    else
      allAttemptsFailed h payload attempt lastError invocations

/-- The method `executeWithRetry`, called on the state `h`.  The fuel `maxRetries + 2` is more
than the loop can use. -/
def executeWithRetry (h : WebhookErrorHandler) (env : Env) (payload : JSValue) : Run :=
  let start := fun (h0 : WebhookErrorHandler) =>
    retryLoop env payload (h0.options.maxRetries + 2)
      { h0 with metrics := { h0.metrics with totalRequests := h0.metrics.totalRequests + 1 } }
      0 none []
  if h.circuitBreaker.isOpen then
    if (env.now : Int) - ((h.circuitBreaker.lastFailureTime.getD 0 : Nat) : Int) <
        (h.circuitBreaker.timeout : Int) then
      { handler := h, invocations := [],
        completion := .returned (createErrorResult
          { type := lit "CIRCUIT_BREAKER_OPEN"
            message := lit "Circuit breaker is open, requests temporarily blocked"
            circuitBreakerTimeout := some h.circuitBreaker.timeout }) }
    else start (resetCircuitBreaker h)
  else start h

/-- The constant `exponentialDelay` of `calculateDelay`:
`this.options.baseDelay * Math.pow(this.options.exponentialBase, attempt)`. -/
def exponentialDelay (fr : FloatRuntime) (options : Options) (attempt : Nat) : JSNumber :=
  JSNumber.mul fr (.fin options.baseDelay) (fr.pow options.exponentialBase attempt)

/-- The factor `Math.random() * 2 - 1` of the jitter; `random` is the value of
`Math.random()`. -/
def jitterFactor (fr : FloatRuntime) (random : ℚ) : JSNumber :=
  JSNumber.sub fr (JSNumber.mul fr (.fin random) (.fin 2)) (.fin 1)

/-- The constant `jitter` of `calculateDelay`:
`exponentialDelay * this.options.jitterRange * (Math.random() * 2 - 1)`. -/
def jitter (fr : FloatRuntime) (options : Options) (attempt : Nat) (random : ℚ) : JSNumber :=
  JSNumber.mul fr
    (JSNumber.mul fr (exponentialDelay fr options attempt) (.fin options.jitterRange))
    (jitterFactor fr random)

/-- The method `calculateDelay`; `random` is the value of `Math.random()`. -/
def calculateDelay (fr : FloatRuntime) (options : Options) (attempt : Nat) (random : ℚ) :
    JSNumber :=
  let delay := mathMin
    (JSNumber.add fr (exponentialDelay fr options attempt) (jitter fr options attempt random))
    (.fin options.maxDelay)
  mathMax delay (.fin 0)

/-- The delay as the specification writes it, in exact arithmetic, for the jitter draw `u`:
`max(0, min(baseDelay * exponentialBase^attempt * (1 + jitterRange * u), maxDelay))`. -/
def delayFormula (options : Options) (attempt : Nat) (u : ℚ) : ℚ :=
  max 0 (min (options.baseDelay * options.exponentialBase ^ attempt *
    (1 + options.jitterRange * u)) options.maxDelay)

/-- Whether the doubles that `calculateDelay(attempt)` computes are the exact values: the
constants `exponentialDelay` and `jitter` and their sum are what exact arithmetic gives, no
operation having rounded or overflowed. -/
def ExactAt (fr : FloatRuntime) (options : Options) (attempt : Nat) (random : ℚ) : Prop :=
  exponentialDelay fr options attempt =
      .fin (options.baseDelay * options.exponentialBase ^ attempt) ∧
    jitter fr options attempt random =
      .fin (options.baseDelay * options.exponentialBase ^ attempt * options.jitterRange *
        (random * 2 - 1)) ∧
    JSNumber.add fr (.fin (options.baseDelay * options.exponentialBase ^ attempt))
        (.fin (options.baseDelay * options.exponentialBase ^ attempt * options.jitterRange *
          (random * 2 - 1))) =
      .fin (options.baseDelay * options.exponentialBase ^ attempt +
        options.baseDelay * options.exponentialBase ^ attempt * options.jitterRange *
          (random * 2 - 1))

/-- The exact results that the doubles round to an infinity are those from `2^1024 - 2^970`
on, in absolute value. -/
def overflowBound : ℚ := 2 ^ 1024 - 2 ^ 970

/-- A platform for closed examples: it rounds no result, and it overflows where the doubles
do.  It computes what the doubles compute wherever the exact result of each operation is a
double or overflows. -/
def exactDoubles : FloatRuntime where
  round := fun q => if -overflowBound < q ∧ q < overflowBound then some q else none
  pow := fun base exponent =>
    if -overflowBound < base ^ exponent ∧ base ^ exponent < overflowBound then
      .fin (base ^ exponent)
    else .inf (decide (base ^ exponent < 0))

/-- The arguments of `this.delay` in the loop of `executeWithRetry`, in order: the loop of
`retryLoop`, of which only the delays are kept.  The loop reads nothing of the state but the
options, which it does not change; `random i` is the value of `Math.random()` in the
iteration whose delivery has `options.attempt = i`. -/
def retryDelays (fr : FloatRuntime) (env : Env) (random : Nat → ℚ) (options : Options) :
    Nat → Nat → List JSNumber
  | 0, _ => []
  | fuel + 1, attempt =>
    if attempt ≤ options.maxRetries then
      match env.deliveryFn attempt with
      | .resolve _ => []
      | .reject error =>
        let attempt1 := attempt + 1
        match analyzeError options error with
        | .error _ => []
        | .ok errorAnalysis =>
          if errorAnalysis.retryable = false ∨ attempt1 > options.maxRetries then []
          else
            calculateDelay fr options (attempt1 - 1) (random attempt) ::
              retryDelays fr env random options fuel attempt1
    else []

/-- The delays that a call of `executeWithRetry` awaits between its attempts, in order. -/
def awaitedDelays (fr : FloatRuntime) (h : WebhookErrorHandler) (env : Env)
    (random : Nat → ℚ) : List JSNumber :=
  if h.circuitBreaker.isOpen then
    if (env.now : Int) - ((h.circuitBreaker.lastFailureTime.getD 0 : Nat) : Int) <
        (h.circuitBreaker.timeout : Int) then []
    else retryDelays fr env random h.options (h.options.maxRetries + 2) 0
  else retryDelays fr env random h.options (h.options.maxRetries + 2) 0

/-- An element of the array that `processErrorQueue` returns: the result of
`executeWithRetry`, the object `{payload, success: false, error: 'Max queue retry attempts
exceeded'}`, or the object `{payload, success: false, error: error.message}` of the `catch`
block. -/
inductive QueueResult where
  | delivery (result : DeliveryResult)
  | dropped (payload : JSValue)
  | threw (payload : JSValue) (e : JSError)

/-- A call of `processErrorQueue`: the state it leaves, the array it returns, and whether the
fuel of a call of `executeWithRetry` ran out. -/
structure QueueRun where
  handler : WebhookErrorHandler
  results : List QueueResult
  outOfFuel : Bool := false

/-- The loop `for (const item of itemsToProcess)` of `processErrorQueue`; `envs i` is the
environment of the call of `executeWithRetry` for the item of index `i`. -/
def processItems (envs : Nat → Env) :
    List QueueItem → Nat → WebhookErrorHandler → List QueueResult → QueueRun
  | [], _, h, results => { handler := h, results := results }
  | item :: rest, i, h, results =>
    let item1 := { item with retryCount := item.retryCount + 1 }
    if item1.retryCount > 3 then
      processItems envs rest (i + 1) h (results ++ [.dropped item1.payload])
    else
      let run := executeWithRetry h (envs i) item1.payload
      match run.completion with
      | .returned result =>
        let h1 := if result.success = false then
            { run.handler with errorQueue := run.handler.errorQueue ++ [item1] }
          else run.handler
        processItems envs rest (i + 1) h1 (results ++ [.delivery result])
      | .threw e =>
        processItems envs rest (i + 1)
          { run.handler with errorQueue := run.handler.errorQueue ++ [item1] }
          (results ++ [.threw item1.payload e])
      | .outOfFuel => { handler := run.handler, results := results, outOfFuel := true }

/-- The method `processErrorQueue`. -/
def processErrorQueue (h : WebhookErrorHandler) (envs : Nat → Env) : QueueRun :=
  if h.errorQueue.length = 0 then { handler := h, results := [] }
  else processItems envs h.errorQueue 0 { h with errorQueue := [] } []

/-- The `type` of the terminal error that `executeWithRetry` builds from the last raised value:
the expression `lastError?.type || 'MAX_RETRIES_EXCEEDED'`. -/
def terminalType : Thrown → JSString
  | .errorObject _ _ _ (some t) => if t.isEmpty then lit "MAX_RETRIES_EXCEEDED" else t
  | _ => lit "MAX_RETRIES_EXCEEDED"

/-- The value that `extractValue` is to return: the value under the first source key that
holds a value other than `null`, `undefined` and the empty string, and `null` when there is
none. -/
def firstPresent (data : List (JSString × JSValue)) : List JSString → JSValue
  | [] => .null
  | source :: rest =>
    match getOwn data source with
    | some v => if v.isPresent then v else firstPresent data rest
    | none => firstPresent data rest

/-! ## Calls of `executeWithRetry` in sequence, and notions for the theorems -/

/-- The state after the handling of a failure that is retried: the error is recorded, the
failure count grows by one, and the breaker opens when the count has reached the threshold. -/
def afterRetriedFailure (h : WebhookErrorHandler) (failTime : Nat) (errorType : JSString) :
    WebhookErrorHandler :=
  let h1 := recordError h errorType
  let h2 := { h1 with circuitBreaker := { h1.circuitBreaker with
    failureCount := h1.circuitBreaker.failureCount + 1 } }
  if h2.circuitBreaker.failureCount ≥ h2.circuitBreaker.threshold then
    openCircuitBreaker h2 failTime
  else h2

/-- The invocation that the loop records for `attempt` in state `h`. -/
def invocationOf (h : WebhookErrorHandler) (attempt : Nat) : Invocation :=
  { attempt := attempt, timeout := calculateTimeout attempt, breaker := h.circuitBreaker }

/-- Consecutive calls of `executeWithRetry` with one payload, each on the state that the
call before it left. -/
def callsFrom (payload : JSValue) : WebhookErrorHandler → List Env → List Run
  | _, [] => []
  | h, env :: rest =>
    (executeWithRetry h env payload) :: callsFrom payload (executeWithRetry h env payload).handler rest

/-- The state after consecutive calls of `executeWithRetry`. -/
def stateAfter (payload : JSValue) : WebhookErrorHandler → List Env → WebhookErrorHandler
  | h, [] => h
  | h, env :: rest => stateAfter payload (executeWithRetry h env payload).handler rest

/-- Whether a call returned a failure result. -/
def Run.returnedFailure (r : Run) : Bool :=
  match r.completion with
  | .returned res => !res.success
  | _ => false

/-- The type of the error of the result that a call returned. -/
def Run.errorType (r : Run) : Option JSString :=
  match r.completion with
  | .returned res => res.error.map (fun info => info.type)
  | _ => none

/-- The invariant of the breaker over consecutive failing calls, `k` of which have been made:
the configuration is the given one, and the breaker is open since a time `T` with `W T`, or it
is closed with a failure count from `k` up to the threshold, excluded. -/
def BreakerInv (opts : Options) (t τ : Nat) (W : Nat → Prop) (k : Nat)
    (h : WebhookErrorHandler) : Prop :=
  h.options = opts ∧ h.circuitBreaker.threshold = t ∧ h.circuitBreaker.timeout = τ ∧
    ((h.circuitBreaker.isOpen = true ∧ ∃ T, h.circuitBreaker.lastFailureTime = some T ∧ W T) ∨
      (h.circuitBreaker.isOpen = false ∧ k ≤ h.circuitBreaker.failureCount ∧
        h.circuitBreaker.failureCount < t))

/-! ## `mergeDeep`, the rules as JavaScript values, and paths -/

/-- The conversion `Boolean(v)`. -/
def JSValue.isTruthy : JSValue → Bool
  | .undefined => false
  | .null => false
  | .bool b => b
  | .num .nan => false
  | .num (.fin q) => q != 0
  | .num (.inf _) => true
  | .str s => !s.isEmpty
  | .arr _ => true
  | .obj _ => true

/-- The keys `start`, `start + 1`, ... in decimal, each with its element. -/
def indexedFrom {V : Type} : Nat → List V → List (JSString × V)
  | _, [] => []
  | start, v :: rest => (natToString start, v) :: indexedFrom (start + 1) rest

/-- The own enumerable properties of a value, which the spread `{ ...v }` copies and the loop
`for (const key in v)` visits: the properties of an object, the elements of an array and the
code units of a string under their indices, and nothing for any other value. -/
def ownProps : JSValue → List (JSString × JSValue)
  | .obj props => props
  | .arr items => indexedFrom 0 items
  | .str s => indexedFrom 0 (s.map (fun c => JSValue.str [c]))
  | _ => []

/-- The assignment `result[key] = value` on an object whose prototype is `Object.prototype`.
When `key` is `__proto__` and the object has no own property of that name, the assignment
calls the setter that `Object.prototype` has for `__proto__`: it changes the prototype of the
object when the value is an object or `null` (the prototype is not part of the list), and does
nothing otherwise; no own property is created. -/
def assignProp (result : List (JSString × JSValue)) (key : JSString) (value : JSValue) :
    List (JSString × JSValue) :=
  if key = lit "__proto__" ∧ hasOwn result key = false then result
  else setProp result key value

/-- The expression `result[key] || {}`, from the own property `key` of `result` if there is
one.  Without an own property the expression is `{}` or, for a property name of
`Object.prototype`, a function or object that has no own enumerable property either. -/
def orEmptyObject (current : Option JSValue) : JSValue :=
  match current with
  | some v => if v.isTruthy then v else .obj []
  | none => .obj []

mutual
/-- The loop `for (const key in source)` of `mergeDeep`, on the properties of `result` and of
`source`. -/
def mergeInto (result : List (JSString × JSValue)) (source : List (JSString × JSValue)) :
    List (JSString × JSValue) :=
  match source with
  | [] => result
  | entry :: rest => mergeInto (mergeEntry result entry) rest
termination_by structural source
/-- The body of the loop of `mergeDeep` for one property of `source`. -/
def mergeEntry (result : List (JSString × JSValue)) (entry : JSString × JSValue) :
    List (JSString × JSValue) :=
  match entry with
  | (key, v) => assignProp result key (mergeValue (orEmptyObject (getOwn result key)) v)
termination_by structural entry
/-- The value that the body of the loop assigns for the value `v` of `source[key]`, where
`current` is `result[key] || {}`: the recursive call `this.mergeDeep(current, v)` when `v` is
an object that is not an array, and `v` otherwise. -/
def mergeValue (current : JSValue) (v : JSValue) : JSValue :=
  match v with
  | .obj props => .obj (mergeInto (ownProps current) props)
  | .undefined => .undefined
  | .null => .null
  | .bool b => .bool b
  | .num n => .num n
  | .str s => .str s
  | .arr items => .arr items
termination_by structural v
end

/-- The method `mergeDeep`.  The list of the result gives its own properties; the place of
an array index among them is not modelled. -/
def mergeDeep (target source : JSValue) : JSValue :=
  .obj (mergeInto (ownProps target) (ownProps source))

/-- The string of a rule type. -/
def FieldType.toJS : FieldType → JSString
  | .string => lit "string"
  | .number => lit "number"
  | .array => lit "array"
  | .object => lit "object"
  | .text => lit "text"
  | .email => lit "email"
  | .phone => lit "phone"
  | .select => lit "select"

/-- The key of a named validation. -/
def ValidationName.toJS : ValidationName → JSString
  | .email => lit "email"
  | .phone => lit "phone"
  | .postalCode => lit "postalCode"
  | .roofSize => lit "roofSize"

/-- The key of a named transformation. -/
def TransformationName.toJS : TransformationName → JSString
  | .stateCode => lit "stateCode"
  | .countryCode => lit "countryCode"

/-- The property `key` with the value `f v` when the attribute is `some v`, and no property
when it is `none`. -/
def optionalProp {α : Type} (key : JSString) (f : α → JSValue) :
    Option α → List (JSString × JSValue)
  | some v => [(key, f v)]
  | none => []

/-- The object literal of a field rule, with its properties in the order in which every rule
of `getDefaultMappingRules()` writes them. -/
def FieldRule.toJS (rule : FieldRule) : JSValue :=
  .obj ([ (lit "sources", .arr (rule.sources.map JSValue.str)),
          (lit "required", .bool rule.required),
          (lit "type", .str rule.type.toJS) ] ++
    optionalProp (lit "maxLength") (fun (m : Nat) => JSValue.num (.fin m)) rule.maxLength ++
    optionalProp (lit "min") (fun q => JSValue.num (.fin q)) rule.min ++
    optionalProp (lit "max") (fun q => JSValue.num (.fin q)) rule.max ++
    optionalProp (lit "options") (fun (o : List JSString) => JSValue.arr (o.map JSValue.str))
      rule.options ++
    optionalProp (lit "default") id rule.default ++
    optionalProp (lit "validation") (fun (n : ValidationName) => JSValue.str n.toJS)
      rule.validation ++
    optionalProp (lit "transformation") (fun (n : TransformationName) => JSValue.str n.toJS)
      rule.transformation)

/-- The object that holds a rule set: the categories, each with its field rules. -/
def rulesToJS (rules : MappingRules) : JSValue :=
  .obj (rules.map (fun category =>
    (category.1, JSValue.obj (category.2.map (fun field => (field.1, field.2.toJS))))))

/-- The value at a path of property names, through own enumerable properties. -/
def valueAt : JSValue → List JSString → Option JSValue
  | v, [] => some v
  | v, key :: rest =>
    match getOwn (ownProps v) key with
    | some child => valueAt child rest
    | none => none

/-- The leaf that an override tree defines at a path: the path leads through objects that are
not arrays to a value that is not such an object. -/
def leafAt : List (JSString × JSValue) → List JSString → Option JSValue
  | _, [] => none
  | props, [key] =>
    match getOwn props key with
    | some (.obj _) => none
    | some v => some v
    | none => none
  | props, key :: next :: rest =>
    match getOwn props key with
    | some (.obj sub) => leafAt sub (next :: rest)
    | _ => none

/-- Whether an override tree leaves a path alone: on the way along the path, through objects
that are not arrays, the tree has no property for the next name. -/
def leavesAlone : List (JSString × JSValue) → List JSString → Bool
  | _, [] => false
  | props, key :: rest =>
    match getOwn props key with
    | none => true
    | some (.obj sub) => leavesAlone sub rest
    | some _ => false

mutual
/-- Whether the objects of an override tree have distinct property names, none of them
`__proto__`. -/
def properProps : List (JSString × JSValue) → Bool
  | [] => true
  | entry :: rest => properEntry entry && !(hasOwn rest entry.1) && properProps rest
/-- Whether a property has a name other than `__proto__` and a proper value. -/
def properEntry : JSString × JSValue → Bool
  | (key, v) => key != lit "__proto__" && properValue v
/-- Whether the objects of a value of an override tree are proper; an array is a leaf. -/
def properValue : JSValue → Bool
  | .obj props => properProps props
  | _ => true
end

/-! ## The start of `mapData` on a heap of objects -/

/-- A value as a variable or a property holds it: a primitive value, the address of an object
or array of the heap, or one of the functions and objects that `Object.prototype` supplies. -/
inductive HValue where
  | undefined
  | null
  | bool (b : Bool)
  | num (n : JSNumber)
  | str (s : JSString)
  | ref (address : Nat)
  | builtin

/-- An object of the heap: whether it is an array, and its own enumerable properties (for an
array, its elements under their indices). -/
structure HObject where
  isArray : Bool
  props : List (JSString × HValue)

/-- The heap: the objects that exist, each at its index as address. -/
abbrev Heap := List HObject

/-- The conversion `Boolean(v)` of a value of the heap. -/
def HValue.isTruthy : HValue → Bool
  | .undefined => false
  | .null => false
  | .bool b => b
  | .num .nan => false
  | .num (.fin q) => q != 0
  | .num (.inf _) => true
  | .str s => !s.isEmpty
  | .ref _ => true
  | .builtin => true

/-- The own enumerable properties of a value of the heap. -/
def ownPropsH (heap : Heap) : HValue → List (JSString × HValue)
  | .ref address =>
    match heap[address]? with
    | some object => object.props
    | none => []
  | .str s => indexedFrom 0 (s.map (fun c => HValue.str [c]))
  | _ => []

/-- The test `v && typeof v === 'object' && !Array.isArray(v)`. -/
def isPlainObject (heap : Heap) : HValue → Bool
  | .ref address =>
    match heap[address]? with
    | some object => !object.isArray
    | none => false
  | _ => false

/-- The expression `result[key]`, from the own properties of `result`: the own property, what
`Object.prototype` supplies under the name, or `undefined`. -/
def readProp (props : List (JSString × HValue)) (key : JSString) : HValue :=
  match getOwn props key with
  | some v => v
  | none => if objectPrototypeKeys.contains key then .builtin else .undefined

/-- The assignment `result[key] = value` on the object at `address`; an assignment to
`__proto__` creates no own property unless the object has one of that name. -/
def writeProp (heap : Heap) (address : Nat) (key : JSString) (value : HValue) : Heap :=
  match heap[address]? with
  | some object =>
    if key = lit "__proto__" ∧ hasOwn object.props key = false then heap
    else heap.set address { object with props := setProp object.props key value }
  | none => heap

/-- The expression `current || {}`: when `current` is falsy, an empty object is created. -/
def orEmptyObjectH (heap : Heap) (current : HValue) : Heap × HValue :=
  if current.isTruthy then (heap, current)
  else (heap ++ [{ isArray := false, props := [] }], .ref heap.length)

/-- The loop `for (const key in source)` of `mergeDeep` on the heap: `result` is the address
of the object that the call has created, the list holds the properties of `source` that are
still to be visited, and `recurse` is the recursive call.  The loop ends with `false` when a
recursive call does not return. -/
def mergeLoopH (recurse : Heap → HValue → HValue → Heap × Option Nat) (result : Nat) :
    List (JSString × HValue) → Heap → Heap × Bool
  | [], heap => (heap, true)
  | (key, v) :: rest, heap =>
    if v.isTruthy && isPlainObject heap v then
      match orEmptyObjectH heap (readProp (ownPropsH heap (.ref result)) key) with
      | (heap1, target) =>
        match recurse heap1 target v with
        | (heap2, some merged) =>
          mergeLoopH recurse result rest (writeProp heap2 result key (.ref merged))
        | (heap2, none) => (heap2, false)
    else mergeLoopH recurse result rest (writeProp heap result key v)

/-- The method `mergeDeep` on the heap: it returns the heap that it leaves and the address of
the object that it returns, or `none` when the recursion is deeper than `fuel` (on a source that
contains itself the recursion of the method does not end). -/
def mergeDeepH : Nat → Heap → HValue → HValue → Heap × Option Nat
  | 0, heap, _, _ => (heap, none)
  | fuel + 1, heap, target, source =>
    let result := heap.length
    let heap1 := heap ++ [{ isArray := false, props := ownPropsH heap target }]
    match mergeLoopH (mergeDeepH fuel) result (ownPropsH heap1 source) heap1 with
    | (heap2, true) => (heap2, some result)
    | (heap2, false) => (heap2, none)

/-- The method `mapData` on the heap up to the point where `mappingRules` is bound: it creates
`mappedData`, `errors` and `warnings`, and merges `customMapping` into `this.mappingRules`.
The statements after that point read the rules and the record, and assign only to properties
of the objects that the call has created. -/
def mapDataRulesH (fuel : Nat) (heap : Heap) (mappingRules customMapping : HValue) :
    Heap × Option Nat :=
  mergeDeepH fuel
    (heap ++ [{ isArray := false, props := [] }, { isArray := true, props := [] },
      { isArray := true, props := [] }])
    mappingRules customMapping

/-- Whether a value is a primitive or the address of an object of the heap. -/
def HValue.within (heap : Heap) : HValue → Bool
  | .ref address => decide (address < heap.length)
  | _ => true

/-- Whether every address that an object of the heap holds is the address of an object of
the heap. -/
def closedHeap (heap : Heap) : Bool :=
  heap.all (fun object => object.props.all (fun p => p.2.within heap))

/-- The properties read with `read`, or `none` when one of them cannot be read. -/
def readProps (read : HValue → Option JSValue) :
    List (JSString × HValue) → Option (List (JSString × JSValue))
  | [] => some []
  | (key, v) :: rest =>
    match read v, readProps read rest with
    | some value, some values => some ((key, value) :: values)
    | _, _ => none

/-- The JSON value that a value of the heap stands for, read to the depth `depth`; `none` when
the value is deeper, or when it holds something that is not a JSON value. -/
def readValue : Nat → Heap → HValue → Option JSValue
  | _, _, .undefined => some .undefined
  | _, _, .null => some .null
  | _, _, .bool b => some (.bool b)
  | _, _, .num n => some (.num n)
  | _, _, .str s => some (.str s)
  | _, _, .builtin => none
  | 0, _, .ref _ => none
  | depth + 1, heap, .ref address =>
    match heap[address]? with
    | none => none
    | some object =>
      match readProps (readValue depth heap) object.props with
      | none => none
      | some props => if object.isArray then some (.arr (props.map Prod.snd)) else some (.obj props)

mutual
/-- The evaluation of the literal of a JSON value: its objects and arrays are created in the
heap, and the value that stands for it is returned.  The addresses are those of the model;
a program cannot observe them. -/
def allocValue (heap : Heap) (v : JSValue) : Heap × HValue :=
  match v with
  | .undefined => (heap, .undefined)
  | .null => (heap, .null)
  | .bool b => (heap, .bool b)
  | .num n => (heap, .num n)
  | .str s => (heap, .str s)
  | .arr items =>
    match allocItems heap items with
    | (heap1, elements) =>
      (heap1 ++ [{ isArray := true, props := indexedFrom 0 elements }], .ref heap1.length)
  | .obj props =>
    match allocProps heap props with
    | (heap1, properties) =>
      (heap1 ++ [{ isArray := false, props := properties }], .ref heap1.length)
termination_by structural v
/-- The evaluation of the elements of an array literal, in order. -/
def allocItems (heap : Heap) (items : List JSValue) : Heap × List HValue :=
  match items with
  | [] => (heap, [])
  | v :: rest =>
    match allocValue heap v with
    | (heap1, element) =>
      match allocItems heap1 rest with
      | (heap2, elements) => (heap2, element :: elements)
termination_by structural items
/-- The evaluation of the properties of an object literal, in order. -/
def allocProps (heap : Heap) (props : List (JSString × JSValue)) :
    Heap × List (JSString × HValue) :=
  match props with
  | [] => (heap, [])
  | entry :: rest =>
    match allocEntry heap entry with
    | (heap1, property) =>
      match allocProps heap1 rest with
      | (heap2, properties) => (heap2, property :: properties)
termination_by structural props
/-- The evaluation of one property of an object literal. -/
def allocEntry (heap : Heap) (entry : JSString × JSValue) : Heap × (JSString × HValue) :=
  match entry with
  | (key, v) =>
    match allocValue heap v with
    | (heap1, value) => (heap1, (key, value))
termination_by structural entry
end

/-- A call of `mapData` without overrides, made on the heap `heap`: the default value `{}` of
`customMapping` is created, and then the rules are merged. -/
def mapDataDefaultH (fuel : Nat) (heap : Heap) (mappingRules : HValue) : Heap × Option Nat :=
  mapDataRulesH fuel (heap ++ [{ isArray := false, props := [] }]) mappingRules
    (.ref heap.length)

/-- The value that a call returned, `undefined` standing for a call that did not return. -/
def returnedValue (out : Heap × Option Nat) : HValue :=
  match out.2 with
  | some address => .ref address
  | none => .undefined

/-- The objects below the address `base` are in `heap1` what they are in `heap`, and `heap1`
has every address of `heap`. -/
def FrameBelow (base : Nat) (heap heap1 : Heap) : Prop :=
  heap.length ≤ heap1.length ∧ ∀ a, a < base → heap1[a]? = heap[a]?

/-! ## Equality of values as a Boolean -/

mutual
/-- Whether two JSON values are the same value. -/
def JSValue.same (a b : JSValue) : Bool :=
  match a with
  | .undefined => (match b with | .undefined => true | _ => false)
  | .null => (match b with | .null => true | _ => false)
  | .bool x => (match b with | .bool y => x == y | _ => false)
  | .num x => (match b with | .num y => x == y | _ => false)
  | .str x => (match b with | .str y => x == y | _ => false)
  | .arr xs => (match b with | .arr ys => sameItems xs ys | _ => false)
  | .obj xs => (match b with | .obj ys => sameProps xs ys | _ => false)
termination_by structural a
/-- Whether two lists of JSON values are the same. -/
def sameItems (xs ys : List JSValue) : Bool :=
  match xs with
  | [] => (match ys with | [] => true | _ => false)
  | x :: xs1 => (match ys with | y :: ys1 => x.same y && sameItems xs1 ys1 | _ => false)
termination_by structural xs
/-- Whether two lists of properties are the same. -/
def sameProps (xs ys : List (JSString × JSValue)) : Bool :=
  match xs with
  | [] => (match ys with | [] => true | _ => false)
  | x :: xs1 => (match ys with | y :: ys1 => sameEntry x y && sameProps xs1 ys1 | _ => false)
termination_by structural xs
/-- Whether two properties are the same. -/
def sameEntry (x y : JSString × JSValue) : Bool :=
  match x with
  | (k, v) => k == y.1 && v.same y.2
termination_by structural x
end

/-- Two optional JSON values that are the same. -/
def sameOption : Option JSValue → Option JSValue → Bool
  | some a, some b => a.same b
  | none, none => true
  | _, _ => false

/-! ## The outcomes of a field in a result of `mapData` -/

/-- Outcome (a) of a field: a candidate was found, `processValue` accepted it, and the field
is emitted with the processed value. -/
def emittedProcessed (rt : JSRuntime) (rawData : List (JSString × JSValue)) (field : JSString)
    (rule : FieldRule) (res : MappingResult) : Prop :=
  ∃ cand pr, extractValue rawData rule.sources = .ok cand ∧ cand.isPresent = true ∧
    processValue rt cand rule field = .ok pr ∧ pr.isValid = true ∧
    res.get field = some pr.value

/-- Outcome (b) of a field: no candidate, the field is not required and has a default, and
the field is emitted with that default. -/
def emittedDefault (rawData : List (JSString × JSValue)) (field : JSString)
    (rule : FieldRule) (res : MappingResult) : Prop :=
  ∃ cand d, extractValue rawData rule.sources = .ok cand ∧ cand.isPresent = false ∧
    rule.required = false ∧ rule.default = some d ∧ res.get field = some (.value d)

/-- Outcome (c) of a field: an error entry names the field, and the field is not emitted. -/
def reportedError (field : JSString) (res : MappingResult) : Prop :=
  (∃ e ∈ res.metadata.errors, e.field = field) ∧ res.get field = none

/-- Outcome (d) of a field: no candidate, not required, no default, and the field is neither
emitted nor named in an error entry. -/
def passedOver (rawData : List (JSString × JSValue)) (field : JSString)
    (rule : FieldRule) (res : MappingResult) : Prop :=
  ∃ cand, extractValue rawData rule.sources = .ok cand ∧ cand.isPresent = false ∧
    rule.required = false ∧ rule.default = none ∧ res.get field = none ∧
    ∀ e ∈ res.metadata.errors, e.field ≠ field

/-! ## InboundWebhookServer (`src/inbound-webhook-server.js`) and GoHighLevelWebhook (`src/gohighlevel-webhook-integration.js`) -/

/-- The response of the relay, as far as the test reads it: the status and the property
`success` of the body (`none` when the body has no such property). -/
structure WebhookResponse where
  status : Nat
  success : Option Bool
  deriving DecidableEq

/-- The statements `payload.source = source`, `payload.receivedAt = ...` and
`payload.requestId = requestId` of `handleWebhook`. -/
def addRequestFields (payload : List (JSString × JSValue)) (source receivedAt requestId : JSString) :
    List (JSString × JSValue) :=
  setProp (setProp (setProp payload (lit "source") (.str source)) (lit "receivedAt")
    (.str receivedAt)) (lit "requestId") (.str requestId)

/-- The method `handleWebhook` of `InboundWebhookServer` (`src/inbound-webhook-server.js`) for
a request with a non-empty JSON body, without signature check and without forwarding (as
`POST /webhook/test` without `forward`): the body gets the request fields and is mapped; a
mapping that is not valid is answered with status 422, a valid one with status 200 and
`success: true`, and an exception with status 500 and `success: false`. -/
def handleWebhook (rt : JSRuntime) (body : List (JSString × JSValue))
    (source receivedAt requestId : JSString) : WebhookResponse :=
  match mapData rt (addRequestFields body source receivedAt requestId) with
  | .error _ => { status := 500, success := some false }
  | .ok mappedData =>
    if !mappedData.metadata.isValid then { status := 422, success := none }
    else { status := 200, success := some true }

/-- The method `formatPhoneNumber` of the class `GoHighLevelWebhook`
(`src/gohighlevel-webhook-integration.js`), on a string. -/
def GoHighLevelWebhook.formatPhoneNumber (phone : JSString) : JSString :=
  let cleaned := phone.filter isDigit
  if cleaned.length = 10 then
    lit "(" ++ cleaned.take 3 ++ lit ") " ++ (cleaned.take 6).drop 3 ++ lit "-" ++ cleaned.drop 6
  else if cleaned.length = 11 ∧ cleaned.head? = some 49 then
    lit "+1 (" ++ (cleaned.take 4).drop 1 ++ lit ") " ++ (cleaned.take 7).drop 4 ++ lit "-" ++
      cleaned.drop 7
  else
    phone

/-! ## Operations on an engine and the stretches of a call -/

/-- The method `resetMetrics`. -/
def resetMetrics (h : WebhookErrorHandler) : WebhookErrorHandler :=
  { h with metrics :=
      { totalRequests := 0, successfulRequests := 0, failedRequests := 0, retriedRequests := 0,
        errorTypes := [] } }

/-- An operation on an engine that is used sequentially: a call of `executeWithRetry` that runs
to its end, or a call of `resetMetrics`. -/
inductive EngineOp where
  | call (env : Env) (payload : JSValue)
  | resetMetrics

/-- The state after the operations, each on the state that the one before it left. -/
def applyOps : WebhookErrorHandler → List EngineOp → WebhookErrorHandler
  | h, [] => h
  | h, .call env payload :: rest => applyOps (executeWithRetry h env payload).handler rest
  | h, .resetMetrics :: rest => applyOps (resetMetrics h) rest

/-- Every value that the delivery function raises is an object with a string `message`, as
an `Error` is. -/
def raisesErrors (env : Env) : Prop :=
  ∀ i e, env.deliveryFn i = .reject e →
    ∃ name message response type, e = .errorObject name (some message) response type

/-- Whether the call is short-circuited: the breaker is open and the cooldown has not
elapsed at the check. -/
def shortCircuited (h : WebhookErrorHandler) (env : Env) : Prop :=
  h.circuitBreaker.isOpen = true ∧
    (env.now : Int) - ((h.circuitBreaker.lastFailureTime.getD 0 : Nat) : Int) <
      (h.circuitBreaker.timeout : Int)

/-- The state after the stretch of `executeWithRetry` that follows a delivery that returned in
attempt `attempt`: the success is counted, the breaker is reset, and the request counts as
retried when it was not the first attempt. -/
def afterSuccess (h : WebhookErrorHandler) (attempt : Nat) : WebhookErrorHandler :=
  let h1 := { h with metrics := { h.metrics with
    successfulRequests := h.metrics.successfulRequests + 1 } }
  let h2 := resetCircuitBreaker h1
  if attempt > 0 then
    { h2 with metrics := { h2.metrics with retriedRequests := h2.metrics.retriedRequests + 1 } }
  else h2

/-- The state after the statement `this.metrics.totalRequests++`. -/
def afterStart (h : WebhookErrorHandler) : WebhookErrorHandler :=
  { h with metrics := { h.metrics with totalRequests := h.metrics.totalRequests + 1 } }

/-- The effect on the engine of one stretch of `executeWithRetry` that runs without
suspension, that is, between two of the points where the method awaits the delivery function
or the delay.  Calls that overlap interleave their stretches, and each stretch runs on the
state that the stretch before it left, whichever call that one belonged to. -/
inductive Stretch : WebhookErrorHandler → WebhookErrorHandler → Prop where
  /-- Nothing changes: the call is short-circuited, `analyzeError` throws, or the call resumes
  after a delay and invokes the delivery function again. -/
  | unchanged (h : WebhookErrorHandler) : Stretch h h
  /-- The call starts on a closed breaker and invokes the delivery function. -/
  | start (h : WebhookErrorHandler) (hclosed : h.circuitBreaker.isOpen = false) :
      Stretch h (afterStart h)
  /-- The call starts on an open breaker whose cooldown has elapsed, resets the breaker, and
  invokes the delivery function. -/
  | startAfterCooldown (h : WebhookErrorHandler) (hopen : h.circuitBreaker.isOpen = true) :
      Stretch h (afterStart (resetCircuitBreaker h))
  /-- The delivery returned, and the call returns the success. -/
  | success (h : WebhookErrorHandler) (attempt : Nat) : Stretch h (afterSuccess h attempt)
  /-- The delivery raised an error that is retried, and the call awaits the delay. -/
  | retriedFailure (h : WebhookErrorHandler) (failTime : Nat) (errorType : JSString) :
      Stretch h (afterRetriedFailure h failTime errorType)
  /-- The delivery raised an error that ends the loop, and the call returns the failure. -/
  | finalFailure (h : WebhookErrorHandler) (errorType : JSString) (payload : JSValue)
      (attempt : Nat) (lastError : Option Thrown) (invocations : List Invocation) :
      Stretch h (allAttemptsFailed (recordError h errorType) payload attempt lastError
        invocations).handler
  /-- The loop ends by its condition, and the call returns the failure. -/
  | loopExit (h : WebhookErrorHandler) (payload : JSValue) (attempt : Nat)
      (lastError : Option Thrown) (invocations : List Invocation) :
      Stretch h (allAttemptsFailed h payload attempt lastError invocations).handler

/-- The invariant of the breaker: it is open exactly when the failure count has reached the
threshold, an open breaker has a time of the last failure, and the threshold is at least 1. -/
def BreakerConsistent (b : CircuitBreaker) : Prop :=
  (b.isOpen = true ↔ b.failureCount ≥ b.threshold) ∧
    (b.isOpen = true → b.lastFailureTime ≠ none) ∧ 1 ≤ b.threshold

/-! ## Example inputs -/

/-- The record `{firstName: "John", phone: "5551234567", email: "john@x.com"}`. -/
def johnRecord : List (JSString × JSValue) :=
  [ (lit "firstName", .str (lit "John")), (lit "phone", .str (lit "5551234567")),
    (lit "email", .str (lit "john@x.com")) ]

/-- The record `{firstName: "Ann", lastName: "Lee", phone: 5551234567}`: no email, and the
phone given as a number. -/
def numericPhoneNoEmail : List (JSString × JSValue) :=
  [ (lit "firstName", .str (lit "Ann")), (lit "lastName", .str (lit "Lee")),
    (lit "phone", .num (.fin 5551234567)) ]

/-- The record `{firstName: "Ann", lastName: "Lee", email: "ann@example.com",
phone: 5551234567}`: every required field, the phone given as a number. -/
def numericPhoneRecord : List (JSString × JSValue) :=
  [ (lit "firstName", .str (lit "Ann")), (lit "lastName", .str (lit "Lee")),
    (lit "email", .str (lit "ann@example.com")), (lit "phone", .num (.fin 5551234567)) ]

/-- An environment in which every delivery raises the same value, at time 0. -/
def alwaysRaising (e : Thrown) : Env :=
  { now := 0, deliveryFn := fun _ => .reject e, failTime := fun _ => 0 }

/-- The error `new Error("HTTP 401: Unauthorized")` with a response of status 401. -/
def unauthorizedError : Thrown :=
  .errorObject (some (lit "Error")) (some (lit "HTTP 401: Unauthorized")) (some 401) none

/-- The error `new Error("HTTP 401: Session timeout")` with a response of status 401. -/
def sessionTimeoutError : Thrown :=
  .errorObject (some (lit "Error")) (some (lit "HTTP 401: Session timeout")) (some 401) none

/-- The error `new Error("HTTP 500: Internal Server Error")` with a response of status 500. -/
def serverError : Thrown :=
  .errorObject (some (lit "Error")) (some (lit "HTTP 500: Internal Server Error")) (some 500)
    none

/-- The plain object `{response: {status: 500}}`, which has no `message`. -/
def statusOnlyObject : Thrown :=
  .errorObject none none (some 500) none

/-- An engine whose breaker opened at time 1000 after five failures. -/
def openedHandler : WebhookErrorHandler :=
  { WebhookErrorHandler.new {} with
    circuitBreaker :=
      { isOpen := true, failureCount := 5, lastFailureTime := some 1000, threshold := 5,
        timeout := 60000 } }

/-- The error `new Error("HTTP 503: Service Unavailable")` with a response of status 503. -/
def unavailableError : Thrown :=
  .errorObject (some (lit "Error")) (some (lit "HTTP 503: Service Unavailable")) (some 503) none

/-- An environment in which the first two deliveries raise a 503 error and the third returns
`{ok: true}`. -/
def succeedsOnThird : Env :=
  { now := 0,
    deliveryFn := fun i =>
      if i < 2 then .reject unavailableError else .resolve (.obj [(lit "ok", .bool true)]),
    failTime := fun _ => 0 }

/-- An environment in which every delivery raises the same value, at time 70000. -/
def lateRaising (e : Thrown) : Env :=
  { now := 70000, deliveryFn := fun _ => .reject e, failTime := fun _ => 70000 }

/-- The options `{maxRetries: 2, circuitBreakerThreshold: 3}`. -/
def lowThreshold : ConstructorOptions :=
  { maxRetries := some 2, circuitBreakerThreshold := some 3 }

/-- The options `{maxDelay: -1}`. -/
def negativeMaxDelay : ConstructorOptions := { maxDelay := some (-1) }

/-- The error `new Error("HTTP 500: ...")` with a response of status 500 and with the property
`type` set to `GATEWAY_DOWN`. -/
def typedServerError : Thrown :=
  .errorObject (some (lit "Error")) (some (lit "HTTP 500: Internal Server Error")) (some 500)
    (some (lit "GATEWAY_DOWN"))

/-- The options `{fallbackQueue: true}`, as the relay gives them. -/
def fallbackOptions : ConstructorOptions := { fallbackQueue := some true }

/-- The state of an engine with the fallback queue enabled after one call whose deliveries all
raised a 500 error: the failed payload is in the error queue. -/
def oneQueued : WebhookErrorHandler :=
  (executeWithRetry (WebhookErrorHandler.new fallbackOptions) (alwaysRaising serverError)
    (.str (lit "lead"))).handler

/-- A record whose `firstName` is `A` followed by fifty spaces (51 characters). -/
def paddedNameRecord : List (JSString × JSValue) :=
  [ (lit "firstName", .str (65 :: List.replicate 50 32)), (lit "lastName", .str (lit "Lee")),
    (lit "email", .str (lit "ann@example.com")), (lit "phone", .str (lit "5551234567")) ]

/-- A record whose `firstName` is the letter `A` 51 times. -/
def longNameRecord : List (JSString × JSValue) :=
  [ (lit "firstName", .str (List.replicate 51 65)), (lit "lastName", .str (lit "Lee")),
    (lit "email", .str (lit "ann@example.com")), (lit "phone", .str (lit "5551234567")) ]

/-- A record whose `postalCode` is `abc`. -/
def badPostalRecord : List (JSString × JSValue) :=
  [ (lit "firstName", .str (lit "Ann")), (lit "lastName", .str (lit "Lee")),
    (lit "email", .str (lit "ann@example.com")), (lit "phone", .str (lit "5551234567")),
    (lit "postalCode", .str (lit "abc")) ]

/-- A record whose `state` is `constructor`. -/
def constructorStateRecord : List (JSString × JSValue) :=
  [ (lit "firstName", .str (lit "Ann")), (lit "lastName", .str (lit "Lee")),
    (lit "email", .str (lit "ann@example.com")), (lit "phone", .str (lit "5551234567")),
    (lit "state", .str (lit "constructor")) ]

/-- The record `{hasOwnProperty: 1, phone: "5551234567"}`. -/
def shadowingRecord : List (JSString × JSValue) :=
  [ (lit "hasOwnProperty", .num (.fin 1)), (lit "phone", .str (lit "5551234567")) ]

/-- The override `{contact: {phone: {required: false}}}`. -/
def phoneOptional : JSValue :=
  .obj [(lit "contact", .obj [(lit "phone", .obj [(lit "required", .bool false)])])]

/-- The override `JSON.parse('{"__proto__": 5}')`. -/
def protoOverride : JSValue := .obj [(lit "__proto__", .num (.fin 5))]

/-- The default rules with `required: false` in the rule of `phone`. -/
def rulesWithOptionalPhone : MappingRules :=
  getDefaultMappingRules.map (fun category =>
    (category.1, category.2.map (fun field =>
      if field.1 = lit "phone" then (field.1, { field.2 with required := false }) else field)))

/-- The heap of a mapper that has been constructed (its rules are the default rules), together
with an override and a raw record that a caller has created: the heap, and the values of
`this.mappingRules`, of the override and of the record. -/
def mapperHeap (customMapping rawData : JSValue) : Heap × HValue × HValue × HValue :=
  match allocValue [] (rulesToJS getDefaultMappingRules) with
  | (heap1, rules) =>
    match allocValue heap1 customMapping with
    | (heap2, custom) =>
      match allocValue heap2 rawData with
      | (heap3, raw) => (heap3, rules, custom, raw)

/-- A record with the required fields and the number 0 as `leadScore`. -/
def zeroScoreRecord : List (JSString × JSValue) :=
  [ (lit "firstName", .str (lit "Ann")), (lit "lastName", .str (lit "Lee")),
    (lit "email", .str (lit "ann@example.com")), (lit "phone", .str (lit "5551234567")),
    (lit "leadScore", .num (.fin 0)) ]

/-- The record `testData` of `testBasicWebhook` in `src/webhook-test.js`. -/
def basicTestData : List (JSString × JSValue) :=
  [ (lit "firstName", .str (lit "John")), (lit "lastName", .str (lit "Smith")),
    (lit "email", .str (lit "john.smith@example.com")), (lit "phone", .str (lit "555-123-4567")),
    (lit "serviceType", .str (lit "estimate")), (lit "notes", .str (lit "Test webhook request")) ]

/-- The options `{maxRetries: 0, jitterRange: 0}`. -/
def noRetriesNoJitter : ConstructorOptions := { maxRetries := some 0, jitterRange := some 0 }

/-- The argument `{maxRetries: 5, baseDelay: NaN, maxDelay: -1, exponentialBase: 0.5,
jitterRange: 0, circuitBreakerTimeout: Infinity}`. -/
def mixedOptions : NumericOptions :=
  { maxRetries := some (.fin 5), baseDelay := some .nan, maxDelay := some (.fin (-1)),
    exponentialBase := some (.fin (1 / 2)), jitterRange := some (.fin 0),
    circuitBreakerTimeout := some (.inf false) }

/-- The options `{maxRetries: 1, jitterRange: 0.5, circuitBreakerThreshold: 2}`. -/
def explicitOptions : ConstructorOptions :=
  { maxRetries := some 1, jitterRange := some (1 / 2), circuitBreakerThreshold := some 2 }

/-- Two consecutive calls in each of which every delivery raises a 500 error. -/
def twoFailingCalls : List Run :=
  callsFrom .null (WebhookErrorHandler.new {}) [alwaysRaising serverError, alwaysRaising serverError]

/-- Operations: a call whose deliveries all raise a 500 error, `resetMetrics`, and a call that
succeeds in its third attempt. -/
def sampleOps : List EngineOp :=
  [.call (alwaysRaising serverError) .null, .resetMetrics, .call succeedsOnThird .null]

/-! ## Theorems: property lists and the loop over the fields -/

theorem getOwn_setProp_self {V : Type} (props : List (JSString × V)) (k : JSString) (v : V) :
    getOwn (setProp props k v) k = some v := by
  induction props with
  | nil => simp [setProp, getOwn]
  | cons p t ih =>
    obtain ⟨pk, pv⟩ := p
    by_cases hp : (pk == k) = true
    · simp [setProp, getOwn, hp]
    · simp [setProp, getOwn, hp, ih]

theorem getOwn_setProp_ne {V : Type} (props : List (JSString × V)) (k k2 : JSString) (v : V)
    (hne : k ≠ k2) : getOwn (setProp props k v) k2 = getOwn props k2 := by
  induction props with
  | nil => simp [setProp, getOwn, hne]
  | cons p t ih =>
    obtain ⟨pk, pv⟩ := p
    by_cases hp : pk = k
    · subst hp
      simp [setProp, getOwn, hne]
    · by_cases hp2 : pk = k2
      · subst hp2
        simp [setProp, getOwn, hp]
      · simp [setProp, getOwn, hp, hp2, ih]

theorem processField_getOwn_ne (rt : JSRuntime) (rawData : List (JSString × JSValue))
    (st st1 : MapState) (entry : JSString × FieldRule) (k : JSString)
    (h : processField rt rawData st entry = .ok st1) (hne : entry.1 ≠ k) :
    getOwn st1.mappedData k = getOwn st.mappedData k := by
  unfold processField at h
  simp only at h
  split at h
  · cases h
  · split at h
    · split at h
      · cases h
      · split at h
        · cases h; simp [getOwn_setProp_ne _ _ _ _ hne]
        · cases h; rfl
    · split at h
      · cases h; rfl
      · split at h
        · cases h; simp [getOwn_setProp_ne _ _ _ _ hne]
        · cases h; rfl

theorem processFields_getOwn_of_not_mem (rt : JSRuntime) (rawData : List (JSString × JSValue))
    (fields : List (JSString × FieldRule)) (k : JSString)
    (hk : ∀ e ∈ fields, e.1 ≠ k) (st st1 : MapState)
    (h : processFields rt rawData st fields = .ok st1) :
    getOwn st1.mappedData k = getOwn st.mappedData k := by
  induction fields generalizing st with
  | nil => simp [processFields] at h; subst h; rfl
  | cons e rest ih =>
    simp only [processFields] at h
    split at h
    · cases h
    · rename_i st2 h2
      rw [ih (fun e he => hk e (List.mem_cons_of_mem _ he)) st2 h,
        processField_getOwn_ne rt rawData st st2 e k h2 (hk e (List.mem_cons_self _ _))]

theorem processField_errors_mono (rt : JSRuntime) (rawData : List (JSString × JSValue))
    (st st1 : MapState) (entry : JSString × FieldRule)
    (h : processField rt rawData st entry = .ok st1) :
    ∀ e, e ∈ st.errors → e ∈ st1.errors := by
  intro e he
  unfold processField at h
  simp only at h
  split at h
  · cases h
  · split at h
    · split at h
      · cases h
      · split at h
        · cases h; exact he
        · cases h; exact List.mem_append_left _ he
    · split at h
      · cases h; exact List.mem_append_left _ he
      · split at h
        · cases h; exact he
        · cases h; exact he

theorem processFields_errors_mono (rt : JSRuntime) (rawData : List (JSString × JSValue))
    (fields : List (JSString × FieldRule)) (st st1 : MapState)
    (h : processFields rt rawData st fields = .ok st1) :
    ∀ e, e ∈ st.errors → e ∈ st1.errors := by
  induction fields generalizing st with
  | nil => simp [processFields] at h; subst h; exact fun _ he => he
  | cons e rest ih =>
    simp only [processFields] at h
    split at h
    · cases h
    · rename_i st2 h2
      exact fun x hx => ih st2 h x (processField_errors_mono rt rawData st st2 e h2 x hx)

theorem getOwn_ne_of_not_mem {V : Type} (fields : List (JSString × V)) (k : JSString)
    (h : k ∉ fields.map Prod.fst) : ∀ e ∈ fields, e.1 ≠ k := by
  intro e he hek
  exact h (hek ▸ List.mem_map_of_mem Prod.fst he)

/-- The property of the result that a field leaves is the one that its own step leaves, when no
two fields have the same name. -/
theorem processFields_getOwn (rt : JSRuntime) (rawData : List (JSString × JSValue))
    (fields : List (JSString × FieldRule)) (k : JSString) (rule : FieldRule)
    (hnd : (fields.map Prod.fst).Nodup) (hk : getOwn fields k = some rule) (st st1 : MapState)
    (h : processFields rt rawData st fields = .ok st1) :
    ∃ sta stb, processField rt rawData sta (k, rule) = .ok stb ∧
      getOwn sta.mappedData k = getOwn st.mappedData k ∧
      getOwn st1.mappedData k = getOwn stb.mappedData k ∧
      (∀ e, e ∈ stb.errors → e ∈ st1.errors) := by
  induction fields generalizing st with
  | nil => simp [getOwn] at hk
  | cons e rest ih =>
    obtain ⟨ek, er⟩ := e
    simp only [List.map_cons, List.nodup_cons] at hnd
    simp only [processFields] at h
    split at h
    · cases h
    · rename_i st2 h2
      by_cases hek : ek = k
      · subst hek
        simp only [getOwn, beq_self_eq_true, if_true, Option.some.injEq] at hk
        subst hk
        exact ⟨st, st2, h2, rfl,
          processFields_getOwn_of_not_mem rt rawData rest ek
            (getOwn_ne_of_not_mem rest ek hnd.1) st2 st1 h,
          processFields_errors_mono rt rawData rest st2 st1 h⟩
      · have hb : (ek == k) = false := by simpa using hek
        simp only [getOwn, hb] at hk
        obtain ⟨sta, stb, h3, h4, h5, h6⟩ := ih hnd.2 hk st2 h
        exact ⟨sta, stb, h3,
          h4.trans (processField_getOwn_ne rt rawData st st2 (ek, er) k h2 hek), h5, h6⟩

theorem defaultFields_nodup : ((allFields getDefaultMappingRules).map Prod.fst).Nodup := by
  decide


theorem trim_eq_self (s : JSString) (h1 : ∀ c, s.head? = some c → isWhiteSpace c = false)
    (h2 : ∀ c, s.getLast? = some c → isWhiteSpace c = false) : trim s = s := by
  unfold trim
  have e1 : s.dropWhile isWhiteSpace = s := by
    cases s with
    | nil => rfl
    | cons a t => simp [List.dropWhile, h1 a rfl]
  rw [e1]
  have e2 : s.reverse.dropWhile isWhiteSpace = s.reverse := by
    cases hr : s.reverse with
    | nil => rfl
    | cons a t =>
      have : s.getLast? = some a := by
        rw [List.getLast?_eq_head?_reverse, hr]; rfl
      simp [List.dropWhile, h2 a this]
  rw [e2, List.reverse_reverse]

theorem isDigit_not_whiteSpace (c : Nat) (h : isDigit c = true) : isWhiteSpace c = false := by
  simp only [isDigit, Bool.and_eq_true, decide_eq_true_eq] at h
  simp only [isWhiteSpace, Bool.or_eq_false_iff, Bool.and_eq_false_iff, decide_eq_false_iff_not,
    beq_eq_false_iff_ne]
  omega

theorem phoneDigits_mem (r : JSString) (hr : phoneDigits r = true) :
    ∀ c ∈ r, isDigit c = true := by
  intro c hc
  cases r with
  | nil => simp at hc
  | cons d ds =>
    simp only [phoneDigits, Bool.and_eq_true, decide_eq_true_eq, List.all_eq_true] at hr
    rcases List.mem_cons.1 hc with rfl | hc
    · simp only [isDigit, Bool.and_eq_true, decide_eq_true_eq]
      omega
    · exact hr.1.2 c hc

theorem phonePattern_mem (s : JSString) (h : phonePattern s = true) :
    ∀ c ∈ s, isWhiteSpace c = false := by
  intro c hc
  unfold phonePattern at h
  split at h
  · rcases List.mem_cons.1 hc with rfl | hc
    · decide
    · exact isDigit_not_whiteSpace c (phoneDigits_mem _ h c hc)
  · exact isDigit_not_whiteSpace c (phoneDigits_mem _ h c hc)

theorem processValue_phone (rt : JSRuntime) (s : JSString) (rule : FieldRule)
    (fieldName : JSString) (hp : phonePattern s = true)
    (h1 : rule.type = .phone) (h2 : rule.maxLength = none) (h3 : rule.options = none)
    (h4 : rule.validation = some .phone) (h5 : rule.transformation = none) :
    processValue rt (.str s) rule fieldName =
      .ok { isValid := true, value := .value (.str (trim (formatPhoneNumber s))),
            errors := [], warnings := [] } := by
  simp [processValue, typeConversion, lengthValidation, rangeValidation, optionsValidation,
    patternValidation, transformAndClean, Stage.andThen, h1, h2, h3, h4, h5,
    getValidationRules, toStringJS, Except.map, hp, formatPhoneNumberValue]


theorem phonePattern_iff (s : JSString) :
    phonePattern s = true ↔
      ∃ ds : JSString, (s = ds ∨ s = 43 :: ds) ∧ 1 ≤ ds.length ∧ ds.length ≤ 16 ∧
        (∀ c ∈ ds, isDigit c = true) ∧ ds.head? ≠ some 48 := by
  have digits : ∀ r : JSString, phoneDigits r = true ↔
      (1 ≤ r.length ∧ r.length ≤ 16 ∧ (∀ c ∈ r, isDigit c = true) ∧ r.head? ≠ some 48) := by
    intro r
    cases r with
    | nil => simp [phoneDigits]
    | cons d ds =>
      simp only [phoneDigits, Bool.and_eq_true, decide_eq_true_eq, List.all_eq_true,
        List.length_cons, List.mem_cons, forall_eq_or_imp, List.head?_cons, ne_eq,
        Option.some.injEq, isDigit]
      constructor
      · rintro ⟨⟨⟨h1, h2⟩, h3⟩, h4⟩
        exact ⟨by omega, by omega, ⟨⟨by omega, h2⟩, h3⟩, by omega⟩
      · rintro ⟨_, h2, ⟨⟨h3, h4⟩, h5⟩, h6⟩
        exact ⟨⟨⟨by omega, h4⟩, h5⟩, by omega⟩
  constructor
  · intro h
    unfold phonePattern at h
    split at h
    · rename_i t
      exact ⟨t, Or.inr rfl, (digits t).1 h⟩
    · exact ⟨s, Or.inl rfl, (digits s).1 h⟩
  · rintro ⟨ds, hs, hd⟩
    rcases hs with rfl | rfl
    · unfold phonePattern
      split
      · rename_i t
        have := hd.2.2.1 43 (List.mem_cons_self _ _)
        simp [isDigit] at this
      · exact (digits _).2 hd
    · simp only [phonePattern]
      exact (digits _).2 hd

/-- Claim C2: for every string `s` that passes the phone pattern there is a string `v` such
that `processValue` on the candidate `s` with the default rule of `phone` returns the valid
value `v`, such that the property `phone` of the result of `mapData` is `v` for every raw
record whose phone candidate is `s` and for which `mapData` returns, and such that `v` is
`(ABC) DEF-GHIJ` when `s` has exactly the ten digits `ABCDEFGHIJ`, `+1 (ABC) DEF-GHIJ` when `s`
has exactly eleven digits of which the first is `1`, and `s` itself in every other case. -/
theorem mapData_phone_format (rt : JSRuntime) (s : JSString) (hp : phonePattern s = true) :
    ∃ v : JSString,
      processValue rt (.str s)
          { sources := [lit "phone", lit "phoneNumber", lit "phone_number", lit "mobile",
              lit "cell", lit "telephone"],
            required := true, type := .phone, validation := some .phone }
          (lit "phone") =
        .ok { isValid := true, value := .value (.str v), errors := [], warnings := [] } ∧
      (∀ (rawData : List (JSString × JSValue)) (res : MappingResult),
        extractValue rawData [lit "phone", lit "phoneNumber", lit "phone_number",
          lit "mobile", lit "cell", lit "telephone"] = .ok (.str s) →
        mapData rt rawData = .ok res →
        res.get (lit "phone") = some (.value (.str v))) ∧
      (∀ a b c d e f g h i j : Nat, s.filter isDigit = [a, b, c, d, e, f, g, h, i, j] →
        v = lit "(" ++ [a, b, c] ++ lit ") " ++ [d, e, f] ++ lit "-" ++ [g, h, i, j]) ∧
      (∀ a b c d e f g h i j : Nat, s.filter isDigit = [49, a, b, c, d, e, f, g, h, i, j] →
        v = lit "+1 (" ++ [a, b, c] ++ lit ") " ++ [d, e, f] ++ lit "-" ++ [g, h, i, j]) ∧
      ((s.filter isDigit).length ≠ 10 →
        ¬ ((s.filter isDigit).length = 11 ∧ (s.filter isDigit).head? = some 49) →
        v = s) := by
  have hpv := processValue_phone rt s
    { sources := [lit "phone", lit "phoneNumber", lit "phone_number", lit "mobile",
        lit "cell", lit "telephone"],
      required := true, type := .phone, validation := some .phone }
    (lit "phone") hp rfl rfl rfl rfl rfl
  have hws := phonePattern_mem s hp
  have hdig : ∀ c ∈ s.filter isDigit, isWhiteSpace c = false := fun c hc =>
    isDigit_not_whiteSpace c (List.mem_filter.1 hc).2
  refine ⟨trim (formatPhoneNumber s), hpv, ?_, ?_, ?_, ?_⟩
  · -- the value that the step of the field `phone` leaves in the result
    intro rawData res hx hres
    unfold mapData mapDataWith at hres
    split at hres
    · cases hres
    · rename_i st hst
      cases hres
      have hk : getOwn (allFields getDefaultMappingRules) (lit "phone") =
          some { sources := [lit "phone", lit "phoneNumber", lit "phone_number", lit "mobile",
                   lit "cell", lit "telephone"],
                 required := true, type := .phone, validation := some .phone } := rfl
      obtain ⟨sta, stb, hstep, _, hget, _⟩ :=
        processFields_getOwn rt rawData _ _ _ defaultFields_nodup hk _ _ hst
      have hne : s ≠ [] := by
        rintro rfl
        simp [phonePattern, phoneDigits] at hp
      have hpres : (JSValue.str s).isPresent = true := by
        cases s with
        | nil => exact absurd rfl hne
        | cons a t => rfl
      simp only [processField, hx, hpres, if_true, hpv] at hstep
      cases hstep
      simp only [MappingResult.get, hget, getOwn_setProp_self]
  · intro a b c d e f g h i j hd
    have hj := hdig j (by rw [hd]; simp)
    have hfmt : formatPhoneNumber s =
        lit "(" ++ [a, b, c] ++ lit ") " ++ [d, e, f] ++ lit "-" ++ [g, h, i, j] := by
      simp [formatPhoneNumber, hd]
    rw [hfmt, trim_eq_self]
    · intro x hx; cases hx; decide
    · intro x hx
      have : x = j := by simpa [lit] using hx.symm
      rw [this]; exact hj
  · intro a b c d e f g h i j hd
    have hj := hdig j (by rw [hd]; simp)
    have hfmt : formatPhoneNumber s =
        lit "+1 (" ++ [a, b, c] ++ lit ") " ++ [d, e, f] ++ lit "-" ++ [g, h, i, j] := by
      simp [formatPhoneNumber, hd]
    rw [hfmt, trim_eq_self]
    · intro x hx; cases hx; decide
    · intro x hx
      have : x = j := by simpa [lit] using hx.symm
      rw [this]; exact hj
  · intro h10 h11
    have hfmt : formatPhoneNumber s = s := by
      simp only [formatPhoneNumber]
      rw [if_neg h10, if_neg h11]
    rw [hfmt, trim_eq_self]
    · intro x hx
      exact hws x (List.mem_of_mem_head? hx)
    · intro x hx
      exact hws x (List.mem_of_mem_getLast? hx)

/-- Witness of C2 on the record `{firstName: "John", phone: "5551234567", email: "john@x.com"}`:
`mapData` returns a result whose `phone` is `(555) 123-4567`. -/
theorem mapData_phone_format_witness :
    phonePattern (lit "5551234567") = true ∧
      ∃ res, mapData asciiRuntime johnRecord = .ok res ∧
        res.get (lit "phone") = some (.value (.str (lit "(555) 123-4567"))) := by
  refine ⟨rfl, ?_⟩
  obtain ⟨v, _, hmap, h10, _, _⟩ := mapData_phone_format asciiRuntime (lit "5551234567") rfl
  have hv := h10 53 53 53 49 50 51 52 53 54 55 rfl
  cases h : mapData asciiRuntime johnRecord with
  | error e =>
    have hok : (mapData asciiRuntime johnRecord).toBool = true := rfl
    rw [h] at hok
    cases hok
  | ok res =>
    refine ⟨res, rfl, ?_⟩
    rw [hmap johnRecord res rfl h, hv]
    rfl

theorem extractValue_of_absent (data : List (JSString × JSValue)) (sources : List JSString)
    (v : JSValue) (h : extractValue data sources = .ok v)
    (habs : ∀ src ∈ sources, ∀ w, getOwn data src = some w → w.isPresent = false) :
    v = .null := by
  induction sources with
  | nil => simp [extractValue] at h; exact h.symm
  | cons src rest ih =>
    have ih1 := fun h1 => ih h1 (fun s hs => habs s (List.mem_cons_of_mem _ hs))
    simp only [extractValue] at h
    split at h
    · cases h
    · split at h
      · rename_i w hw
        rw [habs src (List.mem_cons_self _ _) w hw] at h
        exact ih1 h
      · exact ih1 h

/-- What holds of claim C1 whenever `mapData` returns: if no source key of a required field of
the default rules holds a value other than `null`, `undefined` and the empty string, the
result is invalid, has an error entry for the field, and has no property for the field. -/
theorem mapData_required_missing (rt : JSRuntime) (rawData : List (JSString × JSValue))
    (field : JSString) (rule : FieldRule) (res : MappingResult)
    (hk : getOwn (allFields getDefaultMappingRules) field = some rule)
    (hreq : rule.required = true)
    (habs : ∀ src ∈ rule.sources, ∀ w, getOwn rawData src = some w → w.isPresent = false)
    (hres : mapData rt rawData = .ok res) :
    res.metadata.isValid = false ∧ (∃ e ∈ res.metadata.errors, e.field = field) ∧
      res.get field = none := by
  unfold mapData mapDataWith at hres
  split at hres
  · cases hres
  · rename_i st hst
    cases hres
    obtain ⟨sta, stb, hstep, hsta, hget, herr⟩ :=
      processFields_getOwn rt rawData _ _ _ defaultFields_nodup hk _ _ hst
    simp only [processField] at hstep
    split at hstep
    · cases hstep
    · rename_i value hvalue
      have hnull := extractValue_of_absent rawData rule.sources value hvalue habs
      subst hnull
      simp only [JSValue.isPresent, Bool.false_eq_true, if_false, hreq, if_true] at hstep
      cases hstep
      have hmem : ∃ e ∈ st.errors, e.field = field :=
        ⟨_, herr _ (List.mem_append_right _ (List.mem_singleton_self _)), rfl⟩
      refine ⟨?_, hmem, ?_⟩
      · obtain ⟨e, he, _⟩ := hmem
        cases hst2 : st.errors with
        | nil => rw [hst2] at he; cases he
        | cons a t => simp [hst2]
      · simp only [MappingResult.get, hget]
        simpa [getOwn] using hsta

/-- Claim C1 fails on the code: the record `{firstName: "Ann", lastName: "Lee",
phone: 5551234567}` has no value under any source key of the required field `email`, and
`mapData` does not return a result for it: the numeric phone passes the phone pattern and
`formatPhoneNumber` throws a `TypeError`. -/
theorem mapData_throws_without_email :
    (∀ src ∈ [lit "email", lit "emailAddress", lit "email_address", lit "mail"],
        getOwn numericPhoneNoEmail src = none) ∧
      mapData asciiRuntime numericPhoneNoEmail = .error .typeError :=
  ⟨by
    intro src hs
    simp only [List.mem_cons, List.mem_singleton, List.not_mem_nil, or_false] at hs
    rcases hs with rfl | rfl | rfl | rfl <;> rfl, rfl⟩

/-- Claim C7 fails on the code: for the record `{firstName: "Ann", lastName: "Lee",
email: "ann@example.com", phone: 5551234567}`, whose phone is a number, `mapData` throws a
`TypeError` instead of returning a result with an error entry. -/
theorem mapData_throws_on_numeric_phone :
    mapData asciiRuntime numericPhoneRecord = .error .typeError :=
  rfl

/-! ## Theorems: the retry loop -/

@[simp] theorem recordError_options (h : WebhookErrorHandler) (t : JSString) :
    (recordError h t).options = h.options := by
  unfold recordError; split <;> rfl

@[simp] theorem recordError_circuitBreaker (h : WebhookErrorHandler) (t : JSString) :
    (recordError h t).circuitBreaker = h.circuitBreaker := by
  unfold recordError; split <;> rfl

@[simp] theorem recordError_errorQueue (h : WebhookErrorHandler) (t : JSString) :
    (recordError h t).errorQueue = h.errorQueue := by
  unfold recordError; split <;> rfl

@[simp] theorem recordError_totalRequests (h : WebhookErrorHandler) (t : JSString) :
    (recordError h t).metrics.totalRequests = h.metrics.totalRequests := by
  unfold recordError; split <;> rfl

@[simp] theorem recordError_successfulRequests (h : WebhookErrorHandler) (t : JSString) :
    (recordError h t).metrics.successfulRequests = h.metrics.successfulRequests := by
  unfold recordError; split <;> rfl

@[simp] theorem recordError_failedRequests (h : WebhookErrorHandler) (t : JSString) :
    (recordError h t).metrics.failedRequests = h.metrics.failedRequests := by
  unfold recordError; split <;> rfl

@[simp] theorem recordError_retriedRequests (h : WebhookErrorHandler) (t : JSString) :
    (recordError h t).metrics.retriedRequests = h.metrics.retriedRequests := by
  unfold recordError; split <;> rfl

@[simp] theorem afterRetriedFailure_options (h : WebhookErrorHandler) (ft : Nat) (t : JSString) :
    (afterRetriedFailure h ft t).options = h.options := by
  unfold afterRetriedFailure; simp only []; split <;> simp [openCircuitBreaker]

@[simp] theorem afterRetriedFailure_errorQueue (h : WebhookErrorHandler) (ft : Nat)
    (t : JSString) : (afterRetriedFailure h ft t).errorQueue = h.errorQueue := by
  unfold afterRetriedFailure; simp only []; split <;> simp [openCircuitBreaker]

@[simp] theorem afterRetriedFailure_totalRequests (h : WebhookErrorHandler) (ft : Nat)
    (t : JSString) :
    (afterRetriedFailure h ft t).metrics.totalRequests = h.metrics.totalRequests := by
  unfold afterRetriedFailure; simp only []; split <;> simp [openCircuitBreaker]

@[simp] theorem afterRetriedFailure_successfulRequests (h : WebhookErrorHandler) (ft : Nat)
    (t : JSString) :
    (afterRetriedFailure h ft t).metrics.successfulRequests = h.metrics.successfulRequests := by
  unfold afterRetriedFailure; simp only []; split <;> simp [openCircuitBreaker]

@[simp] theorem afterRetriedFailure_failedRequests (h : WebhookErrorHandler) (ft : Nat)
    (t : JSString) :
    (afterRetriedFailure h ft t).metrics.failedRequests = h.metrics.failedRequests := by
  unfold afterRetriedFailure; simp only []; split <;> simp [openCircuitBreaker]

@[simp] theorem afterRetriedFailure_retriedRequests (h : WebhookErrorHandler) (ft : Nat)
    (t : JSString) :
    (afterRetriedFailure h ft t).metrics.retriedRequests = h.metrics.retriedRequests := by
  unfold afterRetriedFailure; simp only []; split <;> simp [openCircuitBreaker]

@[simp] theorem afterRetriedFailure_failureCount (h : WebhookErrorHandler) (ft : Nat)
    (t : JSString) :
    (afterRetriedFailure h ft t).circuitBreaker.failureCount =
      h.circuitBreaker.failureCount + 1 := by
  unfold afterRetriedFailure; simp only []; split <;> simp [openCircuitBreaker]

@[simp] theorem afterRetriedFailure_threshold (h : WebhookErrorHandler) (ft : Nat)
    (t : JSString) :
    (afterRetriedFailure h ft t).circuitBreaker.threshold = h.circuitBreaker.threshold := by
  unfold afterRetriedFailure; simp only []; split <;> simp [openCircuitBreaker]

@[simp] theorem afterRetriedFailure_timeout (h : WebhookErrorHandler) (ft : Nat)
    (t : JSString) :
    (afterRetriedFailure h ft t).circuitBreaker.timeout = h.circuitBreaker.timeout := by
  unfold afterRetriedFailure; simp only []; split <;> simp [openCircuitBreaker]

/-- One iteration of the loop whose delivery fails with an error that is retried. -/
theorem retryLoop_retry (env : Env) (payload : JSValue) (fuel : Nat) (h : WebhookErrorHandler)
    (attempt : Nat) (lastError : Option Thrown) (invs : List Invocation) (e : Thrown)
    (a : ErrorAnalysis) (hle : attempt + 1 ≤ h.options.maxRetries)
    (hd : env.deliveryFn attempt = .reject e) (ha : analyzeError h.options e = .ok a)
    (hr : a.retryable = true) :
    retryLoop env payload (fuel + 1) h attempt lastError invs =
      retryLoop env payload fuel (afterRetriedFailure h (env.failTime attempt) a.type)
        (attempt + 1) (some e) (invs ++ [invocationOf h attempt]) := by
  have h1 : attempt ≤ h.options.maxRetries := by omega
  have h2 : ¬ (attempt + 1 > (recordError h a.type).options.maxRetries) := by
    rw [recordError_options]; omega
  simp only [retryLoop, h1, if_true, hd, ha, hr, h2, or_false, Bool.true_eq_false, if_false]
  rfl

/-- One iteration of the loop whose delivery fails and ends the loop: the error is not
retryable, or it was the last attempt. -/
theorem retryLoop_break (env : Env) (payload : JSValue) (fuel : Nat) (h : WebhookErrorHandler)
    (attempt : Nat) (lastError : Option Thrown) (invs : List Invocation) (e : Thrown)
    (a : ErrorAnalysis) (hle : attempt ≤ h.options.maxRetries)
    (hd : env.deliveryFn attempt = .reject e) (ha : analyzeError h.options e = .ok a)
    (hr : a.retryable = false ∨ attempt = h.options.maxRetries) :
    retryLoop env payload (fuel + 1) h attempt lastError invs =
      allAttemptsFailed (recordError h a.type) payload (attempt + 1) (some e)
        (invs ++ [invocationOf h attempt]) := by
  have h2 : a.retryable = false ∨ attempt + 1 > (recordError h a.type).options.maxRetries := by
    rw [recordError_options]
    rcases hr with hr | hr
    · exact Or.inl hr
    · exact Or.inr (by omega)
  simp only [retryLoop, hle, if_true, hd, ha, h2]
  rfl

/-- One iteration of the loop whose delivery succeeds. -/
theorem retryLoop_success (env : Env) (payload : JSValue) (fuel : Nat)
    (h : WebhookErrorHandler) (attempt : Nat) (lastError : Option Thrown)
    (invs : List Invocation) (d : JSValue) (hle : attempt ≤ h.options.maxRetries)
    (hd : env.deliveryFn attempt = .resolve d) :
    retryLoop env payload (fuel + 1) h attempt lastError invs =
      { handler :=
          (if attempt > 0 then
            { resetCircuitBreaker { h with metrics := { h.metrics with
                successfulRequests := h.metrics.successfulRequests + 1 } } with
              metrics := { (resetCircuitBreaker { h with metrics := { h.metrics with
                  successfulRequests := h.metrics.successfulRequests + 1 } }).metrics with
                retriedRequests := (resetCircuitBreaker { h with metrics := { h.metrics with
                  successfulRequests := h.metrics.successfulRequests + 1 } }).metrics.retriedRequests
                    + 1 } }
          else resetCircuitBreaker { h with metrics := { h.metrics with
                successfulRequests := h.metrics.successfulRequests + 1 } }),
        invocations := invs ++ [invocationOf h attempt],
        completion := .returned
          { success := true, data := some d, attempts := some (attempt + 1) } } := by
  simp only [retryLoop, hle, if_true, hd]
  rfl

/-- One iteration of the loop in which `analyzeError` throws. -/
theorem retryLoop_throw (env : Env) (payload : JSValue) (fuel : Nat) (h : WebhookErrorHandler)
    (attempt : Nat) (lastError : Option Thrown) (invs : List Invocation) (e : Thrown)
    (err : JSError) (hle : attempt ≤ h.options.maxRetries)
    (hd : env.deliveryFn attempt = .reject e) (ha : analyzeError h.options e = .error err) :
    retryLoop env payload (fuel + 1) h attempt lastError invs =
      { handler := h, invocations := invs ++ [invocationOf h attempt],
        completion := .threw err } := by
  simp only [retryLoop, hle, if_true, hd, ha]
  rfl


@[simp] theorem allAttemptsFailed_invocations (h : WebhookErrorHandler) (payload : JSValue)
    (attempt : Nat) (lastError : Option Thrown) (invs : List Invocation) :
    (allAttemptsFailed h payload attempt lastError invs).invocations = invs := rfl

theorem allAttemptsFailed_completion (h : WebhookErrorHandler) (payload : JSValue)
    (attempt : Nat) (lastError : Option Thrown) (invs : List Invocation) :
    ∃ info : ErrorInfo,
      (allAttemptsFailed h payload attempt lastError invs).completion =
        .returned { success := false, error := some info } ∧
      info.attempts = some attempt ∧ info.lastError = lastError :=
  ⟨_, rfl, rfl, rfl⟩

@[simp] theorem allAttemptsFailed_options (h : WebhookErrorHandler) (payload : JSValue)
    (attempt : Nat) (lastError : Option Thrown) (invs : List Invocation) :
    (allAttemptsFailed h payload attempt lastError invs).handler.options = h.options := by
  simp only [allAttemptsFailed]; split <;> rfl

@[simp] theorem allAttemptsFailed_circuitBreaker (h : WebhookErrorHandler) (payload : JSValue)
    (attempt : Nat) (lastError : Option Thrown) (invs : List Invocation) :
    (allAttemptsFailed h payload attempt lastError invs).handler.circuitBreaker =
      h.circuitBreaker := by
  simp only [allAttemptsFailed]; split <;> rfl

@[simp] theorem allAttemptsFailed_metrics (h : WebhookErrorHandler) (payload : JSValue)
    (attempt : Nat) (lastError : Option Thrown) (invs : List Invocation) :
    (allAttemptsFailed h payload attempt lastError invs).handler.metrics =
      { h.metrics with failedRequests := h.metrics.failedRequests + 1 } := by
  simp only [allAttemptsFailed]; split <;> rfl

/-- A call whose deliveries all fail with errors that are retried: the loop makes every
attempt up to `maxRetries` and ends in the code after the loop.  `Q` is any property of the
state that the handling of a retried failure preserves. -/
theorem retryLoop_allFail (env : Env) (payload : JSValue) (opts : Options)
    (hall : ∀ i, ∃ e a, env.deliveryFn i = .reject e ∧ analyzeError opts e = .ok a ∧
      a.retryable = true)
    (Q : Nat → WebhookErrorHandler → Prop)
    (hQ : ∀ i h t, h.options = opts → Q i h →
      Q (i + 1) (afterRetriedFailure h (env.failTime i) t)) :
    ∀ (fuel : Nat) (h : WebhookErrorHandler) (attempt : Nat) (lastError : Option Thrown)
      (invs : List Invocation),
      h.options = opts → attempt ≤ opts.maxRetries → opts.maxRetries + 1 ≤ fuel + attempt →
      Q attempt h →
      ∃ hf e a newInvs, Q opts.maxRetries hf ∧ hf.options = opts ∧
        env.deliveryFn opts.maxRetries = .reject e ∧ analyzeError opts e = .ok a ∧
        newInvs.length = opts.maxRetries + 1 - attempt ∧
        retryLoop env payload fuel h attempt lastError invs =
          allAttemptsFailed (recordError hf a.type) payload (opts.maxRetries + 1) (some e)
            (invs ++ newInvs) := by
  intro fuel
  induction fuel with
  | zero => intro h attempt _ _ _ h1 h2 _; omega
  | succ fuel ih =>
    intro h attempt lastError invs hopts hle hfuel hq
    obtain ⟨e, a, hd, ha, hr⟩ := hall attempt
    by_cases hlast : attempt = opts.maxRetries
    · refine ⟨h, e, a, [invocationOf h attempt], hlast ▸ hq, hopts, hlast ▸ hd, ha, ?_, ?_⟩
      · simp [hlast]
      · rw [retryLoop_break env payload fuel h attempt lastError invs e a (hopts ▸ hle) hd
          (hopts ▸ ha) (Or.inr (hopts ▸ hlast)), hlast]
    · have hlt : attempt + 1 ≤ opts.maxRetries := by omega
      rw [retryLoop_retry env payload fuel h attempt lastError invs e a (hopts ▸ hlt) hd
        (hopts ▸ ha) hr]
      obtain ⟨hf, e2, a2, newInvs, h1, h2, h3, h4, h5, h6⟩ :=
        ih (afterRetriedFailure h (env.failTime attempt) a.type) (attempt + 1) (some e)
          (invs ++ [invocationOf h attempt]) (by simp [hopts]) hlt (by omega)
          (hQ attempt h a.type hopts hq)
      refine ⟨hf, e2, a2, invocationOf h attempt :: newInvs, h1, h2, h3, h4, ?_, ?_⟩
      · simp [h5]; omega
      · rw [h6]; simp

/-- A call whose first `k` deliveries fail with errors that are retried and whose next
delivery succeeds: the loop ends in the success branch of attempt `k`. -/
theorem retryLoop_succeedsAt (env : Env) (payload : JSValue) (opts : Options) (k : Nat)
    (d : JSValue) (hk : k ≤ opts.maxRetries)
    (hfail : ∀ i, i < k → ∃ e a, env.deliveryFn i = .reject e ∧ analyzeError opts e = .ok a ∧
      a.retryable = true)
    (hsucc : env.deliveryFn k = .resolve d)
    (Q : Nat → WebhookErrorHandler → Prop)
    (hQ : ∀ i h t, h.options = opts → Q i h →
      Q (i + 1) (afterRetriedFailure h (env.failTime i) t)) :
    ∀ (fuel : Nat) (h : WebhookErrorHandler) (attempt : Nat) (lastError : Option Thrown)
      (invs : List Invocation),
      h.options = opts → attempt ≤ k → k + 1 ≤ fuel + attempt → Q attempt h →
      ∃ hf lastError2 invs2, Q k hf ∧ hf.options = opts ∧
        invs2.length = invs.length + (k - attempt) ∧
        retryLoop env payload fuel h attempt lastError invs =
          retryLoop env payload 1 hf k lastError2 invs2 := by
  intro fuel
  induction fuel with
  | zero => intro h attempt _ _ _ h1 h2 _; omega
  | succ fuel ih =>
    intro h attempt lastError invs hopts hle hfuel hq
    by_cases hlast : attempt = k
    · subst hlast
      refine ⟨h, lastError, invs, hq, hopts, by simp, ?_⟩
      rw [retryLoop_success env payload fuel h attempt lastError invs d (hopts ▸ hk) hsucc,
        retryLoop_success env payload 0 h attempt lastError invs d (hopts ▸ hk) hsucc]
    · have hlt : attempt < k := by omega
      obtain ⟨e, a, hd, ha, hr⟩ := hfail attempt hlt
      rw [retryLoop_retry env payload fuel h attempt lastError invs e a
        (hopts ▸ (by omega : attempt + 1 ≤ opts.maxRetries)) hd (hopts ▸ ha) hr]
      obtain ⟨hf, le2, invs2, h1, h2, h3, h4⟩ :=
        ih (afterRetriedFailure h (env.failTime attempt) a.type) (attempt + 1) (some e)
          (invs ++ [invocationOf h attempt]) (by simp [hopts]) hlt (by omega)
          (hQ attempt h a.type hopts hq)
      refine ⟨hf, le2, invs2, h1, h2, ?_, h4⟩
      simp at h3; omega

/-- A call returns, and no exception propagates from it, when `analyzeError` accepts every
value that the delivery function raises; the result is a failure when no delivery
succeeds. -/
theorem retryLoop_returns (env : Env) (payload : JSValue) (opts : Options)
    (hok : ∀ i e, env.deliveryFn i = .reject e → ∃ a, analyzeError opts e = .ok a) :
    ∀ (fuel : Nat) (h : WebhookErrorHandler) (attempt : Nat) (lastError : Option Thrown)
      (invs : List Invocation),
      h.options = opts → attempt ≤ opts.maxRetries + 1 → opts.maxRetries + 2 ≤ fuel + attempt →
      ∃ res, (retryLoop env payload fuel h attempt lastError invs).completion = .returned res ∧
        ((∀ i, ∃ e, env.deliveryFn i = .reject e) → res.success = false) := by
  intro fuel
  induction fuel with
  | zero => intro h attempt _ _ _ h1 h2; omega
  | succ fuel ih =>
    intro h attempt lastError invs hopts hle hfuel
    by_cases hguard : attempt ≤ opts.maxRetries
    · cases hd : env.deliveryFn attempt with
      | resolve d =>
        rw [retryLoop_success env payload fuel h attempt lastError invs d (hopts ▸ hguard) hd]
        refine ⟨_, rfl, ?_⟩
        intro hall
        obtain ⟨e, he⟩ := hall attempt
        rw [hd] at he
        cases he
      | reject e =>
        obtain ⟨a, ha⟩ := hok attempt e hd
        by_cases hbreak : a.retryable = false ∨ attempt = opts.maxRetries
        · rw [retryLoop_break env payload fuel h attempt lastError invs e a (hopts ▸ hguard) hd
            (hopts ▸ ha) (hopts ▸ hbreak)]
          obtain ⟨info, hc, _⟩ := allAttemptsFailed_completion (recordError h a.type) payload
            (attempt + 1) (some e) (invs ++ [invocationOf h attempt])
          exact ⟨_, hc, fun _ => rfl⟩
        · have hr : a.retryable = true := by
            cases hb : a.retryable
            · exact absurd (Or.inl hb) hbreak
            · rfl
          have hlt : attempt + 1 ≤ opts.maxRetries := by
            have : attempt ≠ opts.maxRetries := fun hh => hbreak (Or.inr hh)
            omega
          rw [retryLoop_retry env payload fuel h attempt lastError invs e a (hopts ▸ hlt) hd
            (hopts ▸ ha) hr]
          exact ih _ (attempt + 1) (some e) _ (by simp [hopts]) (by omega) (by omega)
    · have hg : ¬ attempt ≤ h.options.maxRetries := hopts ▸ hguard
      simp only [retryLoop, hg, if_false]
      obtain ⟨info, hc, _⟩ := allAttemptsFailed_completion h payload attempt lastError invs
      exact ⟨_, hc, fun _ => rfl⟩

/-! ## Theorems: classification, breaker and invocations -/

/-- The classification of an object with a string `message` never throws. -/
theorem analyzeError_of_message (opts : Options) (name : Option JSString) (message : JSString)
    (response : Option Nat) (type : Option JSString) :
    ∃ a, analyzeError opts (.errorObject name (some message) response type) = .ok a := by
  have hc : ∃ a, classify name (some message) response = .ok a := by
    simp only [classify, messageIncludes]
    split_ifs <;> (repeat' split) <;> simp_all
  obtain ⟨a, ha⟩ := hc
  simp only [analyzeError, ha]
  split_ifs <;> exact ⟨_, rfl⟩

/-- An error with a response status of 500 or more is retryable, whatever its name and
message. -/
theorem analyzeError_server_retryable (opts : Options) (name : Option JSString)
    (message : JSString) (status : Nat) (type : Option JSString) (hs : 500 ≤ status) :
    ∃ a, analyzeError opts (.errorObject name (some message) (some status) type) = .ok a ∧
      a.retryable = true := by
  have hc : ∃ a, classify name (some message) (some status) = .ok a ∧ a.retryable = true := by
    simp only [classify, messageIncludes, ge_iff_le, hs, if_true]
    split_ifs <;> (repeat' split) <;> simp_all
  obtain ⟨a, ha, hr⟩ := hc
  simp only [analyzeError, ha]
  split_ifs
  · exact ⟨_, rfl, rfl⟩
  · exact ⟨_, rfl, hr⟩

theorem executeWithRetry_closed (h : WebhookErrorHandler) (env : Env) (payload : JSValue)
    (hclosed : h.circuitBreaker.isOpen = false) :
    executeWithRetry h env payload =
      retryLoop env payload (h.options.maxRetries + 2)
        { h with metrics := { h.metrics with totalRequests := h.metrics.totalRequests + 1 } }
        0 none [] := by
  simp [executeWithRetry, hclosed]

@[simp] theorem resetCircuitBreaker_options (h : WebhookErrorHandler) :
    (resetCircuitBreaker h).options = h.options := by
  unfold resetCircuitBreaker; split_ifs <;> rfl

theorem resetCircuitBreaker_closed (h : WebhookErrorHandler) :
    (resetCircuitBreaker h).circuitBreaker.isOpen = false ∧
      (resetCircuitBreaker h).circuitBreaker.failureCount = 0 := by
  unfold resetCircuitBreaker
  split_ifs with hc
  · exact ⟨rfl, rfl⟩
  · simp only [not_or, Bool.not_eq_true, not_lt, Nat.le_zero] at hc
    exact hc

@[simp] theorem resetCircuitBreaker_metrics (h : WebhookErrorHandler) :
    (resetCircuitBreaker h).metrics = h.metrics := by
  unfold resetCircuitBreaker; split_ifs <;> rfl

/-- The invocations of the loop extend the ones made before it. -/
theorem retryLoop_invocations_extend (env : Env) (payload : JSValue) :
    ∀ (fuel : Nat) (h : WebhookErrorHandler) (attempt : Nat) (lastError : Option Thrown)
      (invs : List Invocation),
      ∃ rest, (retryLoop env payload fuel h attempt lastError invs).invocations = invs ++ rest := by
  intro fuel
  induction fuel with
  | zero => intro h attempt lastError invs; exact ⟨[], by simp [retryLoop]⟩
  | succ fuel ih =>
    intro h attempt lastError invs
    by_cases hg : attempt ≤ h.options.maxRetries
    · cases hd : env.deliveryFn attempt with
      | resolve d =>
        rw [retryLoop_success env payload fuel h attempt lastError invs d hg hd]
        exact ⟨_, rfl⟩
      | reject e =>
        cases ha : analyzeError h.options e with
        | error err =>
          rw [retryLoop_throw env payload fuel h attempt lastError invs e err hg hd ha]
          exact ⟨_, rfl⟩
        | ok a =>
          by_cases hbreak : a.retryable = false ∨ attempt = h.options.maxRetries
          · rw [retryLoop_break env payload fuel h attempt lastError invs e a hg hd ha hbreak]
            exact ⟨_, rfl⟩
          · have hr : a.retryable = true := by
              cases hb : a.retryable
              · exact absurd (Or.inl hb) hbreak
              · rfl
            have hlt : attempt + 1 ≤ h.options.maxRetries := by
              have : attempt ≠ h.options.maxRetries := fun hh => hbreak (Or.inr hh)
              omega
            rw [retryLoop_retry env payload fuel h attempt lastError invs e a hlt hd ha hr]
            obtain ⟨rest, hrest⟩ := ih (afterRetriedFailure h (env.failTime attempt) a.type)
              (attempt + 1) (some e) (invs ++ [invocationOf h attempt])
            exact ⟨invocationOf h attempt :: rest, by rw [hrest]; simp⟩
    · simp only [retryLoop, hg, if_false]
      exact ⟨[], by simp⟩

/-- The loop invokes the delivery function at least once when it is entered with an attempt
that does not exceed `maxRetries`. -/
theorem retryLoop_first_invocation (env : Env) (payload : JSValue) (fuel : Nat)
    (h : WebhookErrorHandler) (attempt : Nat) (lastError : Option Thrown)
    (invs : List Invocation) (hg : attempt ≤ h.options.maxRetries) :
    ∃ rest, (retryLoop env payload (fuel + 1) h attempt lastError invs).invocations =
      invs ++ invocationOf h attempt :: rest := by
  cases hd : env.deliveryFn attempt with
  | resolve d =>
    rw [retryLoop_success env payload fuel h attempt lastError invs d hg hd]
    exact ⟨[], rfl⟩
  | reject e =>
    cases ha : analyzeError h.options e with
    | error err =>
      rw [retryLoop_throw env payload fuel h attempt lastError invs e err hg hd ha]
      exact ⟨[], rfl⟩
    | ok a =>
      by_cases hbreak : a.retryable = false ∨ attempt = h.options.maxRetries
      · rw [retryLoop_break env payload fuel h attempt lastError invs e a hg hd ha hbreak]
        exact ⟨[], rfl⟩
      · have hr : a.retryable = true := by
          cases hb : a.retryable
          · exact absurd (Or.inl hb) hbreak
          · rfl
        have hlt : attempt + 1 ≤ h.options.maxRetries := by
          have : attempt ≠ h.options.maxRetries := fun hh => hbreak (Or.inr hh)
          omega
        rw [retryLoop_retry env payload fuel h attempt lastError invs e a hlt hd ha hr]
        obtain ⟨rest, hrest⟩ := retryLoop_invocations_extend env payload fuel
          (afterRetriedFailure h (env.failTime attempt) a.type)
          (attempt + 1) (some e) (invs ++ [invocationOf h attempt])
        exact ⟨rest, by rw [hrest]; simp⟩

theorem afterRetriedFailure_circuitBreaker (h : WebhookErrorHandler) (ft : Nat)
    (type : JSString) :
    (afterRetriedFailure h ft type).circuitBreaker =
      if h.circuitBreaker.failureCount + 1 ≥ h.circuitBreaker.threshold then
        { h.circuitBreaker with
          isOpen := true, failureCount := h.circuitBreaker.failureCount + 1,
          lastFailureTime := some ft }
      else
        { h.circuitBreaker with failureCount := h.circuitBreaker.failureCount + 1 } := by
  unfold afterRetriedFailure
  simp only [recordError_circuitBreaker]
  split_ifs <;> simp [openCircuitBreaker]

/-- The short circuit: a call on an open breaker within the cooldown returns
`CIRCUIT_BREAKER_OPEN`, invokes nothing and changes nothing. -/
theorem executeWithRetry_short_circuit (h : WebhookErrorHandler) (env : Env) (payload : JSValue)
    (T : Nat) (hopen : h.circuitBreaker.isOpen = true)
    (hlast : h.circuitBreaker.lastFailureTime = some T)
    (hlt : (env.now : Int) - (T : Int) < (h.circuitBreaker.timeout : Int)) :
    executeWithRetry h env payload =
      { handler := h, invocations := [],
        completion := .returned (createErrorResult
          { type := lit "CIRCUIT_BREAKER_OPEN"
            message := lit "Circuit breaker is open, requests temporarily blocked"
            circuitBreakerTimeout := some h.circuitBreaker.timeout }) } := by
  simp only [executeWithRetry, hopen, if_true, hlast, Option.getD_some, hlt]

/-- One failing call keeps the invariant of the breaker, and counts. -/
theorem executeWithRetry_breakerInv (opts : Options) (t τ : Nat) (W : Nat → Prop) (k : Nat)
    (h : WebhookErrorHandler) (env : Env) (payload : JSValue)
    (hmr : 1 ≤ opts.maxRetries)
    (hinv : BreakerInv opts t τ W k h)
    (hnow : ∀ T, W T → (env.now : Int) - (T : Int) < (τ : Int))
    (hfail : ∀ i, ∃ e a, env.deliveryFn i = .reject e ∧ analyzeError opts e = .ok a ∧
      a.retryable = true)
    (hW : ∀ i, W (env.failTime i)) :
    BreakerInv opts t τ W (k + 1) (executeWithRetry h env payload).handler ∧
      (executeWithRetry h env payload).returnedFailure = true := by
  obtain ⟨ho, ht, hτ, hcase⟩ := hinv
  subst ho
  rcases hcase with ⟨hopen, T, hlast, hWT⟩ | ⟨hclosed, hk, hlt⟩
  · rw [executeWithRetry_short_circuit h env payload T hopen hlast (hτ ▸ hnow T hWT)]
    exact ⟨⟨rfl, ht, hτ, Or.inl ⟨hopen, T, hlast, hWT⟩⟩, rfl⟩
  · obtain ⟨hf, e, a, newInvs, hq, hfo, _, _, _, heq⟩ :=
      retryLoop_allFail env payload h.options hfail
        (fun i hh => hh.circuitBreaker.threshold = t ∧ hh.circuitBreaker.timeout = τ ∧
          ((hh.circuitBreaker.isOpen = true ∧
              ∃ T, hh.circuitBreaker.lastFailureTime = some T ∧ W T) ∨
            (hh.circuitBreaker.isOpen = false ∧
              hh.circuitBreaker.failureCount = h.circuitBreaker.failureCount + i ∧
              hh.circuitBreaker.failureCount < t)))
        (by
          intro i hh type _ ⟨q1, q2, q3⟩
          rw [afterRetriedFailure_circuitBreaker]
          split_ifs with hge
          · exact ⟨q1, q2, Or.inl ⟨rfl, _, rfl, hW i⟩⟩
          · refine ⟨q1, q2, ?_⟩
            rcases q3 with ⟨o1, o2⟩ | ⟨c1, c2, c3⟩
            · exact Or.inl ⟨o1, o2⟩
            · refine Or.inr ⟨c1, ?_, ?_⟩
              · simp only [c2]; omega
              · simp only; omega)
        (h.options.maxRetries + 2)
        { h with metrics := { h.metrics with totalRequests := h.metrics.totalRequests + 1 } }
        0 none [] rfl (Nat.zero_le _) (by omega)
        ⟨ht, hτ, Or.inr ⟨hclosed, rfl, hlt⟩⟩
    rw [executeWithRetry_closed h env payload hclosed, heq]
    obtain ⟨q1, q2, q3⟩ := hq
    refine ⟨⟨?_, ?_, ?_, ?_⟩, ?_⟩
    · simp [hfo]
    · simp [q1]
    · simp [q2]
    · simp only [allAttemptsFailed_circuitBreaker, recordError_circuitBreaker]
      rcases q3 with ⟨o1, o2⟩ | ⟨c1, c2, c3⟩
      · exact Or.inl ⟨o1, o2⟩
      · exact Or.inr ⟨c1, by omega, c3⟩
    · rfl

/-- Consecutive failing calls keep the invariant of the breaker, and each returns a
failure. -/
theorem stateAfter_breakerInv (opts : Options) (t τ : Nat) (W : Nat → Prop) (payload : JSValue)
    (hmr : 1 ≤ opts.maxRetries) (envs : List Env)
    (henvs : ∀ env ∈ envs, (∀ T, W T → (env.now : Int) - (T : Int) < (τ : Int)) ∧
      (∀ i, ∃ e a, env.deliveryFn i = .reject e ∧ analyzeError opts e = .ok a ∧
        a.retryable = true) ∧
      (∀ i, W (env.failTime i))) :
    ∀ (k : Nat) (h : WebhookErrorHandler), BreakerInv opts t τ W k h →
      BreakerInv opts t τ W (k + envs.length) (stateAfter payload h envs) ∧
        ∀ r ∈ callsFrom payload h envs, r.returnedFailure = true := by
  induction envs with
  | nil => intro k h hinv; exact ⟨hinv, by simp [callsFrom]⟩
  | cons env rest ih =>
    intro k h hinv
    obtain ⟨h1, h2, h3⟩ := henvs env (List.mem_cons_self _ _)
    obtain ⟨hstep, hres⟩ := executeWithRetry_breakerInv opts t τ W k h env payload hmr hinv
      h1 h2 h3
    obtain ⟨hfin, hall⟩ := ih (fun e he => henvs e (List.mem_cons_of_mem _ he)) (k + 1) _ hstep
    refine ⟨?_, ?_⟩
    · simp only [stateAfter, List.length_cons]
      rw [show k + (rest.length + 1) = k + 1 + rest.length by omega]
      exact hfin
    · intro r hr
      simp only [callsFrom, List.mem_cons] at hr
      rcases hr with rfl | hr
      · exact hres
      · exact hall r hr

theorem orDefault_pos (option : Option Nat) (fallback : Nat) (hf : 1 ≤ fallback) :
    1 ≤ orDefault option fallback := by
  unfold orDefault
  split
  · split_ifs with hz
    · exact hf
    · omega
  · exact hf

/-- No kind of the default retryable list is the kind of a client error. -/
theorem clientError_not_default (p : JSString) :
    defaultRetryableErrors.contains (p ++ lit "_CLIENT_ERROR") = false := by
  have key : ∀ e ∈ defaultRetryableErrors, ¬ (lit "T_ERROR" <:+ e) := by decide
  rw [Bool.eq_false_iff]
  intro hc
  have hmem : p ++ lit "_CLIENT_ERROR" ∈ defaultRetryableErrors := by
    simpa using hc
  apply key _ hmem
  exact ⟨p ++ lit "_CLIEN", by simp [lit]⟩

/-- The classification of an error with a response status, when its name and message select
none of the branches before the status. -/
theorem classify_by_status (name message : JSString) (status : Nat)
    (hfetch : name = lit "TypeError" → includes message (lit "fetch") = false)
    (habort : name ≠ lit "AbortError")
    (htimeout : includes message (lit "timeout") = false) :
    classify (some name) (some message) (some status) =
      .ok (if status ≥ 500 then
          { type := natToString status ++ lit "_SERVER_ERROR", retryable := true,
            severity := lit "high" }
        else if status = 429 then
          { type := lit "429_RATE_LIMITED", retryable := true, severity := lit "medium" }
        else if status = 408 then
          { type := lit "408_TIMEOUT", retryable := true, severity := lit "medium" }
        else if status ≥ 400 then
          { type := natToString status ++ lit "_CLIENT_ERROR", retryable := false,
            severity := lit "low" }
        else
          { type := lit "UNKNOWN_ERROR", retryable := false, severity := lit "medium" }) := by
  have habort2 : ¬ (some name = some (lit "AbortError")) := by simpa using habort
  by_cases hn : name = lit "TypeError"
  · have hf := hfetch hn
    subst hn
    have hne : ¬ (some (lit "TypeError") = some (lit "AbortError")) := by decide
    simp only [classify, messageIncludes, if_true, hf, hne, if_false, htimeout]
  · have hn2 : ¬ (some name = some (lit "TypeError")) := by simpa using hn
    simp only [classify, messageIncludes, hn2, if_false, habort2, htimeout]

/-- An error with a response status from 400 to 499 other than 429 and 408, whose name and
message select none of the branches before the status, is a client error, and is not
retryable under the default retryable list. -/
theorem analyzeError_client_error (opts : Options) (name message : JSString) (status : Nat)
    (type : Option JSString)
    (hdefault : opts.retryableErrors = defaultRetryableErrors)
    (hfetch : name = lit "TypeError" → includes message (lit "fetch") = false)
    (habort : name ≠ lit "AbortError")
    (htimeout : includes message (lit "timeout") = false)
    (h1 : 400 ≤ status) (h2 : status < 500) (h3 : status ≠ 429) (h4 : status ≠ 408) :
    ∃ a, analyzeError opts (.errorObject (some name) (some message) (some status) type) =
        .ok a ∧ a.type = natToString status ++ lit "_CLIENT_ERROR" ∧ a.retryable = false := by
  have hc := classify_by_status name message status hfetch habort htimeout
  have h5 : ¬ status ≥ 500 := by omega
  simp only [analyzeError, hc, h5, h3, h4, if_false, ge_iff_le, h1, if_true, hdefault,
    clientError_not_default, Bool.false_eq_true]
  exact ⟨_, rfl, rfl, rfl⟩

/-- The loop does not run out of fuel when it has as much fuel as `maxRetries + 2` less the
attempts made. -/
theorem retryLoop_terminates (env : Env) (payload : JSValue) (opts : Options) :
    ∀ (fuel : Nat) (h : WebhookErrorHandler) (attempt : Nat) (lastError : Option Thrown)
      (invs : List Invocation),
      h.options = opts → attempt ≤ opts.maxRetries + 1 → opts.maxRetries + 2 ≤ fuel + attempt →
      (retryLoop env payload fuel h attempt lastError invs).completion ≠ .outOfFuel := by
  intro fuel
  induction fuel with
  | zero => intro h attempt _ _ _ h1 h2; omega
  | succ fuel ih =>
    intro h attempt lastError invs hopts hle hfuel
    by_cases hguard : attempt ≤ opts.maxRetries
    · cases hd : env.deliveryFn attempt with
      | resolve d =>
        rw [retryLoop_success env payload fuel h attempt lastError invs d (hopts ▸ hguard) hd]
        simp
      | reject e =>
        cases ha : analyzeError opts e with
        | error err =>
          rw [retryLoop_throw env payload fuel h attempt lastError invs e err (hopts ▸ hguard)
            hd (hopts ▸ ha)]
          simp
        | ok a =>
          by_cases hbreak : a.retryable = false ∨ attempt = opts.maxRetries
          · rw [retryLoop_break env payload fuel h attempt lastError invs e a (hopts ▸ hguard)
              hd (hopts ▸ ha) (hopts ▸ hbreak)]
            obtain ⟨info, hc, _⟩ := allAttemptsFailed_completion (recordError h a.type) payload
              (attempt + 1) (some e) (invs ++ [invocationOf h attempt])
            rw [hc]
            simp
          · have hr : a.retryable = true := by
              cases hb : a.retryable
              · exact absurd (Or.inl hb) hbreak
              · rfl
            have hlt : attempt + 1 ≤ opts.maxRetries := by
              have : attempt ≠ opts.maxRetries := fun hh => hbreak (Or.inr hh)
              omega
            rw [retryLoop_retry env payload fuel h attempt lastError invs e a (hopts ▸ hlt) hd
              (hopts ▸ ha) hr]
            exact ih _ (attempt + 1) (some e) _ (by simp [hopts]) (by omega) (by omega)
    · have hg : ¬ attempt ≤ h.options.maxRetries := hopts ▸ hguard
      simp only [retryLoop, hg, if_false]
      obtain ⟨info, hc, _⟩ := allAttemptsFailed_completion h payload attempt lastError invs
      rw [hc]
      simp

/-- The fuel of `executeWithRetry` is enough: every call returns or throws. -/
theorem executeWithRetry_terminates (h : WebhookErrorHandler) (env : Env) (payload : JSValue) :
    (executeWithRetry h env payload).completion ≠ .outOfFuel := by
  simp only [executeWithRetry]
  split_ifs
  · simp
  · exact retryLoop_terminates env payload (resetCircuitBreaker h).options _ _ 0 none [] rfl
      (Nat.zero_le _) (by omega)
  · exact retryLoop_terminates env payload h.options _ _ 0 none [] rfl (Nat.zero_le _) (by omega)

/-! ## Theorems: the claims about the retry engine -/

/-- Claim C3: on an engine whose breaker is closed at entry and whose `maxRetries` is `n`, when
every invocation of the delivery function raises an error with a response of status 500,
`executeWithRetry` invokes the delivery function exactly `n + 1` times and returns a result
with `success` false. -/
theorem executeWithRetry_always_500 (h : WebhookErrorHandler) (env : Env) (payload : JSValue)
    (hclosed : h.circuitBreaker.isOpen = false)
    (h500 : ∀ i, ∃ name message type,
      env.deliveryFn i = .reject (.errorObject (some name) (some message) (some 500) type)) :
    (executeWithRetry h env payload).invocations.length = h.options.maxRetries + 1 ∧
      ∃ res, (executeWithRetry h env payload).completion = .returned res ∧
        res.success = false := by
  have hall : ∀ i, ∃ e a, env.deliveryFn i = .reject e ∧ analyzeError h.options e = .ok a ∧
      a.retryable = true := by
    intro i
    obtain ⟨name, message, type, hd⟩ := h500 i
    obtain ⟨a, ha, hr⟩ := analyzeError_server_retryable h.options (some name) message 500 type
      (le_refl _)
    exact ⟨_, a, hd, ha, hr⟩
  obtain ⟨hf, e, a, newInvs, _, _, _, _, hlen, heq⟩ :=
    retryLoop_allFail env payload h.options hall (fun _ _ => True) (fun _ _ _ _ _ => trivial)
      (h.options.maxRetries + 2)
      { h with metrics := { h.metrics with totalRequests := h.metrics.totalRequests + 1 } }
      0 none [] rfl (Nat.zero_le _) (by omega) trivial
  rw [executeWithRetry_closed h env payload hclosed, heq]
  obtain ⟨info, hc, _⟩ := allAttemptsFailed_completion (recordError hf a.type) payload
    (h.options.maxRetries + 1) (some e) ([] ++ newInvs)
  exact ⟨by simp [hlen], _, hc, rfl⟩

/-- Witness of C3: the default engine and a delivery function that always raises
`new Error("HTTP 500: Internal Server Error")` with a response of status 500. -/
theorem executeWithRetry_always_500_witness :
    (executeWithRetry (WebhookErrorHandler.new {}) (alwaysRaising serverError)
        .null).invocations.length = 3 + 1 ∧
      ∃ res, (executeWithRetry (WebhookErrorHandler.new {}) (alwaysRaising serverError)
          .null).completion = .returned res ∧ res.success = false :=
  executeWithRetry_always_500 (WebhookErrorHandler.new {}) (alwaysRaising serverError) .null rfl
    (fun _ => ⟨_, _, _, rfl⟩)

/-- Claim C4: when the breaker is open at entry of `executeWithRetry`, with `lastFailureTime`
the time `last`: if `Date.now() - last` is less than the cooldown, the call returns a failure of
type `CIRCUIT_BREAKER_OPEN`, invokes the delivery function not at all and leaves the whole
state (metrics, error queue, breaker) as it was; otherwise the first thing the call does to the
delivery function is to invoke it with attempt 0, the breaker being reset at that moment
(`isOpen` false, `failureCount` 0). -/
theorem executeWithRetry_open_breaker (h : WebhookErrorHandler) (env : Env) (payload : JSValue)
    (last : Nat) (hopen : h.circuitBreaker.isOpen = true)
    (hlast : h.circuitBreaker.lastFailureTime = some last) :
    ((env.now : Int) - (last : Int) < (h.circuitBreaker.timeout : Int) →
      (executeWithRetry h env payload).invocations = [] ∧
      (executeWithRetry h env payload).handler = h ∧
      ∃ info, (executeWithRetry h env payload).completion =
          .returned { success := false, error := some info } ∧
        info.type = lit "CIRCUIT_BREAKER_OPEN") ∧
    (¬ ((env.now : Int) - (last : Int) < (h.circuitBreaker.timeout : Int)) →
      ∃ rest, (executeWithRetry h env payload).invocations =
        { attempt := 0, timeout := 10000,
          breaker := { isOpen := false, failureCount := 0, lastFailureTime := none,
                       threshold := h.circuitBreaker.threshold,
                       timeout := h.circuitBreaker.timeout } } :: rest) := by
  constructor
  · intro hlt
    have hrun : executeWithRetry h env payload =
        { handler := h, invocations := [],
          completion := .returned (createErrorResult
            { type := lit "CIRCUIT_BREAKER_OPEN"
              message := lit "Circuit breaker is open, requests temporarily blocked"
              circuitBreakerTimeout := some h.circuitBreaker.timeout }) } := by
      simp only [executeWithRetry, hopen, if_true, hlast, Option.getD_some, hlt]
    rw [hrun]
    exact ⟨rfl, rfl, _, rfl, rfl⟩
  · intro hge
    simp only [executeWithRetry, hopen, if_true, hlast, Option.getD_some, hge, if_false]
    have hreset : resetCircuitBreaker h =
        { h with circuitBreaker := { h.circuitBreaker with
            isOpen := false, failureCount := 0, lastFailureTime := none } } := by
      simp [resetCircuitBreaker, hopen]
    obtain ⟨rest, hr⟩ := retryLoop_first_invocation env payload
      ((resetCircuitBreaker h).options.maxRetries + 1)
      { resetCircuitBreaker h with metrics := { (resetCircuitBreaker h).metrics with
          totalRequests := (resetCircuitBreaker h).metrics.totalRequests + 1 } }
      0 none [] (Nat.zero_le _)
    refine ⟨rest, ?_⟩
    rw [hr, hreset]
    rfl

/-- Witness of C4: an engine whose breaker opened at time 1000 with the cooldown of 60000; a
call at time 0 is short-circuited, a call at time 70000 invokes the delivery function. -/
theorem executeWithRetry_open_breaker_witness :
    ((executeWithRetry openedHandler (alwaysRaising serverError) .null).invocations = [] ∧
      (executeWithRetry openedHandler (alwaysRaising serverError) .null).handler =
        openedHandler ∧
      ∃ info, (executeWithRetry openedHandler (alwaysRaising serverError) .null).completion =
          .returned { success := false, error := some info } ∧
        info.type = lit "CIRCUIT_BREAKER_OPEN") ∧
    ∃ rest, (executeWithRetry openedHandler (lateRaising serverError) .null).invocations =
      { attempt := 0, timeout := 10000,
        breaker := { isOpen := false, failureCount := 0, lastFailureTime := none,
                     threshold := 5, timeout := 60000 } } :: rest :=
  ⟨(executeWithRetry_open_breaker openedHandler (alwaysRaising serverError) .null 1000 rfl
      rfl).1 (by decide),
    (executeWithRetry_open_breaker openedHandler (lateRaising serverError) .null 1000 rfl
      rfl).2 (by decide)⟩

/-- With `maxRetries` zero a call on a closed breaker counts no failure and leaves the breaker
closed, whatever the deliveries do: the only attempt is the last one.  The loop reads
`maxRetries` in the comparisons `attempt <= maxRetries` and `attempt > maxRetries` only, so it
runs in this way for every stored `maxRetries` from 0 up to 1, excluded. -/
theorem executeWithRetry_without_retries (h : WebhookErrorHandler) (env : Env)
    (payload : JSValue) (hmr : h.options.maxRetries = 0)
    (hclosed : h.circuitBreaker.isOpen = false) :
    (executeWithRetry h env payload).handler.circuitBreaker.isOpen = false ∧
      (executeWithRetry h env payload).handler.circuitBreaker.failureCount ≤
        h.circuitBreaker.failureCount ∧
      (executeWithRetry h env payload).handler.options = h.options ∧
      (executeWithRetry h env payload).invocations.length = 1 := by
  rw [executeWithRetry_closed h env payload hclosed,
    show h.options.maxRetries + 2 = (h.options.maxRetries + 1) + 1 from rfl]
  have hg : 0 ≤ ({ h with metrics := { h.metrics with
      totalRequests := h.metrics.totalRequests + 1 } } : WebhookErrorHandler).options.maxRetries :=
    Nat.zero_le _
  cases hd : env.deliveryFn 0 with
  | resolve d =>
    rw [retryLoop_success env payload _ _ 0 none [] d hg hd]
    simp only [gt_iff_lt, lt_self_iff_false, if_false, List.nil_append, List.length_singleton,
      and_true]
    refine ⟨(resetCircuitBreaker_closed _).1, ?_, resetCircuitBreaker_options _⟩
    rw [(resetCircuitBreaker_closed _).2]
    exact Nat.zero_le _
  | reject e =>
    cases ha : analyzeError h.options e with
    | error err =>
      rw [retryLoop_throw env payload _ _ 0 none [] e err hg hd ha]
      refine ⟨hclosed, le_refl _, rfl, ?_⟩
      simp
    | ok a =>
      rw [retryLoop_break env payload _ _ 0 none [] e a hg hd ha (Or.inr hmr.symm)]
      simp only [allAttemptsFailed_circuitBreaker, recordError_circuitBreaker,
        allAttemptsFailed_options, recordError_options, allAttemptsFailed_invocations,
        List.nil_append, List.length_singleton]
      refine ⟨hclosed, le_refl _, ?_, ?_⟩
      all_goals trivial

/-- Claim C5, as amended: on an engine with a closed breaker and no failure counted, as the
constructor leaves it, whose `maxRetries` and breaker threshold `t` are whole numbers of at
least 1, after `t` consecutive calls of `executeWithRetry` whose deliveries all fail with
errors that `analyzeError` finds retryable, all made within one cooldown (every reading of the
clock at the entry of a call is less than the cooldown after every reading at a failure), each
call has returned a failure and the breaker is open: the next call within the cooldown returns
`CIRCUIT_BREAKER_OPEN` without invoking the delivery function. -/
theorem breaker_opens_after_threshold_calls (h : WebhookErrorHandler) (envs : List Env)
    (next : Env) (payload : JSValue)
    (hclosed : h.circuitBreaker.isOpen = false) (hcount : h.circuitBreaker.failureCount = 0)
    (hmr : 1 ≤ h.options.maxRetries) (ht : 1 ≤ h.circuitBreaker.threshold)
    (hlen : envs.length = h.circuitBreaker.threshold)
    (hfail : ∀ env ∈ envs, ∀ i, ∃ e a, env.deliveryFn i = .reject e ∧
      analyzeError h.options e = .ok a ∧ a.retryable = true)
    (hwindow : ∀ e1 ∈ envs ++ [next], ∀ e2 ∈ envs, ∀ i,
      (e1.now : Int) - (e2.failTime i : Int) < (h.circuitBreaker.timeout : Int)) :
    (∀ r ∈ callsFrom payload h envs, r.returnedFailure = true) ∧
      (stateAfter payload h envs).circuitBreaker.isOpen = true ∧
      (executeWithRetry (stateAfter payload h envs) next payload).invocations = [] ∧
      (executeWithRetry (stateAfter payload h envs) next payload).errorType =
        some (lit "CIRCUIT_BREAKER_OPEN") := by
  obtain ⟨hinv, hall⟩ := stateAfter_breakerInv h.options h.circuitBreaker.threshold
    h.circuitBreaker.timeout
    (fun T => ∀ e1 ∈ envs ++ [next], (e1.now : Int) - (T : Int) <
      (h.circuitBreaker.timeout : Int))
    payload hmr envs
    (fun env henv => ⟨fun T hT => hT env (List.mem_append_left _ henv), hfail env henv,
      fun i e1 he1 => hwindow e1 he1 env henv i⟩)
    0 h ⟨rfl, rfl, rfl, Or.inr ⟨hclosed, Nat.zero_le _, by omega⟩⟩
  obtain ⟨_, h2, h3, hcase⟩ := hinv
  rcases hcase with ⟨hopen, T, hlast, hWT⟩ | ⟨_, c2, c3⟩
  · have hsc := executeWithRetry_short_circuit _ next payload T hopen hlast
      (h3 ▸ hWT next (List.mem_append_right _ (List.mem_singleton_self _)))
    refine ⟨hall, hopen, ?_, ?_⟩
    · rw [hsc]
    · rw [hsc]; rfl
  · omega

/-- Witness of C5 as amended: the default engine (closed breaker, no failure counted,
`maxRetries` 3, threshold 5) and five calls that always raise a 500 error. -/
theorem breaker_opens_after_threshold_calls_witness :
    ((WebhookErrorHandler.new {}).circuitBreaker.isOpen = false ∧
      (WebhookErrorHandler.new {}).circuitBreaker.failureCount = 0 ∧
      (WebhookErrorHandler.new {}).options.maxRetries = 3 ∧
      (WebhookErrorHandler.new {}).circuitBreaker.threshold = 5) ∧
      (∀ r ∈ callsFrom .null (WebhookErrorHandler.new {})
        (List.replicate 5 (alwaysRaising serverError)), r.returnedFailure = true) ∧
      (stateAfter .null (WebhookErrorHandler.new {})
        (List.replicate 5 (alwaysRaising serverError))).circuitBreaker.isOpen = true ∧
      (executeWithRetry (stateAfter .null (WebhookErrorHandler.new {})
        (List.replicate 5 (alwaysRaising serverError))) (alwaysRaising serverError)
        .null).invocations = [] ∧
      (executeWithRetry (stateAfter .null (WebhookErrorHandler.new {})
        (List.replicate 5 (alwaysRaising serverError))) (alwaysRaising serverError)
        .null).errorType = some (lit "CIRCUIT_BREAKER_OPEN") :=
  ⟨⟨rfl, rfl, rfl, rfl⟩,
    breaker_opens_after_threshold_calls (WebhookErrorHandler.new {})
      (List.replicate 5 (alwaysRaising serverError)) (alwaysRaising serverError) .null rfl rfl
      (by decide) (by decide) rfl
      (fun env henv i => by
        rw [List.eq_of_mem_replicate henv]
        exact ⟨serverError, _, rfl, rfl, rfl⟩)
      (fun e1 he1 e2 he2 i => by
        have h1 : e1 = alwaysRaising serverError := by
          rcases List.mem_append.1 he1 with h | h
          · exact List.eq_of_mem_replicate h
          · simpa using h
        rw [h1, List.eq_of_mem_replicate he2]
        show ((0 : Nat) : Int) - ((0 : Nat) : Int) < ((60000 : Nat) : Int)
        decide)⟩

/-- Claim C5 fails on the code.  On the default engine (threshold 5), five consecutive calls
whose deliveries raise a 401 error each return a failure and leave the breaker closed; the
sixth call invokes the delivery function and returns `MAX_RETRIES_EXCEEDED`, not
`CIRCUIT_BREAKER_OPEN`.  On an engine with `maxRetries` 2 and threshold 3, three consecutive
calls whose deliveries raise a 500 error, the third one made after the cooldown, each return a
failure and leave the breaker closed; the fourth call invokes the delivery function. -/
theorem breaker_closed_after_threshold_failures :
    ((callsFrom .null (WebhookErrorHandler.new {})
          (List.replicate 5 (alwaysRaising unauthorizedError))).all Run.returnedFailure = true ∧
      (stateAfter .null (WebhookErrorHandler.new {})
        (List.replicate 5 (alwaysRaising unauthorizedError))).circuitBreaker.isOpen = false ∧
      (executeWithRetry (stateAfter .null (WebhookErrorHandler.new {})
        (List.replicate 5 (alwaysRaising unauthorizedError)))
        (alwaysRaising unauthorizedError) .null).invocations.length = 1 ∧
      (executeWithRetry (stateAfter .null (WebhookErrorHandler.new {})
        (List.replicate 5 (alwaysRaising unauthorizedError)))
        (alwaysRaising unauthorizedError) .null).errorType =
          some (lit "MAX_RETRIES_EXCEEDED")) ∧
    ((callsFrom .null (WebhookErrorHandler.new lowThreshold)
          [alwaysRaising serverError, alwaysRaising serverError,
            lateRaising serverError]).all Run.returnedFailure = true ∧
      (stateAfter .null (WebhookErrorHandler.new lowThreshold)
        [alwaysRaising serverError, alwaysRaising serverError,
          lateRaising serverError]).circuitBreaker.isOpen = false ∧
      (executeWithRetry (stateAfter .null (WebhookErrorHandler.new lowThreshold)
        [alwaysRaising serverError, alwaysRaising serverError, lateRaising serverError])
        (lateRaising serverError) .null).invocations.length = 3) :=
  ⟨⟨rfl, rfl, rfl, rfl⟩, rfl, rfl, rfl⟩

/-- Claim C6, as amended: when every value that the delivery function raises is an object with
a string `message` (as every `Error` is), `executeWithRetry` returns a result and no exception
propagates; the result has `success` false when no delivery succeeds. -/
theorem executeWithRetry_returns (h : WebhookErrorHandler) (env : Env) (payload : JSValue)
    (herr : ∀ i e, env.deliveryFn i = .reject e →
      ∃ name message response type, e = .errorObject name (some message) response type) :
    ∃ res, (executeWithRetry h env payload).completion = .returned res ∧
      ((∀ i, ∃ e, env.deliveryFn i = .reject e) → res.success = false) := by
  have hok : ∀ i e, env.deliveryFn i = .reject e → ∃ a, analyzeError h.options e = .ok a := by
    intro i e hd
    obtain ⟨name, message, response, type, rfl⟩ := herr i e hd
    exact analyzeError_of_message h.options name message response type
  have hloop : ∀ h0 : WebhookErrorHandler, h0.options = h.options →
      ∃ res, (retryLoop env payload (h0.options.maxRetries + 2)
          { h0 with metrics := { h0.metrics with
            totalRequests := h0.metrics.totalRequests + 1 } } 0 none []).completion =
          .returned res ∧
        ((∀ i, ∃ e, env.deliveryFn i = .reject e) → res.success = false) := by
    intro h0 h0o
    exact retryLoop_returns env payload h.options hok _ _ 0 none [] h0o (Nat.zero_le _)
      (by simp [h0o])
  simp only [executeWithRetry]
  split_ifs
  · exact ⟨_, rfl, fun _ => rfl⟩
  · exact hloop (resetCircuitBreaker h) (resetCircuitBreaker_options h)
  · exact hloop h rfl

/-- Witness of C6 as amended: the default engine and a delivery function that always raises
`new Error("HTTP 500: Internal Server Error")`. -/
theorem executeWithRetry_returns_witness :
    ∃ res, (executeWithRetry (WebhookErrorHandler.new {}) (alwaysRaising serverError)
        .null).completion = .returned res ∧
      ((∀ i, ∃ e, (alwaysRaising serverError).deliveryFn i = .reject e) →
        res.success = false) :=
  executeWithRetry_returns (WebhookErrorHandler.new {}) (alwaysRaising serverError) .null
    (fun _ _ he => ⟨_, _, _, _, (Outcome.reject.inj he).symm⟩)

/-- Claim C6 fails on the code: when the delivery function raises `null`, the string `"boom"`
or the plain object `{response: {status: 500}}`, a `TypeError` raised in `analyzeError`
propagates out of `executeWithRetry`. -/
theorem executeWithRetry_throws_on_non_error :
    (executeWithRetry (WebhookErrorHandler.new {}) (alwaysRaising .null) .null).completion =
        .threw .typeError ∧
      (executeWithRetry (WebhookErrorHandler.new {}) (alwaysRaising (.str (lit "boom")))
        .null).completion = .threw .typeError ∧
      (executeWithRetry (WebhookErrorHandler.new {}) (alwaysRaising statusOnlyObject)
        .null).completion = .threw .typeError :=
  ⟨rfl, rfl, rfl⟩

/-- Claim C8, as amended: on an engine with the default retryable list and the breaker closed
at entry, when the first invocation of the delivery function raises an error with a response
of status 401 whose name is not `AbortError`, whose message does not contain `timeout`, and
which is not a `TypeError` whose message contains `fetch`, `executeWithRetry` invokes the
delivery function exactly once and returns a result with `success` false, whatever
`maxRetries` is. -/
theorem executeWithRetry_401_once (h : WebhookErrorHandler) (env : Env) (payload : JSValue)
    (name message : JSString) (type : Option JSString)
    (hdefault : h.options.retryableErrors = defaultRetryableErrors)
    (hclosed : h.circuitBreaker.isOpen = false)
    (hfirst : env.deliveryFn 0 = .reject (.errorObject (some name) (some message) (some 401) type))
    (hfetch : name = lit "TypeError" → includes message (lit "fetch") = false)
    (habort : name ≠ lit "AbortError")
    (htimeout : includes message (lit "timeout") = false) :
    (executeWithRetry h env payload).invocations.length = 1 ∧
      ∃ res, (executeWithRetry h env payload).completion = .returned res ∧
        res.success = false := by
  obtain ⟨a, ha, _, hr⟩ := analyzeError_client_error h.options name message 401 type hdefault
    hfetch habort htimeout (by decide) (by decide) (by decide) (by decide)
  have hb := retryLoop_break env payload (h.options.maxRetries + 1)
    { h with metrics := { h.metrics with totalRequests := h.metrics.totalRequests + 1 } }
    0 none [] _ a (Nat.zero_le _) hfirst ha (Or.inl hr)
  rw [executeWithRetry_closed h env payload hclosed,
    show h.options.maxRetries + 2 = (h.options.maxRetries + 1) + 1 from rfl, hb]
  obtain ⟨info, hc, _⟩ := allAttemptsFailed_completion
    (recordError { h with metrics := { h.metrics with
      totalRequests := h.metrics.totalRequests + 1 } } a.type) payload (0 + 1)
    (some (.errorObject (some name) (some message) (some 401) type))
    ([] ++ [invocationOf { h with metrics := { h.metrics with
      totalRequests := h.metrics.totalRequests + 1 } } 0])
  exact ⟨rfl, _, hc, rfl⟩

/-- Witness of C8 as amended: the default engine and `new Error("HTTP 401: Unauthorized")`. -/
theorem executeWithRetry_401_once_witness :
    (executeWithRetry (WebhookErrorHandler.new {}) (alwaysRaising unauthorizedError)
        .null).invocations.length = 1 ∧
      ∃ res, (executeWithRetry (WebhookErrorHandler.new {}) (alwaysRaising unauthorizedError)
          .null).completion = .returned res ∧ res.success = false :=
  executeWithRetry_401_once (WebhookErrorHandler.new {}) (alwaysRaising unauthorizedError) .null
    (lit "Error") (lit "HTTP 401: Unauthorized") none rfl rfl rfl (by decide) (by decide)
    (by decide)

/-- Claim C8 fails on the code: on the default engine, a delivery function that raises
`new Error("HTTP 401: Session timeout")` with a response of status 401 is invoked four
times: the message contains `timeout`, so the error is classified `504_TIMEOUT` and
retried. -/
theorem executeWithRetry_401_retried :
    (alwaysRaising sessionTimeoutError).deliveryFn 0 = .reject sessionTimeoutError ∧
    (executeWithRetry (WebhookErrorHandler.new {}) (alwaysRaising sessionTimeoutError)
      .null).invocations.length = 4 :=
  ⟨rfl, rfl⟩

/-- Claim C9: with the breaker closed at entry and `k ≤ maxRetries`, when the first `k`
invocations of the delivery function raise errors that `analyzeError` finds retryable and
invocation `k + 1` returns `d`, `executeWithRetry` returns `success` true with data `d` and
`attempts = k + 1` after `k + 1` invocations; `successfulRequests` and `totalRequests` grow by
1, `retriedRequests` by 1 if `k > 0` and by 0 otherwise, `failedRequests` is unchanged, and the
breaker is closed with `failureCount` 0 afterwards. -/
theorem executeWithRetry_succeeds_after_retries (h : WebhookErrorHandler) (env : Env)
    (payload : JSValue) (k : Nat) (d : JSValue)
    (hclosed : h.circuitBreaker.isOpen = false) (hk : k ≤ h.options.maxRetries)
    (hfail : ∀ i, i < k → ∃ e a, env.deliveryFn i = .reject e ∧
      analyzeError h.options e = .ok a ∧ a.retryable = true)
    (hsucc : env.deliveryFn k = .resolve d) :
    (executeWithRetry h env payload).completion =
        .returned { success := true, data := some d, attempts := some (k + 1) } ∧
      (executeWithRetry h env payload).invocations.length = k + 1 ∧
      (executeWithRetry h env payload).handler.metrics.successfulRequests =
        h.metrics.successfulRequests + 1 ∧
      (executeWithRetry h env payload).handler.metrics.totalRequests =
        h.metrics.totalRequests + 1 ∧
      (executeWithRetry h env payload).handler.metrics.retriedRequests =
        h.metrics.retriedRequests + (if k > 0 then 1 else 0) ∧
      (executeWithRetry h env payload).handler.metrics.failedRequests =
        h.metrics.failedRequests ∧
      (executeWithRetry h env payload).handler.circuitBreaker.isOpen = false ∧
      (executeWithRetry h env payload).handler.circuitBreaker.failureCount = 0 := by
  obtain ⟨hf, le2, invs2, hq, hopts, hlen, heq⟩ :=
    retryLoop_succeedsAt env payload h.options k d hk hfail hsucc
      (fun _ hh => hh.metrics.successfulRequests = h.metrics.successfulRequests ∧
        hh.metrics.totalRequests = h.metrics.totalRequests + 1 ∧
        hh.metrics.retriedRequests = h.metrics.retriedRequests ∧
        hh.metrics.failedRequests = h.metrics.failedRequests)
      (fun i hh t _ hq => by simpa using hq)
      (h.options.maxRetries + 2)
      { h with metrics := { h.metrics with totalRequests := h.metrics.totalRequests + 1 } }
      0 none [] rfl (Nat.zero_le _) (by omega) ⟨rfl, rfl, rfl, rfl⟩
  obtain ⟨q1, q2, q3, q4⟩ := hq
  rw [executeWithRetry_closed h env payload hclosed, heq,
    retryLoop_success env payload 0 hf k le2 invs2 d (hopts ▸ hk) hsucc]
  have hr := resetCircuitBreaker_closed { hf with metrics := { hf.metrics with
    successfulRequests := hf.metrics.successfulRequests + 1 } }
  by_cases hk0 : k > 0
  · rw [if_pos hk0, if_pos hk0]
    exact ⟨rfl, by simp [hlen], by simp [q1], by simp [q2], by simp [q3], by simp [q4],
      hr.1, hr.2⟩
  · rw [if_neg hk0, if_neg hk0]
    exact ⟨rfl, by simp [hlen], by simp [q1], by simp [q2], by simp [q3], by simp [q4],
      hr.1, hr.2⟩

/-- Witness of C9: the default engine and a delivery function that raises a 503 error twice and
then returns; the result has `attempts` 3 and `retriedRequests` becomes 1. -/
theorem executeWithRetry_succeeds_after_retries_witness :
    (executeWithRetry (WebhookErrorHandler.new {}) succeedsOnThird .null).completion =
        .returned { success := true, data := some (.obj [(lit "ok", .bool true)]),
                    attempts := some 3 } ∧
      (executeWithRetry (WebhookErrorHandler.new {}) succeedsOnThird
        .null).handler.metrics.retriedRequests = 1 := by
  have h := executeWithRetry_succeeds_after_retries (WebhookErrorHandler.new {}) succeedsOnThird
    .null 2 (.obj [(lit "ok", .bool true)]) rfl (by decide)
    (fun i hi => ⟨unavailableError, _, by simp [succeedsOnThird, hi], rfl, rfl⟩) rfl
  exact ⟨h.1, h.2.2.2.2.1⟩

/-- Claim C10, as amended: with the default retryable list, an error with a response status `s`
whose name is not `AbortError`, whose message does not contain `timeout`, and which is not a
`TypeError` whose message contains `fetch`, is classified by its status: `s ≥ 500` gives
`<s>_SERVER_ERROR`, retryable; 429 gives `429_RATE_LIMITED`, retryable; 408 gives
`408_TIMEOUT`, retryable; every other `s` from 400 to 499 gives `<s>_CLIENT_ERROR`, not
retryable. -/
theorem analyzeError_by_status (opts : Options) (name message : JSString) (status : Nat)
    (type : Option JSString)
    (hdefault : opts.retryableErrors = defaultRetryableErrors)
    (hfetch : name = lit "TypeError" → includes message (lit "fetch") = false)
    (habort : name ≠ lit "AbortError")
    (htimeout : includes message (lit "timeout") = false) :
    (status ≥ 500 →
      ∃ a, analyzeError opts (.errorObject (some name) (some message) (some status) type) =
          .ok a ∧ a.type = natToString status ++ lit "_SERVER_ERROR" ∧ a.retryable = true) ∧
    (status = 429 →
      ∃ a, analyzeError opts (.errorObject (some name) (some message) (some status) type) =
          .ok a ∧ a.type = lit "429_RATE_LIMITED" ∧ a.retryable = true) ∧
    (status = 408 →
      ∃ a, analyzeError opts (.errorObject (some name) (some message) (some status) type) =
          .ok a ∧ a.type = lit "408_TIMEOUT" ∧ a.retryable = true) ∧
    (400 ≤ status → status < 500 → status ≠ 429 → status ≠ 408 →
      ∃ a, analyzeError opts (.errorObject (some name) (some message) (some status) type) =
          .ok a ∧ a.type = natToString status ++ lit "_CLIENT_ERROR" ∧ a.retryable = false) := by
  have hc := classify_by_status name message status hfetch habort htimeout
  refine ⟨?_, ?_, ?_, ?_⟩
  · intro hs
    simp only [analyzeError, hc, hs, if_true]
    split_ifs <;> exact ⟨_, rfl, rfl, rfl⟩
  · intro hs
    subst hs
    simp only [analyzeError, hc]
    split_ifs <;> first | exact ⟨_, rfl, rfl, rfl⟩ | omega
  · intro hs
    subst hs
    simp only [analyzeError, hc]
    split_ifs <;> first | exact ⟨_, rfl, rfl, rfl⟩ | omega
  · intro h1 h2 h3 h4
    have h5 : ¬ status ≥ 500 := by omega
    simp only [analyzeError, hc, h5, h3, h4, if_false, ge_iff_le, h1, if_true, hdefault,
      clientError_not_default, Bool.false_eq_true]
    exact ⟨_, rfl, rfl, rfl⟩

/-- Witness of C10 as amended: `new Error("HTTP 401: Unauthorized")` with a response of status
401 is classified `401_CLIENT_ERROR`, not retryable. -/
theorem analyzeError_by_status_witness :
    ∃ a, analyzeError (WebhookErrorHandler.new {}).options unauthorizedError = .ok a ∧
      a.type = natToString 401 ++ lit "_CLIENT_ERROR" ∧ a.retryable = false :=
  (analyzeError_by_status (WebhookErrorHandler.new {}).options (lit "Error")
    (lit "HTTP 401: Unauthorized") 401 none rfl (by decide) (by decide) (by decide)).2.2.2
    (by decide) (by decide) (by decide) (by decide)

/-- Claim C10 fails on the code: `new Error("HTTP 401: Session timeout")` with a response of
status 401 is classified `504_TIMEOUT` and retryable, by its message and not by its status. -/
theorem analyzeError_not_by_status_alone :
    (analyzeError (WebhookErrorHandler.new {}).options sessionTimeoutError).map
        (fun a => (a.type, a.retryable)) = .ok (lit "504_TIMEOUT", true) :=
  rfl

/-! ## Theorems: retryable kinds, delays, the error queue and the terminal error -/

/-- The built-in classification is `analyzeError` with an empty retryable list, and a list can
only add to it. -/
theorem analyzeError_eq_builtin_or (opts : Options) (e : Thrown) :
    analyzeError opts e =
      (analyzeError { opts with retryableErrors := [] } e).map
        (fun a => { a with retryable := a.retryable || opts.retryableErrors.contains a.type }) := by
  cases e with
  | errorObject name message response type =>
    simp only [analyzeError]
    cases hc : classify name message response with
    | error err => rfl
    | ok a =>
      by_cases hm : a.type ∈ opts.retryableErrors
      · simp [Except.map, hm]
      · simp [Except.map, hm]
  | null => rfl
  | undefined => rfl
  | str s => rfl
  | num n => rfl
  | bool b => rfl

/-- Claim C11: for every raised value `e` and every list `retryableErrors` of the options,
`analyzeError` gives the built-in classification of `e` (the one it gives with an empty list)
with `retryable` replaced by its disjunction with the membership of the classified type in
the list, and it throws exactly when the built-in classification throws; an error with a
string `message` is always classified, by `classify`; a kind that the built-in classification
makes retryable stays retryable under every list; and a value that is retryable under a list
is retryable, with the same type, under every list that contains it. -/
theorem analyzeError_retryable_union (opts : Options) (e : Thrown) :
    analyzeError opts e =
        (analyzeError { opts with retryableErrors := [] } e).map
          (fun a => { a with
            retryable := a.retryable || opts.retryableErrors.contains a.type }) ∧
      (∀ (name : Option JSString) (message : JSString) (response : Option Nat)
          (type : Option JSString),
        ∃ b, classify name (some message) response = .ok b ∧
          analyzeError opts (.errorObject name (some message) response type) =
            .ok { b with retryable := b.retryable || opts.retryableErrors.contains b.type }) ∧
      (∀ b, analyzeError { opts with retryableErrors := [] } e = .ok b → b.retryable = true →
        ∃ a, analyzeError opts e = .ok a ∧ a.type = b.type ∧ a.retryable = true) ∧
      (∀ (list2 : List JSString) a, (∀ t ∈ opts.retryableErrors, t ∈ list2) →
        analyzeError opts e = .ok a → a.retryable = true →
        ∃ a2, analyzeError { opts with retryableErrors := list2 } e = .ok a2 ∧
          a2.type = a.type ∧ a2.retryable = true) := by
  refine ⟨analyzeError_eq_builtin_or opts e, ?_, ?_, ?_⟩
  · intro name message response type
    obtain ⟨b, hb⟩ := analyzeError_of_message { opts with retryableErrors := [] } name message
      response type
    have hcl : classify name (some message) response = .ok b := by
      simp only [analyzeError] at hb
      cases hc : classify name (some message) response with
      | error err => rw [hc] at hb; cases hb
      | ok c =>
        rw [hc] at hb
        simp only [List.contains_nil, Bool.false_eq_true, if_false, Except.ok.injEq] at hb
        rw [hb]
    refine ⟨b, hcl, ?_⟩
    rw [analyzeError_eq_builtin_or opts]
    simp only [analyzeError, hcl, List.contains_nil, Bool.false_eq_true, if_false]
    rfl
  · intro b hb hr
    rw [analyzeError_eq_builtin_or opts e, hb]
    exact ⟨_, rfl, rfl, by simp [hr]⟩
  · intro list2 a hsub ha hr
    rw [analyzeError_eq_builtin_or opts e] at ha
    rw [analyzeError_eq_builtin_or { opts with retryableErrors := list2 } e]
    cases hb : analyzeError { opts with retryableErrors := [] } e with
    | error err => rw [hb] at ha; cases ha
    | ok b =>
      rw [hb] at ha
      simp only [Except.map, Except.ok.injEq] at ha
      subst ha
      refine ⟨_, rfl, rfl, ?_⟩
      simp only [Bool.or_eq_true] at hr ⊢
      rcases hr with hr | hr
      · exact Or.inl hr
      · right
        simp only [List.contains_iff_exists_mem_beq, beq_iff_eq] at hr ⊢
        obtain ⟨t, ht, hte⟩ := hr
        exact ⟨t, hsub t ht, hte⟩

/-- A rounded result is not `NaN`. -/
theorem toDouble_ne_nan (fr : FloatRuntime) (q : ℚ) : fr.toDouble q ≠ .nan := by
  unfold FloatRuntime.toDouble
  cases fr.round q <;> simp

/-- A product with a finite first factor is finite only when the second factor is finite and
the exact product is rounded to the result. -/
theorem mul_fin_eq_fin (fr : FloatRuntime) (p e : ℚ) (y : JSNumber)
    (h : JSNumber.mul fr (.fin p) y = .fin e) : ∃ q, y = .fin q ∧ fr.round (p * q) = some e := by
  cases y with
  | nan => simp [JSNumber.mul] at h
  | inf b =>
    simp only [JSNumber.mul] at h
    split_ifs at h
  | fin q =>
    refine ⟨q, rfl, ?_⟩
    simp only [JSNumber.mul, FloatRuntime.toDouble] at h
    cases hr : fr.round (p * q) with
    | none => rw [hr] at h; simp at h
    | some d =>
      rw [hr] at h
      simp only [JSNumber.fin.injEq] at h
      rw [h]

/-- The value of `Math.max(Math.min(x, M), 0)` for a finite `x`. -/
theorem mathMax_mathMin_fin (q M : ℚ) :
    mathMax (mathMin (.fin q) (.fin M)) (.fin 0) = .fin (max 0 (min q M)) := by
  by_cases h1 : M < q
  · have hmin : min q M = M := min_eq_right (le_of_lt h1)
    by_cases h2 : M < 0
    · simp [mathMin, mathMax, JSNumber.lt, h1, h2, hmin, max_eq_left (le_of_lt h2)]
    · simp [mathMin, mathMax, JSNumber.lt, h1, h2, hmin, max_eq_right (not_lt.1 h2)]
  · have hmin : min q M = q := min_eq_left (not_lt.1 h1)
    by_cases h2 : q < 0
    · simp [mathMin, mathMax, JSNumber.lt, h1, h2, hmin, max_eq_left (le_of_lt h2)]
    · simp [mathMin, mathMax, JSNumber.lt, h1, h2, hmin, max_eq_right (not_lt.1 h2)]

/-- The value of `Math.max(Math.min(x, M), 0)` is `NaN` exactly when `x` is, and otherwise a
number between zero and the larger of `M` and zero. -/
theorem mathMax_mathMin (x : JSNumber) (M : ℚ) :
    (mathMax (mathMin x (.fin M)) (.fin 0) = .nan ↔ x = .nan) ∧
      (mathMax (mathMin x (.fin M)) (.fin 0) = .nan ∨
        ∃ d, mathMax (mathMin x (.fin M)) (.fin 0) = .fin d ∧ 0 ≤ d ∧ d ≤ max M 0) := by
  cases x with
  | nan => simp [mathMin, mathMax]
  | inf negative =>
    cases negative with
    | true =>
      have h : mathMax (mathMin (.inf true) (.fin M)) (.fin 0) = .fin 0 := by
        simp [mathMin, mathMax, JSNumber.lt]
      rw [h]
      exact ⟨by simp, Or.inr ⟨0, rfl, le_refl _, le_max_right _ _⟩⟩
    | false =>
      by_cases h2 : M < 0
      · have h : mathMax (mathMin (.inf false) (.fin M)) (.fin 0) = .fin 0 := by
          simp [mathMin, mathMax, JSNumber.lt, h2]
        rw [h]
        exact ⟨by simp, Or.inr ⟨0, rfl, le_refl _, le_max_right _ _⟩⟩
      · have h : mathMax (mathMin (.inf false) (.fin M)) (.fin 0) = .fin M := by
          simp [mathMin, mathMax, JSNumber.lt, h2]
        rw [h]
        exact ⟨by simp, Or.inr ⟨M, rfl, not_lt.1 h2, le_max_left _ _⟩⟩
  | fin q =>
    rw [mathMax_mathMin_fin]
    refine ⟨by simp, Or.inr ⟨_, rfl, le_max_left _ _, ?_⟩⟩
    exact max_le (le_max_right _ _) (le_trans (min_le_right _ _) (le_max_left _ _))

/-- The delay is not `NaN` when the exponential delay, its product with `jitterRange` and the
jitter factor are finite. -/
theorem calculateDelay_ne_nan (fr : FloatRuntime) (options : Options) (a : Nat) (random : ℚ)
    (e ej u : ℚ) (he : exponentialDelay fr options a = .fin e)
    (hej : JSNumber.mul fr (.fin e) (.fin options.jitterRange) = .fin ej)
    (hu : jitterFactor fr random = .fin u) :
    calculateDelay fr options a random ≠ .nan := by
  intro hnan
  have hsum := (mathMax_mathMin _ options.maxDelay).1.1 hnan
  rw [jitter, he, hej, hu] at hsum
  have hmul : JSNumber.mul fr (.fin ej) (.fin u) = fr.toDouble (ej * u) := rfl
  rw [hmul] at hsum
  cases hd : fr.toDouble (ej * u) with
  | nan => exact toDouble_ne_nan fr _ hd
  | inf negative =>
    rw [hd] at hsum
    simp [JSNumber.add] at hsum
  | fin d =>
    rw [hd] at hsum
    exact toDouble_ne_nan fr _ hsum

/-- The delay is the formula of the specification when the doubles of the call are the exact
values. -/
theorem calculateDelay_exact (fr : FloatRuntime) (options : Options) (a : Nat) (random : ℚ)
    (h : ExactAt fr options a random) :
    calculateDelay fr options a random = .fin (delayFormula options a (random * 2 - 1)) := by
  obtain ⟨he, hj, hs⟩ := h
  unfold calculateDelay
  simp only [he, hj, hs, mathMax_mathMin_fin, delayFormula]
  congr 3
  ring

/-- The platform `exactDoubles` rounds a result to itself. -/
theorem exactDoubles_round (q d : ℚ) (h : exactDoubles.round q = some d) : d = q := by
  simp only [exactDoubles] at h
  split_ifs at h
  simp only [Option.some.injEq] at h
  exact h.symm

/-- A finite power of the platform `exactDoubles` is the exact power. -/
theorem exactDoubles_pow (x P : ℚ) (n : Nat) (h : exactDoubles.pow x n = .fin P) : P = x ^ n := by
  simp only [exactDoubles] at h
  split_ifs at h
  simp only [JSNumber.fin.injEq] at h
  exact h.symm

/-- The delay at index `j` of the loop entered at `attempt` is the one of attempt
`attempt + j`. -/
theorem retryDelays_get (fr : FloatRuntime) (env : Env) (random : Nat → ℚ) (options : Options) :
    ∀ (fuel attempt j : Nat) (d : JSNumber),
      (retryDelays fr env random options fuel attempt)[j]? = some d →
      d = calculateDelay fr options (attempt + j) (random (attempt + j)) := by
  intro fuel
  induction fuel with
  | zero => intro attempt j d h; simp [retryDelays] at h
  | succ fuel ih =>
    intro attempt j d h
    simp only [retryDelays] at h
    split_ifs at h with hg
    · split at h
      · simp at h
      · split at h
        · simp at h
        · split_ifs at h with hb
          · simp at h
          · cases j with
            | zero =>
              simp only [List.getElem?_cons_zero, Option.some.injEq] at h
              simpa using h.symm
            | succ j =>
              simp only [List.getElem?_cons_succ] at h
              have := ih (attempt + 1) j d h
              rw [this]
              congr 1
              · omega
              · congr 1; omega
    · simp at h

/-- No delay is awaited after an attempt that is not a retried failure. -/
theorem retryDelays_stop (fr : FloatRuntime) (env : Env) (random : Nat → ℚ) (options : Options)
    (fuel attempt : Nat)
    (hstop : ∀ e a, env.deliveryFn attempt = .reject e → analyzeError options e = .ok a →
      a.retryable = false ∨ attempt = options.maxRetries) (hle : attempt ≤ options.maxRetries) :
    retryDelays fr env random options (fuel + 1) attempt = [] := by
  simp only [retryDelays, hle, if_true]
  split
  · rfl
  · rename_i e hd
    split
    · rfl
    · rename_i a ha
      have := hstop e a hd ha
      have h2 : a.retryable = false ∨ attempt + 1 > options.maxRetries := by
        rcases this with hb | hb
        · exact Or.inl hb
        · exact Or.inr (by omega)
      rw [if_pos h2]

/-- After a retried failure of attempt `attempt` the loop awaits `calculateDelay(attempt)`. -/
theorem retryDelays_retry (fr : FloatRuntime) (env : Env) (random : Nat → ℚ) (options : Options)
    (fuel attempt : Nat) (e : Thrown) (a : ErrorAnalysis)
    (hle : attempt + 1 ≤ options.maxRetries) (hd : env.deliveryFn attempt = .reject e)
    (ha : analyzeError options e = .ok a) (hr : a.retryable = true) :
    retryDelays fr env random options (fuel + 1) attempt =
      calculateDelay fr options attempt (random attempt) ::
        retryDelays fr env random options fuel (attempt + 1) := by
  have h1 : attempt ≤ options.maxRetries := by omega
  have h2 : ¬ (a.retryable = false ∨ attempt + 1 > options.maxRetries) := by
    simp [hr]; omega
  simp only [retryDelays, h1, if_true, hd, ha, h2, if_false, Nat.add_sub_cancel]

/-- The loop awaits one delay less than it makes invocations. -/
theorem retryLoop_invocations_delays (fr : FloatRuntime) (env : Env) (payload : JSValue)
    (random : Nat → ℚ) (opts : Options) :
    ∀ (fuel : Nat) (h : WebhookErrorHandler) (attempt : Nat) (lastError : Option Thrown)
      (invs : List Invocation),
      h.options = opts → attempt ≤ opts.maxRetries → opts.maxRetries + 1 ≤ fuel + attempt →
      (retryLoop env payload fuel h attempt lastError invs).invocations.length =
        invs.length + (retryDelays fr env random opts fuel attempt).length + 1 := by
  intro fuel
  induction fuel with
  | zero => intro h attempt _ _ _ h1 h2; omega
  | succ fuel ih =>
    intro h attempt lastError invs hopts hle hfuel
    cases hd : env.deliveryFn attempt with
    | resolve d =>
      rw [retryLoop_success env payload fuel h attempt lastError invs d (hopts ▸ hle) hd,
        retryDelays_stop fr env random opts fuel attempt
          (fun e a he _ => by rw [hd] at he; cases he) hle]
      simp
    | reject e =>
      cases ha : analyzeError opts e with
      | error err =>
        rw [retryLoop_throw env payload fuel h attempt lastError invs e err (hopts ▸ hle)
          hd (hopts ▸ ha),
          retryDelays_stop fr env random opts fuel attempt
            (fun e2 a he ha2 => by
              rw [hd] at he; cases he; rw [ha] at ha2; cases ha2) hle]
        simp
      | ok a =>
        by_cases hbreak : a.retryable = false ∨ attempt = opts.maxRetries
        · rw [retryLoop_break env payload fuel h attempt lastError invs e a (hopts ▸ hle)
            hd (hopts ▸ ha) (hopts ▸ hbreak),
            retryDelays_stop fr env random opts fuel attempt
              (fun e2 a2 he ha2 => by
                rw [hd] at he; cases he; rw [ha] at ha2; cases ha2; exact hbreak) hle]
          simp
        · have hr : a.retryable = true := by
            cases hb : a.retryable
            · exact absurd (Or.inl hb) hbreak
            · rfl
          have hlt : attempt + 1 ≤ opts.maxRetries := by
            have : attempt ≠ opts.maxRetries := fun hh => hbreak (Or.inr hh)
            omega
          rw [retryLoop_retry env payload fuel h attempt lastError invs e a (hopts ▸ hlt) hd
            (hopts ▸ ha) hr,
            retryDelays_retry fr env random opts fuel attempt e a hlt hd ha hr,
            ih (afterRetriedFailure h (env.failTime attempt) a.type) (attempt + 1) (some e)
              (invs ++ [invocationOf h attempt]) (by simp [hopts]) hlt (by omega)]
          simp only [List.length_cons, List.length_append, List.length_singleton,
            List.length_nil]
          omega

/-- A call that passes the breaker awaits one delay less than it makes invocations. -/
theorem start_invocations_delays (fr : FloatRuntime) (env : Env) (payload : JSValue)
    (random : Nat → ℚ) (h0 : WebhookErrorHandler) :
    (retryLoop env payload (h0.options.maxRetries + 2)
        { h0 with metrics := { h0.metrics with
          totalRequests := h0.metrics.totalRequests + 1 } } 0 none []).invocations.length =
      (retryDelays fr env random h0.options (h0.options.maxRetries + 2) 0).length + 1 := by
  rw [retryLoop_invocations_delays fr env payload random h0.options (h0.options.maxRetries + 2)
    { h0 with metrics := { h0.metrics with totalRequests := h0.metrics.totalRequests + 1 } }
    0 none [] rfl (Nat.zero_le _) (by omega)]
  simp

/-- Claim C12, amended: for every platform, every configuration of finite numbers with
`maxDelay ≥ 0`, every attempt index `a` and every value of `Math.random()`,
`calculateDelay(a)` is `NaN` or a number between `0` and `maxDelay`; it is `NaN` exactly when
the sum of `exponentialDelay` and `jitter` is `NaN`, which it is when `exponentialDelay` has
overflowed to `Infinity` and the jitter factor `Math.random() * 2 - 1` is at most zero (with a
positive `jitterRange`), and which it is not when `exponentialDelay`, its product with
`jitterRange` and the jitter factor are finite; where the doubles of the call are the exact
values, the delay is `max(0, min(baseDelay * exponentialBase^a * (1 + jitterRange * u),
maxDelay))` with `u = Math.random() * 2 - 1`; and in every call of `executeWithRetry` under
that configuration that invokes `deliveryFn`, the delays awaited are one fewer than the
invocations, and the delay at position `j` (counted from zero, so awaited after the failed
attempt `j + 1`) is `calculateDelay(j)`. -/
theorem calculateDelay_formula (fr : FloatRuntime) (options : Options) (a : Nat) (random : ℚ)
    (hmax : 0 ≤ options.maxDelay) :
    (calculateDelay fr options a random = .nan ∨
        ∃ d, calculateDelay fr options a random = .fin d ∧ 0 ≤ d ∧ d ≤ options.maxDelay) ∧
      (calculateDelay fr options a random = .nan ↔
        JSNumber.add fr (exponentialDelay fr options a) (jitter fr options a random) = .nan) ∧
      (exponentialDelay fr options a = .inf false → 0 < options.jitterRange →
        ∀ u, jitterFactor fr random = .fin u → u ≤ 0 →
          calculateDelay fr options a random = .nan) ∧
      (∀ e ej u, exponentialDelay fr options a = .fin e →
        JSNumber.mul fr (.fin e) (.fin options.jitterRange) = .fin ej →
        jitterFactor fr random = .fin u → calculateDelay fr options a random ≠ .nan) ∧
      (ExactAt fr options a random →
        calculateDelay fr options a random =
          .fin (delayFormula options a (random * 2 - 1))) ∧
      ∀ (h : WebhookErrorHandler) (env : Env) (payload : JSValue) (draws : Nat → ℚ),
        h.options = options →
        ((executeWithRetry h env payload).invocations ≠ [] →
          (awaitedDelays fr h env draws).length + 1 =
            (executeWithRetry h env payload).invocations.length) ∧
        ∀ (j : Nat) (d : JSNumber), (awaitedDelays fr h env draws)[j]? = some d →
          d = calculateDelay fr options j (draws j) := by
  have hrange := mathMax_mathMin
    (JSNumber.add fr (exponentialDelay fr options a) (jitter fr options a random))
    options.maxDelay
  refine ⟨?_, hrange.1, ?_, ?_, calculateDelay_exact fr options a random, ?_⟩
  · rcases hrange.2 with hn | ⟨d, hd, h0, hle⟩
    · exact Or.inl hn
    · exact Or.inr ⟨d, hd, h0, by rwa [max_eq_left hmax] at hle⟩
  · intro he hj u hu hu0
    apply hrange.1.2
    rw [jitter, he, hu]
    have hj0 : ¬ options.jitterRange = 0 := ne_of_gt hj
    have hjn : ¬ options.jitterRange < 0 := not_lt.2 (le_of_lt hj)
    by_cases hz : u = 0
    · simp [JSNumber.mul, JSNumber.add, hj0, hjn, hz]
    · have hneg : u < 0 := lt_of_le_of_ne hu0 hz
      simp [JSNumber.mul, JSNumber.add, hj0, hjn, hz, hneg]
  · intro e ej u he hej hu
    exact calculateDelay_ne_nan fr options a random e ej u he hej hu
  · intro h env payload draws hopts
    subst hopts
    constructor
    · intro hne
      simp only [executeWithRetry, awaitedDelays] at hne ⊢
      split_ifs at hne ⊢ with h1 h2
      · exact absurd rfl hne
      · rw [start_invocations_delays fr env payload draws (resetCircuitBreaker h),
          resetCircuitBreaker_options]
      · rw [start_invocations_delays fr env payload draws h]
    · intro j d hd
      simp only [awaitedDelays] at hd
      split_ifs at hd
      · simp at hd
      · simpa using retryDelays_get fr env draws h.options _ 0 j d hd
      · simpa using retryDelays_get fr env draws h.options _ 0 j d hd

/-- Witness of C12 as amended, on the platform `exactDoubles`, the default configuration,
attempt index 2 and `Math.random()` returning one half: the doubles of the call are the exact
values, the delay is `max(0, min(1000 * 2^2 * (1 + 0.1 * 0), 30000)) = 4000`, and a call whose
four deliveries all raise a 500 error awaits three delays. -/
theorem calculateDelay_formula_witness :
    (0 : ℚ) ≤ (WebhookErrorHandler.new {}).options.maxDelay ∧
      ExactAt exactDoubles (WebhookErrorHandler.new {}).options 2 (1 / 2) ∧
      calculateDelay exactDoubles (WebhookErrorHandler.new {}).options 2 (1 / 2) =
        .fin (delayFormula (WebhookErrorHandler.new {}).options 2 0) ∧
      delayFormula (WebhookErrorHandler.new {}).options 2 0 = 4000 ∧
      (awaitedDelays exactDoubles (WebhookErrorHandler.new {}) (alwaysRaising serverError)
        (fun _ => 1 / 2)).length + 1 =
        (executeWithRetry (WebhookErrorHandler.new {}) (alwaysRaising serverError)
          .null).invocations.length := by
  have hmax : (0 : ℚ) ≤ (WebhookErrorHandler.new {}).options.maxDelay := by
    norm_num [WebhookErrorHandler.new, orDefault]
  have hexact : ExactAt exactDoubles (WebhookErrorHandler.new {}).options 2 (1 / 2) := by
    norm_num [ExactAt, exponentialDelay, jitter, jitterFactor, JSNumber.mul, JSNumber.add,
      JSNumber.sub, JSNumber.neg, FloatRuntime.toDouble, exactDoubles, overflowBound,
      WebhookErrorHandler.new, orDefault]
  have h := calculateDelay_formula exactDoubles (WebhookErrorHandler.new {}).options 2 (1 / 2)
    hmax
  have hu : ((1 : ℚ) / 2 * 2 - 1) = 0 := by norm_num
  refine ⟨hmax, hexact, ?_, ?_, ?_⟩
  · have := h.2.2.2.2.1 hexact
    rwa [hu] at this
  · norm_num [delayFormula, WebhookErrorHandler.new, orDefault]
  · exact (h.2.2.2.2.2 (WebhookErrorHandler.new {}) (alwaysRaising serverError) .null
      (fun _ => 1 / 2) rfl).1 (fun hc => by
        have hlen : (executeWithRetry (WebhookErrorHandler.new {}) (alwaysRaising serverError)
          .null).invocations.length = 4 := rfl
        rw [hc] at hlen
        cases hlen)

/-- Counterexample to C12 as written: on the default configuration, whose numbers are all
positive, `calculateDelay(1015)` computes `exponentialDelay = 1000 * 2^1015`, which is beyond
the doubles and so is `Infinity`; with `Math.random()` returning one half the jitter is
`Infinity * 0.1 * 0 = NaN`, with one quarter it is `-Infinity` and the sum is `Infinity -
Infinity = NaN`, and in both cases the delay is `NaN`, which is neither the value `30000` of
the formula nor a number between `0` and `maxDelay`. -/
theorem calculateDelay_nan_on_overflow :
    (0 : ℚ) ≤ (WebhookErrorHandler.new {}).options.baseDelay ∧
      (0 : ℚ) ≤ (WebhookErrorHandler.new {}).options.exponentialBase ∧
      (0 : ℚ) ≤ (WebhookErrorHandler.new {}).options.jitterRange ∧
      (0 : ℚ) ≤ (WebhookErrorHandler.new {}).options.maxDelay ∧
      exponentialDelay exactDoubles (WebhookErrorHandler.new {}).options 1015 = .inf false ∧
      jitterFactor exactDoubles (1 / 2) = .fin 0 ∧
      jitter exactDoubles (WebhookErrorHandler.new {}).options 1015 (1 / 2) = .nan ∧
      calculateDelay exactDoubles (WebhookErrorHandler.new {}).options 1015 (1 / 2) = .nan ∧
      delayFormula (WebhookErrorHandler.new {}).options 1015 0 = 30000 ∧
      jitterFactor exactDoubles (1 / 4) = .fin (-1 / 2) ∧
      jitter exactDoubles (WebhookErrorHandler.new {}).options 1015 (1 / 4) = .inf true ∧
      calculateDelay exactDoubles (WebhookErrorHandler.new {}).options 1015 (1 / 4) = .nan := by
  have he : exponentialDelay exactDoubles (WebhookErrorHandler.new {}).options 1015 =
      .inf false := by
    norm_num [exponentialDelay, JSNumber.mul, FloatRuntime.toDouble, exactDoubles,
      overflowBound, WebhookErrorHandler.new, orDefault]
  have hu2 : jitterFactor exactDoubles (1 / 2) = .fin 0 := by
    norm_num [jitterFactor, JSNumber.mul, JSNumber.add, JSNumber.sub, JSNumber.neg,
      FloatRuntime.toDouble, exactDoubles, overflowBound]
  have hu4 : jitterFactor exactDoubles (1 / 4) = .fin (-1 / 2) := by
    norm_num [jitterFactor, JSNumber.mul, JSNumber.add, JSNumber.sub, JSNumber.neg,
      FloatRuntime.toDouble, exactDoubles, overflowBound]
  have hj2 : jitter exactDoubles (WebhookErrorHandler.new {}).options 1015 (1 / 2) = .nan := by
    rw [jitter, he, hu2]
    norm_num [JSNumber.mul, WebhookErrorHandler.new, orDefault]
  have hj4 : jitter exactDoubles (WebhookErrorHandler.new {}).options 1015 (1 / 4) =
      .inf true := by
    rw [jitter, he, hu4]
    norm_num [JSNumber.mul, WebhookErrorHandler.new, orDefault]
  refine ⟨?_, ?_, ?_, ?_, he, hu2, hj2, ?_, ?_, hu4, hj4, ?_⟩
  · norm_num [WebhookErrorHandler.new, orDefault]
  · norm_num [WebhookErrorHandler.new, orDefault]
  · norm_num [WebhookErrorHandler.new, orDefault]
  · norm_num [WebhookErrorHandler.new, orDefault]
  · rw [calculateDelay, he, hj2]
    rfl
  · norm_num [delayFormula, WebhookErrorHandler.new, orDefault]
  · rw [calculateDelay, he, hj4]
    rfl

/-- Claim C13, amended: with the jitter factor `Math.random() * 2 - 1` zero, on a platform
whose rounding leaves zero and every double as they are and is monotone (as the rounding of
IEEE 754 is) and whose `Math.pow` is `1` for the exponent zero and does not decrease when the
exponent grows, for every configuration of finite numbers with `baseDelay ≥ 0`,
`exponentialBase ≥ 1` and `maxDelay ≥ 0` and all attempts `a ≤ b` at which `exponentialDelay`
and its product with `jitterRange` are finite (nothing overflows), the delay of `a` is
`min(exponentialDelay, maxDelay)` for the double `exponentialDelay = baseDelay *
Math.pow(exponentialBase, a)`, it is at most the delay of `b`, and the delay of `b` is at most
`maxDelay`. -/
theorem calculateDelay_monotone (fr : FloatRuntime) (options : Options) (a b : Nat)
    (random ea eb : ℚ)
    (hround0 : fr.round 0 = some 0)
    (hfixed : ∀ q d, fr.round q = some d → fr.round d = some d)
    (hmono : ∀ p q c d, p ≤ q → fr.round p = some c → fr.round q = some d → c ≤ d)
    (hpow0 : fr.pow options.exponentialBase 0 = .fin 1)
    (hpow : 1 ≤ options.exponentialBase → ∀ n m P Q, n ≤ m →
      fr.pow options.exponentialBase n = .fin P → fr.pow options.exponentialBase m = .fin Q →
      P ≤ Q)
    (hbase : 0 ≤ options.baseDelay) (hexp : 1 ≤ options.exponentialBase)
    (hmax : 0 ≤ options.maxDelay)
    (hzero : jitterFactor fr random = .fin 0)
    (hea : exponentialDelay fr options a = .fin ea)
    (heb : exponentialDelay fr options b = .fin eb)
    (hja : ∃ x, JSNumber.mul fr (.fin ea) (.fin options.jitterRange) = .fin x)
    (hjb : ∃ x, JSNumber.mul fr (.fin eb) (.fin options.jitterRange) = .fin x)
    (hab : a ≤ b) :
    calculateDelay fr options a random = .fin (min ea options.maxDelay) ∧
      calculateDelay fr options b random = .fin (min eb options.maxDelay) ∧
      min ea options.maxDelay ≤ min eb options.maxDelay ∧
      min eb options.maxDelay ≤ options.maxDelay := by
  -- the exponential delay of an attempt is the rounded product with a power that is at least 1
  have hpart : ∀ (n : Nat) (e : ℚ), exponentialDelay fr options n = .fin e →
      ∃ P, fr.pow options.exponentialBase n = .fin P ∧
        fr.round (options.baseDelay * P) = some e ∧ 1 ≤ P ∧ 0 ≤ e := by
    intro n e he
    obtain ⟨P, hP, hr⟩ := mul_fin_eq_fin fr _ _ _ he
    have h1 : 1 ≤ P := hpow hexp 0 n 1 P (Nat.zero_le _) hpow0 hP
    refine ⟨P, hP, hr, h1, ?_⟩
    exact hmono 0 (options.baseDelay * P) 0 e (mul_nonneg hbase (by linarith)) hround0 hr
  have hdelay : ∀ (n : Nat) (e : ℚ), exponentialDelay fr options n = .fin e →
      (∃ x, JSNumber.mul fr (.fin e) (.fin options.jitterRange) = .fin x) →
      calculateDelay fr options n random = .fin (min e options.maxDelay) := by
    intro n e he hj
    obtain ⟨x, hx⟩ := hj
    obtain ⟨P, _, hr, _, h0⟩ := hpart n e he
    have hjit : jitter fr options n random = .fin 0 := by
      rw [jitter, he, hx, hzero]
      simp only [JSNumber.mul, mul_zero, FloatRuntime.toDouble, hround0]
    have hsum : JSNumber.add fr (.fin e) (.fin 0) = .fin e := by
      simp only [JSNumber.add, add_zero, FloatRuntime.toDouble, hfixed _ _ hr]
    rw [calculateDelay, he, hjit, hsum, mathMax_mathMin_fin]
    congr 1
    exact max_eq_right (le_min h0 hmax)
  obtain ⟨Pa, hPa, hra, _, _⟩ := hpart a ea hea
  obtain ⟨Pb, hPb, hrb, _, _⟩ := hpart b eb heb
  have hP : Pa ≤ Pb := hpow hexp a b Pa Pb hab hPa hPb
  have hle : ea ≤ eb :=
    hmono _ _ ea eb (mul_le_mul_of_nonneg_left hP hbase) hra hrb
  exact ⟨hdelay a ea hea hja, hdelay b eb heb hjb, min_le_min hle (le_refl _),
    min_le_right _ _⟩

/-- Witness of C13 as amended, on the platform `exactDoubles` and the default configuration
with `Math.random()` returning one half, for the attempts 1 and 5: the exponential delays are
2000 and 32000, and the delays are 2000 and 30000. -/
theorem calculateDelay_monotone_witness :
    jitterFactor exactDoubles (1 / 2) = .fin 0 ∧
      exponentialDelay exactDoubles (WebhookErrorHandler.new {}).options 1 = .fin 2000 ∧
      exponentialDelay exactDoubles (WebhookErrorHandler.new {}).options 5 = .fin 32000 ∧
      calculateDelay exactDoubles (WebhookErrorHandler.new {}).options 1 (1 / 2) =
        .fin (min 2000 30000) ∧
      calculateDelay exactDoubles (WebhookErrorHandler.new {}).options 5 (1 / 2) =
        .fin (min 32000 30000) ∧
      min (2000 : ℚ) 30000 ≤ min 32000 30000 := by
  have hzero : jitterFactor exactDoubles (1 / 2) = .fin 0 := by
    norm_num [jitterFactor, JSNumber.mul, JSNumber.add, JSNumber.sub, JSNumber.neg,
      FloatRuntime.toDouble, exactDoubles, overflowBound]
  have hea : exponentialDelay exactDoubles (WebhookErrorHandler.new {}).options 1 =
      .fin 2000 := by
    norm_num [exponentialDelay, JSNumber.mul, FloatRuntime.toDouble, exactDoubles,
      overflowBound, WebhookErrorHandler.new, orDefault]
  have heb : exponentialDelay exactDoubles (WebhookErrorHandler.new {}).options 5 =
      .fin 32000 := by
    norm_num [exponentialDelay, JSNumber.mul, FloatRuntime.toDouble, exactDoubles,
      overflowBound, WebhookErrorHandler.new, orDefault]
  have h := calculateDelay_monotone exactDoubles (WebhookErrorHandler.new {}).options 1 5
    (1 / 2) 2000 32000
    (by norm_num [exactDoubles, overflowBound])
    (fun q d hq => by have hd := exactDoubles_round q d hq; subst hd; exact hq)
    (fun p q c d hpq hp hq => by
      rw [exactDoubles_round p c hp, exactDoubles_round q d hq]; exact hpq)
    (by norm_num [exactDoubles, overflowBound])
    (fun hexp n m P Q hnm hP hQ => by
      rw [exactDoubles_pow _ P n hP, exactDoubles_pow _ Q m hQ]
      exact pow_le_pow_right₀ hexp hnm)
    (by norm_num [WebhookErrorHandler.new, orDefault])
    (by norm_num [WebhookErrorHandler.new, orDefault])
    (by norm_num [WebhookErrorHandler.new, orDefault])
    hzero hea heb
    ⟨200, by
      norm_num [JSNumber.mul, FloatRuntime.toDouble, exactDoubles, overflowBound,
        WebhookErrorHandler.new, orDefault]⟩
    ⟨3200, by
      norm_num [JSNumber.mul, FloatRuntime.toDouble, exactDoubles, overflowBound,
        WebhookErrorHandler.new, orDefault]⟩
    (by decide)
  have hM : (WebhookErrorHandler.new {}).options.maxDelay = 30000 := by
    norm_num [WebhookErrorHandler.new, orDefault]
  rw [hM] at h
  exact ⟨hzero, hea, heb, h.1, h.2.1, h.2.2.1⟩

/-- Counterexample to C13 as written: with the options `{maxDelay: -1}` the base delay is 1000
and the exponential base 2, as the claim requires, and with the jitter factor zero the delay of
attempt 0 is `0`, which exceeds `maxDelay = -1` (and is not `min(1000, -1)`); and with the
default options the delay of attempt 1015 is `NaN`, because `1000 * 2^1015` is beyond the
doubles, while the delay of attempt 0 is `1000`. -/
theorem calculateDelay_exceeds_negative_maxDelay :
    (0 : ℚ) ≤ (WebhookErrorHandler.new negativeMaxDelay).options.baseDelay ∧
      (1 : ℚ) ≤ (WebhookErrorHandler.new negativeMaxDelay).options.exponentialBase ∧
      (WebhookErrorHandler.new negativeMaxDelay).options.maxDelay = -1 ∧
      jitterFactor exactDoubles (1 / 2) = .fin 0 ∧
      calculateDelay exactDoubles (WebhookErrorHandler.new negativeMaxDelay).options 0 (1 / 2) =
        .fin 0 ∧
      JSNumber.lt (.fin (WebhookErrorHandler.new negativeMaxDelay).options.maxDelay)
        (calculateDelay exactDoubles (WebhookErrorHandler.new negativeMaxDelay).options 0
          (1 / 2)) = true ∧
      calculateDelay exactDoubles (WebhookErrorHandler.new {}).options 0 (1 / 2) = .fin 1000 ∧
      calculateDelay exactDoubles (WebhookErrorHandler.new {}).options 1015 (1 / 2) = .nan := by
  have hzero : jitterFactor exactDoubles (1 / 2) = .fin 0 := by
    norm_num [jitterFactor, JSNumber.mul, JSNumber.add, JSNumber.sub, JSNumber.neg,
      FloatRuntime.toDouble, exactDoubles, overflowBound]
  have h : calculateDelay exactDoubles (WebhookErrorHandler.new negativeMaxDelay).options 0
      (1 / 2) = .fin 0 := by
    rw [calculateDelay, jitter, hzero]
    norm_num [exponentialDelay, JSNumber.mul, JSNumber.add, FloatRuntime.toDouble,
      exactDoubles, overflowBound, mathMin, mathMax, JSNumber.lt, WebhookErrorHandler.new,
      orDefault, negativeMaxDelay]
  have h0 : calculateDelay exactDoubles (WebhookErrorHandler.new {}).options 0 (1 / 2) =
      .fin 1000 := by
    rw [calculateDelay, jitter, hzero]
    norm_num [exponentialDelay, JSNumber.mul, JSNumber.add, FloatRuntime.toDouble,
      exactDoubles, overflowBound, mathMin, mathMax, JSNumber.lt, WebhookErrorHandler.new,
      orDefault]
  have he : exponentialDelay exactDoubles (WebhookErrorHandler.new {}).options 1015 =
      .inf false := by
    norm_num [exponentialDelay, JSNumber.mul, FloatRuntime.toDouble, exactDoubles,
      overflowBound, WebhookErrorHandler.new, orDefault]
  refine ⟨?_, ?_, ?_, hzero, h, ?_, h0, ?_⟩
  · norm_num [WebhookErrorHandler.new, orDefault, negativeMaxDelay]
  · norm_num [WebhookErrorHandler.new, orDefault, negativeMaxDelay]
  · norm_num [WebhookErrorHandler.new, orDefault, negativeMaxDelay]
  · rw [h]
    norm_num [JSNumber.lt, WebhookErrorHandler.new, orDefault, negativeMaxDelay]
  · rw [calculateDelay, jitter, he, hzero]
    norm_num [JSNumber.mul, JSNumber.add, mathMin, mathMax, WebhookErrorHandler.new, orDefault]

/-- The loop of `processErrorQueue` adds one result for each item, and no call in it runs out
of fuel. -/
theorem processItems_results (envs : Nat → Env) :
    ∀ (items : List QueueItem) (i : Nat) (h : WebhookErrorHandler) (results : List QueueResult),
      (processItems envs items i h results).results.length = results.length + items.length ∧
        (processItems envs items i h results).outOfFuel = false := by
  intro items
  induction items with
  | nil => intro i h results; simp [processItems]
  | cons item rest ih =>
    intro i h results
    simp only [processItems]
    split_ifs with hdrop
    · obtain ⟨h1, h2⟩ := ih (i + 1) h (results ++ [.dropped item.payload])
      exact ⟨by rw [h1]; simp; omega, h2⟩
    · split
      · rename_i result hres
        obtain ⟨h1, h2⟩ := ih (i + 1)
          (if result.success = false then
            { (executeWithRetry h (envs i) item.payload).handler with
              errorQueue := (executeWithRetry h (envs i) item.payload).handler.errorQueue ++
                [{ item with retryCount := item.retryCount + 1 }] }
          else (executeWithRetry h (envs i) item.payload).handler)
          (results ++ [.delivery result])
        exact ⟨by rw [h1]; simp; omega, h2⟩
      · rename_i e hres
        obtain ⟨h1, h2⟩ := ih (i + 1)
          { (executeWithRetry h (envs i) item.payload).handler with
              errorQueue := (executeWithRetry h (envs i) item.payload).handler.errorQueue ++
                [{ item with retryCount := item.retryCount + 1 }] }
          (results ++ [.threw item.payload e])
        exact ⟨by rw [h1]; simp; omega, h2⟩
      · rename_i hres
        exact absurd hres (executeWithRetry_terminates h (envs i) item.payload)

/-- The method `processErrorQueue` returns one result for each queued item. -/
theorem processErrorQueue_results (h : WebhookErrorHandler) (envs : Nat → Env) :
    (processErrorQueue h envs).results.length = h.errorQueue.length ∧
      (processErrorQueue h envs).outOfFuel = false := by
  unfold processErrorQueue
  split_ifs with h0
  · simp [h0]
  · have := processItems_results envs h.errorQueue 0 { h with errorQueue := [] } []
    simpa using this

/-- Claim C14, where the code departs from it: an engine with `fallbackQueue` enabled holds
one queued item with `retryCount` 0; `processErrorQueue` with a `deliveryFn` that always raises
a 500 error returns one result, and afterwards the queue holds two items, with `retryCount` 0
and 1: the failing call of `executeWithRetry` has queued the payload again, and the loop has
put the processed item back. -/
theorem processErrorQueue_duplicates :
    oneQueued.options.fallbackQueue = true ∧
      oneQueued.errorQueue.map (fun item => item.retryCount) = [0] ∧
      (processErrorQueue oneQueued (fun _ => alwaysRaising serverError)).results.length = 1 ∧
      ((processErrorQueue oneQueued (fun _ => alwaysRaising serverError)).handler.errorQueue.map
        (fun item => item.retryCount)) = [0, 1] :=
  ⟨rfl, rfl, rfl, rfl⟩

/-- The shape of the result that the loop returns: a success carries `attempts` at the top
level, equal to the number of invocations; a failure carries no `attempts` at the top level,
and its `error` carries the number of invocations, the last raised value and the type taken
from that value. -/
theorem retryLoop_result (env : Env) (payload : JSValue) :
    ∀ (fuel : Nat) (h : WebhookErrorHandler) (attempt : Nat) (lastError : Option Thrown)
      (invs : List Invocation) (res : DeliveryResult),
      invs.length = attempt →
      (0 < attempt → ∃ e, lastError = some e ∧ env.deliveryFn (attempt - 1) = .reject e) →
      (retryLoop env payload fuel h attempt lastError invs).completion = .returned res →
      (res.success = true →
        res.attempts =
          some (retryLoop env payload fuel h attempt lastError invs).invocations.length) ∧
      (res.success = false →
        res.attempts = none ∧
        ∃ info e, res.error = some info ∧
          info.attempts =
            some (retryLoop env payload fuel h attempt lastError invs).invocations.length ∧
          info.lastError = some e ∧ info.type = terminalType e ∧
          0 < (retryLoop env payload fuel h attempt lastError invs).invocations.length ∧
          env.deliveryFn
            ((retryLoop env payload fuel h attempt lastError invs).invocations.length - 1) =
              .reject e) := by
  intro fuel
  induction fuel with
  | zero => intro h attempt lastError invs res _ _ hc; simp [retryLoop] at hc
  | succ fuel ih =>
    intro h attempt lastError invs res hlen hlast hc
    have hfail : ∀ (h1 : WebhookErrorHandler) (n : Nat) (e : Thrown) (invs1 : List Invocation),
        invs1.length = n → 0 < n → env.deliveryFn (n - 1) = .reject e →
        (allAttemptsFailed h1 payload n (some e) invs1).completion = .returned res →
        (res.success = true →
          res.attempts = some (allAttemptsFailed h1 payload n (some e) invs1).invocations.length) ∧
        (res.success = false →
          res.attempts = none ∧
          ∃ info e2, res.error = some info ∧
            info.attempts =
              some (allAttemptsFailed h1 payload n (some e) invs1).invocations.length ∧
            info.lastError = some e2 ∧ info.type = terminalType e2 ∧
            0 < (allAttemptsFailed h1 payload n (some e) invs1).invocations.length ∧
            env.deliveryFn
              ((allAttemptsFailed h1 payload n (some e) invs1).invocations.length - 1) =
                .reject e2) := by
      intro h1 n e invs1 hl hn hde hcomp
      simp only [allAttemptsFailed, createErrorResult, Completion.returned.injEq] at hcomp
      subst hcomp
      refine ⟨fun hs => by simp at hs, fun _ => ⟨rfl, _, e, rfl, ?_, rfl, ?_, ?_, ?_⟩⟩
      · simp [hl]
      · cases e with
        | errorObject name message response type =>
          cases type with
          | none => rfl
          | some t => simp only [terminalType]; split_ifs <;> rfl
        | null => rfl
        | undefined => rfl
        | str s => rfl
        | num n => rfl
        | bool b => rfl
      · simp [hl, hn]
      · simp only [allAttemptsFailed_invocations, hl]; exact hde
    by_cases hg : attempt ≤ h.options.maxRetries
    · cases hd : env.deliveryFn attempt with
      | resolve d =>
        rw [retryLoop_success env payload fuel h attempt lastError invs d hg hd] at hc ⊢
        simp only [Completion.returned.injEq] at hc
        subst hc
        exact ⟨fun _ => by simp [hlen], fun hs => by simp at hs⟩
      | reject e =>
        cases ha : analyzeError h.options e with
        | error err =>
          rw [retryLoop_throw env payload fuel h attempt lastError invs e err hg hd ha] at hc
          cases hc
        | ok a =>
          by_cases hbreak : a.retryable = false ∨ attempt = h.options.maxRetries
          · rw [retryLoop_break env payload fuel h attempt lastError invs e a hg hd ha
              hbreak] at hc ⊢
            exact hfail _ (attempt + 1) e _ (by simp [invocationOf, hlen]) (Nat.succ_pos _)
              (by simpa using hd) hc
          · have hr : a.retryable = true := by
              cases hb : a.retryable
              · exact absurd (Or.inl hb) hbreak
              · rfl
            have hlt : attempt + 1 ≤ h.options.maxRetries := by
              have : attempt ≠ h.options.maxRetries := fun hh => hbreak (Or.inr hh)
              omega
            rw [retryLoop_retry env payload fuel h attempt lastError invs e a hlt hd ha
              hr] at hc ⊢
            exact ih _ (attempt + 1) (some e) _ res (by simp [hlen])
              (fun _ => ⟨e, rfl, by simpa using hd⟩) hc
    · have hpos : 0 < attempt := by omega
      obtain ⟨e, hle, hde⟩ := hlast hpos
      subst hle
      simp only [retryLoop, hg, if_false] at hc ⊢
      exact hfail h attempt e invs hlen hpos hde hc

/-- The shape of the result that `executeWithRetry` returns after at least one invocation. -/
theorem executeWithRetry_result (h : WebhookErrorHandler) (env : Env) (payload : JSValue)
    (res : DeliveryResult)
    (hc : (executeWithRetry h env payload).completion = .returned res)
    (hinv : (executeWithRetry h env payload).invocations ≠ []) :
    (res.success = true →
      res.attempts = some (executeWithRetry h env payload).invocations.length) ∧
    (res.success = false →
      res.attempts = none ∧
      ∃ info e, res.error = some info ∧
        info.attempts = some (executeWithRetry h env payload).invocations.length ∧
        info.lastError = some e ∧ info.type = terminalType e ∧
        0 < (executeWithRetry h env payload).invocations.length ∧
        env.deliveryFn ((executeWithRetry h env payload).invocations.length - 1) =
          .reject e) := by
  simp only [executeWithRetry] at hc hinv ⊢
  split_ifs at hc hinv ⊢
  · exact absurd rfl hinv
  · exact retryLoop_result env payload _ _ 0 none [] res rfl (fun h0 => absurd h0 (by decide)) hc
  · exact retryLoop_result env payload _ _ 0 none [] res rfl (fun h0 => absurd h0 (by decide)) hc

/-- Claim C15, amended: for every call of `executeWithRetry` that returns a failure after at
least one invocation of `deliveryFn`, the `type` of the returned terminal error is the own
`type` property of the last value that `deliveryFn` raised when that property is truthy, and
`MAX_RETRIES_EXCEEDED` otherwise; in particular it is `MAX_RETRIES_EXCEEDED` for every raised
error without a `type` property, whatever its status. -/
theorem executeWithRetry_terminal_type (h : WebhookErrorHandler) (env : Env) (payload : JSValue)
    (res : DeliveryResult)
    (hc : (executeWithRetry h env payload).completion = .returned res)
    (hfail : res.success = false)
    (hinv : (executeWithRetry h env payload).invocations ≠ []) :
    ∃ info e, res.error = some info ∧
      env.deliveryFn ((executeWithRetry h env payload).invocations.length - 1) = .reject e ∧
      info.lastError = some e ∧ info.type = terminalType e ∧
      (∀ name message response, e = .errorObject name message response none →
        info.type = lit "MAX_RETRIES_EXCEEDED") := by
  obtain ⟨_, info, e, h1, _, h3, h4, _, h6⟩ :=
    (executeWithRetry_result h env payload res hc hinv).2 hfail
  refine ⟨info, e, h1, h6, h3, h4, ?_⟩
  intro name message response he
  rw [h4, he]
  rfl

/-- Witness of C15 as amended: with the default options and a `deliveryFn` that always raises
a 500 error whose `type` is `GATEWAY_DOWN`, the call returns a failure after four invocations,
and the type of its terminal error is `GATEWAY_DOWN`. -/
theorem executeWithRetry_terminal_type_witness :
    (executeWithRetry (WebhookErrorHandler.new {}) (alwaysRaising typedServerError)
        .null).invocations ≠ [] ∧
    ∃ res info, (executeWithRetry (WebhookErrorHandler.new {}) (alwaysRaising typedServerError)
        .null).completion = .returned res ∧
      res.success = false ∧ res.error = some info ∧ info.type = lit "GATEWAY_DOWN" := by
  have hne : (executeWithRetry (WebhookErrorHandler.new {}) (alwaysRaising typedServerError)
      .null).invocations ≠ [] := fun hc => by
    have hlen : (executeWithRetry (WebhookErrorHandler.new {})
      (alwaysRaising typedServerError) .null).invocations.length = 4 := rfl
    rw [hc] at hlen
    cases hlen
  obtain ⟨info, e, h1, h2, h3, h4, _⟩ :=
    executeWithRetry_terminal_type (WebhookErrorHandler.new {}) (alwaysRaising typedServerError)
      .null _ rfl rfl hne
  have he : e = typedServerError := (Outcome.reject.inj h2).symm
  exact ⟨hne, _, info, rfl, rfl, h1, by rw [h4, he]; rfl⟩

/-- Counterexample to C15 as written: with the default options, a `deliveryFn` that always
raises an error of status 500 is classified `500_SERVER_ERROR`, and one that raises an error of
status 401 is classified `401_CLIENT_ERROR`, but the calls (four invocations and one
invocation) both return a terminal error of type `MAX_RETRIES_EXCEEDED`. -/
theorem executeWithRetry_type_not_classification :
    ((analyzeError (WebhookErrorHandler.new {}).options serverError).map (fun a => a.type) =
        .ok (lit "500_SERVER_ERROR") ∧
      (executeWithRetry (WebhookErrorHandler.new {}) (alwaysRaising serverError)
        .null).invocations.length = 4 ∧
      (executeWithRetry (WebhookErrorHandler.new {}) (alwaysRaising serverError)
        .null).errorType = some (lit "MAX_RETRIES_EXCEEDED")) ∧
    ((analyzeError (WebhookErrorHandler.new {}).options unauthorizedError).map
        (fun a => a.type) = .ok (lit "401_CLIENT_ERROR") ∧
      (executeWithRetry (WebhookErrorHandler.new {}) (alwaysRaising unauthorizedError)
        .null).invocations.length = 1 ∧
      (executeWithRetry (WebhookErrorHandler.new {}) (alwaysRaising unauthorizedError)
        .null).errorType = some (lit "MAX_RETRIES_EXCEEDED")) :=
  ⟨⟨rfl, rfl, rfl⟩, rfl, rfl, rfl⟩

/-- Claim C16, where the code departs from it: with the default options (`maxRetries` 3) and
a `deliveryFn` that always raises a retryable 500 error, the call makes `maxRetries + 1 = 4`
invocations and returns a failure that has no `attempts` field at the top level; the count 4
is only in `error.attempts`. -/
theorem executeWithRetry_failure_without_attempts :
    (executeWithRetry (WebhookErrorHandler.new {}) (alwaysRaising serverError)
        .null).invocations.length = 3 + 1 ∧
      ∃ res info, (executeWithRetry (WebhookErrorHandler.new {}) (alwaysRaising serverError)
          .null).completion = .returned res ∧
        res.success = false ∧ res.attempts = none ∧ res.error = some info ∧
        info.attempts = some 4 :=
  ⟨rfl, _, _, rfl, rfl, rfl, rfl, rfl⟩

/-! ## Theorems: the steps of the fields in the result of `mapData` -/

theorem processField_warnings_mono (rt : JSRuntime) (rawData : List (JSString × JSValue))
    (st st1 : MapState) (entry : JSString × FieldRule)
    (h : processField rt rawData st entry = .ok st1) :
    ∀ w, w ∈ st.warnings → w ∈ st1.warnings := by
  intro w hw
  unfold processField at h
  simp only at h
  split at h
  · cases h
  · split at h
    · split at h
      · cases h
      · split at h
        · cases h; exact List.mem_append_left _ hw
        · cases h; exact hw
    · split at h
      · cases h; exact hw
      · split at h
        · cases h; exact hw
        · cases h; exact hw

theorem processFields_warnings_mono (rt : JSRuntime) (rawData : List (JSString × JSValue))
    (fields : List (JSString × FieldRule)) (st st1 : MapState)
    (h : processFields rt rawData st fields = .ok st1) :
    ∀ w, w ∈ st.warnings → w ∈ st1.warnings := by
  induction fields generalizing st with
  | nil => simp [processFields] at h; subst h; exact fun _ hw => hw
  | cons e rest ih =>
    simp only [processFields] at h
    split at h
    · cases h
    · rename_i st2 h2
      exact fun x hx => ih st2 h x (processField_warnings_mono rt rawData st st2 e h2 x hx)

/-- An error entry that a step adds names the field of the step. -/
theorem processField_errors_field (rt : JSRuntime) (rawData : List (JSString × JSValue))
    (st st1 : MapState) (entry : JSString × FieldRule)
    (h : processField rt rawData st entry = .ok st1) :
    ∀ x, x ∈ st1.errors → x ∈ st.errors ∨ x.field = entry.1 := by
  intro x hx
  unfold processField at h
  simp only at h
  split at h
  · cases h
  · split at h
    · split at h
      · cases h
      · split at h
        · cases h; exact Or.inl hx
        · cases h
          rcases List.mem_append.1 hx with hx | hx
          · exact Or.inl hx
          · right; simp only [List.mem_singleton] at hx; rw [hx]
    · split at h
      · cases h
        rcases List.mem_append.1 hx with hx | hx
        · exact Or.inl hx
        · right; simp only [List.mem_singleton] at hx; rw [hx]
      · split at h
        · cases h; exact Or.inl hx
        · cases h; exact Or.inl hx

theorem processFields_errors_of_not_mem (rt : JSRuntime) (rawData : List (JSString × JSValue))
    (fields : List (JSString × FieldRule)) (k : JSString)
    (hk : ∀ e ∈ fields, e.1 ≠ k) (st st1 : MapState)
    (h : processFields rt rawData st fields = .ok st1) :
    ∀ x, x ∈ st1.errors → x.field = k → x ∈ st.errors := by
  induction fields generalizing st with
  | nil => simp [processFields] at h; subst h; exact fun _ hx _ => hx
  | cons e rest ih =>
    simp only [processFields] at h
    split at h
    · cases h
    · rename_i st2 h2
      intro x hx hxk
      have h3 := ih (fun e he => hk e (List.mem_cons_of_mem _ he)) st2 h x hx hxk
      rcases processField_errors_field rt rawData st st2 e h2 x h3 with h4 | h4
      · exact h4
      · exact absurd (h4.symm.trans hxk) (hk e (List.mem_cons_self _ _))

/-- The step of a field in the loop over the fields, when no two fields have the same name:
what the result holds for the field (its property, its error entries) is what the step of the
field leaves, and the step starts with nothing for the field beyond the initial state. -/
theorem processFields_field (rt : JSRuntime) (rawData : List (JSString × JSValue))
    (fields : List (JSString × FieldRule)) (k : JSString) (rule : FieldRule)
    (hnd : (fields.map Prod.fst).Nodup) (hk : getOwn fields k = some rule) (st st1 : MapState)
    (h : processFields rt rawData st fields = .ok st1) :
    ∃ sta stb, processField rt rawData sta (k, rule) = .ok stb ∧
      getOwn sta.mappedData k = getOwn st.mappedData k ∧
      (∀ x, x ∈ sta.errors → x.field = k → x ∈ st.errors) ∧
      getOwn st1.mappedData k = getOwn stb.mappedData k ∧
      (∀ x, x ∈ stb.errors → x ∈ st1.errors) ∧
      (∀ x, x ∈ st1.errors → x.field = k → x ∈ stb.errors) ∧
      (∀ w, w ∈ stb.warnings → w ∈ st1.warnings) := by
  induction fields generalizing st with
  | nil => simp [getOwn] at hk
  | cons e rest ih =>
    obtain ⟨ek, er⟩ := e
    simp only [List.map_cons, List.nodup_cons] at hnd
    simp only [processFields] at h
    split at h
    · cases h
    · rename_i st2 h2
      by_cases hek : ek = k
      · subst hek
        simp only [getOwn, beq_self_eq_true, if_true, Option.some.injEq] at hk
        subst hk
        have hne := getOwn_ne_of_not_mem rest ek hnd.1
        exact ⟨st, st2, h2, rfl, fun _ hx _ => hx,
          processFields_getOwn_of_not_mem rt rawData rest ek hne st2 st1 h,
          processFields_errors_mono rt rawData rest st2 st1 h,
          processFields_errors_of_not_mem rt rawData rest ek hne st2 st1 h,
          processFields_warnings_mono rt rawData rest st2 st1 h⟩
      · have hb : (ek == k) = false := by simpa using hek
        simp only [getOwn, hb] at hk
        obtain ⟨sta, stb, h3, h4, h5, h6, h7, h8, h9⟩ := ih hnd.2 hk st2 h
        refine ⟨sta, stb, h3,
          h4.trans (processField_getOwn_ne rt rawData st st2 (ek, er) k h2 hek), ?_, h6, h7, h8,
          h9⟩
        intro x hx hxk
        rcases processField_errors_field rt rawData st st2 (ek, er) h2 x (h5 x hx hxk) with
          h10 | h10
        · exact h10
        · exact absurd (h10.symm.trans hxk) hek

/-- What `mapData` returns for a field of the default rules whose candidate `processValue`
accepts: the processed value under the name of the field, its warnings, and no error entry
for the field. -/
theorem mapData_of_valid (rt : JSRuntime) (rawData : List (JSString × JSValue))
    (field : JSString) (rule : FieldRule) (v : JSValue) (pr : ProcessResult)
    (res : MappingResult)
    (hk : getOwn (allFields getDefaultMappingRules) field = some rule)
    (hx : extractValue rawData rule.sources = .ok v) (hv : v.isPresent = true)
    (hp : processValue rt v rule field = .ok pr) (hvalid : pr.isValid = true)
    (hres : mapData rt rawData = .ok res) :
    res.get field = some pr.value ∧ (∀ w ∈ pr.warnings, w ∈ res.metadata.warnings) ∧
      ∀ e ∈ res.metadata.errors, e.field ≠ field := by
  unfold mapData mapDataWith at hres
  split at hres
  · cases hres
  · rename_i st hst
    cases hres
    obtain ⟨sta, stb, hstep, hsta, hstaerr, hget, _, herr, hwarn⟩ :=
      processFields_field rt rawData _ _ _ defaultFields_nodup hk _ _ hst
    simp only [processField, hx, hv, if_true, hp, hvalid] at hstep
    cases hstep
    refine ⟨?_, ?_, ?_⟩
    · simp only [MappingResult.get, hget, getOwn_setProp_self]
    · intro w hw
      exact hwarn w (List.mem_append_right _ hw)
    · intro e he hef
      have h1 := herr e he hef
      have h2 := hstaerr e h1 hef
      cases h2

/-- What `mapData` returns for a field of the default rules whose candidate `processValue`
rejects: an error entry for the field, and no property for the field. -/
theorem mapData_of_invalid (rt : JSRuntime) (rawData : List (JSString × JSValue))
    (field : JSString) (rule : FieldRule) (v : JSValue) (pr : ProcessResult)
    (res : MappingResult)
    (hk : getOwn (allFields getDefaultMappingRules) field = some rule)
    (hx : extractValue rawData rule.sources = .ok v) (hv : v.isPresent = true)
    (hp : processValue rt v rule field = .ok pr) (hinvalid : pr.isValid = false)
    (hres : mapData rt rawData = .ok res) :
    res.get field = none ∧
      (∃ e ∈ res.metadata.errors, e.field = field ∧ e.errors = some pr.errors) := by
  unfold mapData mapDataWith at hres
  split at hres
  · cases hres
  · rename_i st hst
    cases hres
    obtain ⟨sta, stb, hstep, hsta, _, hget, herr, _, _⟩ :=
      processFields_field rt rawData _ _ _ defaultFields_nodup hk _ _ hst
    simp only [processField, hx, hv, if_true, hp, hinvalid, Bool.false_eq_true,
      if_false] at hstep
    cases hstep
    refine ⟨?_, ?_⟩
    · simp only [MappingResult.get, hget]
      simpa [getOwn] using hsta
    · exact ⟨_, herr _ (List.mem_append_right _ (List.mem_singleton_self _)), rfl, rfl⟩

theorem getOwn_mem {V : Type} (l : List (JSString × V)) (k : JSString) (v : V)
    (h : getOwn l k = some v) : (k, v) ∈ l := by
  induction l with
  | nil => simp [getOwn] at h
  | cons p rest ih =>
    obtain ⟨pk, pv⟩ := p
    simp only [getOwn] at h
    split at h
    · rename_i hk
      cases h
      have : pk = k := by simpa using hk
      subst this
      exact List.mem_cons_self _ _
    · exact List.mem_cons_of_mem _ (ih h)

theorem getOwn_none_of_forall_ne {V : Type} (l : List (JSString × V)) (k : JSString)
    (h : ∀ p ∈ l, p.1 ≠ k) : getOwn l k = none := by
  induction l with
  | nil => rfl
  | cons p rest ih =>
    obtain ⟨pk, pv⟩ := p
    have hb : (pk == k) = false := by simpa using h (pk, pv) (List.mem_cons_self _ _)
    simp only [getOwn, hb]
    exact ih (fun q hq => h q (List.mem_cons_of_mem _ hq))

/-- The lookup in the table of the state codes misses a key of more than twenty units: the
keys of the table and the property names of `Object.prototype` are shorter. -/
theorem transformLookup_stateCode_long (key : JSString) (h : 20 < key.length) :
    transformLookup (getTransformationRules .stateCode) key = none := by
  have h1 : ∀ p ∈ getTransformationRules .stateCode, p.1.length ≤ 20 := by decide
  have h2 : ∀ k ∈ objectPrototypeKeys, k.length ≤ 20 := by decide
  have e1 : getOwn (getTransformationRules .stateCode) key = none := by
    apply getOwn_none_of_forall_ne
    intro p hp hpk
    have := h1 p hp
    rw [hpk] at this
    omega
  have e2 : objectPrototypeKeys.contains key = false := by
    rw [Bool.eq_false_iff]
    intro hc
    have hmem : key ∈ objectPrototypeKeys := by simpa using hc
    have := h2 key hmem
    omega
  simp only [transformLookup, e1, e2]
  rfl

theorem trim_length_le (s : JSString) : (trim s).length ≤ s.length := by
  unfold trim
  rw [List.length_reverse]
  refine le_trans (List.Sublist.length_le (List.dropWhile_sublist _)) ?_
  rw [List.length_reverse]
  exact List.Sublist.length_le (List.dropWhile_sublist _)

/-- The rules of the default rule set that have a `maxLength`: their type is `string` or
`text`, the limit is not zero, they have no options and no named validation, and the only
transformation among them is the state code, whose limit is fifty. -/
theorem defaultRules_maxLength :
    ∀ e ∈ allFields getDefaultMappingRules, e.2.maxLength = none ∨
      ((e.2.type = .string ∨ e.2.type = .text) ∧ e.2.maxLength ≠ some 0 ∧
        e.2.options = none ∧ e.2.validation = none ∧
        (e.2.transformation = none ∨
          (e.2.transformation = some .stateCode ∧ e.2.maxLength = some 50))) := by
  decide

/-- The result of `processValue` on a string longer than the `maxLength` of a rule without
options and validation: the first `maxLength` units without the white space around them, and
the warning of the truncation. -/
theorem processValue_truncate (rt : JSRuntime) (rule : FieldRule) (field : JSString)
    (m : Nat) (s : JSString) (hrt : ∀ x, x.length ≤ (rt.toLowerCase x).length)
    (ht : rule.type = .string ∨ rule.type = .text) (hm : rule.maxLength = some m)
    (hm0 : m ≠ 0) (ho : rule.options = none) (hv : rule.validation = none)
    (htr : rule.transformation = none ∨ (rule.transformation = some .stateCode ∧ 20 < m))
    (hs : m < s.length) :
    processValue rt (.str s) rule field =
      .ok { isValid := true, value := .value (.str (trim (s.take m))), errors := [],
            warnings := [lit "Field " ++ apostrophe ++ field ++ apostrophe ++
              lit " truncated to " ++ natToString m ++ lit " characters"] } := by
  have hnum : rule.type ≠ .number := by rcases ht with h | h <;> rw [h] <;> decide
  have harr : rule.type ≠ .array := by rcases ht with h | h <;> rw [h] <;> decide
  have hlen : (s.take m).length = m := by
    rw [List.length_take]; omega
  rcases htr with htr | ⟨htr, h20⟩
  · simp [processValue, typeConversion, JSValue.isString, hnum, harr, Stage.andThen,
      lengthValidation, hm, hm0, hs, rangeValidation, optionsValidation, ho, patternValidation,
      hv, transformAndClean, htr]
  · have hmiss := transformLookup_stateCode_long (rt.toLowerCase (s.take m))
      (by have := hrt (s.take m); omega)
    simp [processValue, typeConversion, JSValue.isString, hnum, harr, Stage.andThen,
      lengthValidation, hm, hm0, hs, rangeValidation, optionsValidation, ho, patternValidation,
      hv, transformAndClean, htr, toStringJS, hmiss]

/-! ## Theorems: truncation, validation, transformation and extraction -/

/-- Counterexample to C17 as written: the candidate of `firstName` is `A` followed by fifty
spaces, 51 characters; `mapData` returns, with the one truncation warning and no error, and
the value it emits for `firstName` is `A`, one character and not fifty. -/
theorem mapData_truncation_shorter :
    (65 :: List.replicate 50 32 : JSString).length = 51 ∧
    ∃ res, mapData asciiRuntime paddedNameRecord = .ok res ∧
      res.get (lit "firstName") = some (.value (.str (lit "A"))) ∧
      res.metadata.warnings = [lit "Field " ++ apostrophe ++ lit "firstName" ++ apostrophe ++
        lit " truncated to 50 characters"] ∧
      res.metadata.errors.length = 0 :=
  ⟨rfl, _, rfl, rfl, rfl, rfl⟩

/-- Claim C17, amended: for every field rule of the default rules with a `maxLength` `m` and
every candidate string `s` longer than `m`, on a runtime whose `toLowerCase` does not shorten
a string, `processValue` returns a valid result whose value is the first `m` characters of `s`
with the surrounding white space removed, with exactly one warning, `Field '<field>' truncated
to <m> characters`, and no error; the value has at most `m` characters, and exactly `m` when
the first and the last of those `m` characters are not white space; and whenever `mapData`
returns for a record whose candidate for the field is `s`, the result holds that value under
the field, that warning among its warnings, and no error entry for the field. -/
theorem mapData_truncates (rt : JSRuntime) (field : JSString) (rule : FieldRule) (m : Nat)
    (s : JSString) (hrt : ∀ x, x.length ≤ (rt.toLowerCase x).length)
    (hk : getOwn (allFields getDefaultMappingRules) field = some rule)
    (hm : rule.maxLength = some m) (hs : m < s.length) :
    processValue rt (.str s) rule field =
        .ok { isValid := true, value := .value (.str (trim (s.take m))), errors := [],
              warnings := [lit "Field " ++ apostrophe ++ field ++ apostrophe ++
                lit " truncated to " ++ natToString m ++ lit " characters"] } ∧
      (trim (s.take m)).length ≤ m ∧
      ((∀ c, (s.take m).head? = some c → isWhiteSpace c = false) →
        (∀ c, (s.take m).getLast? = some c → isWhiteSpace c = false) →
        trim (s.take m) = s.take m ∧ (trim (s.take m)).length = m) ∧
      ∀ (rawData : List (JSString × JSValue)) (res : MappingResult),
        extractValue rawData rule.sources = .ok (.str s) → mapData rt rawData = .ok res →
        res.get field = some (.value (.str (trim (s.take m)))) ∧
          (lit "Field " ++ apostrophe ++ field ++ apostrophe ++ lit " truncated to " ++
            natToString m ++ lit " characters") ∈ res.metadata.warnings ∧
          ∀ e ∈ res.metadata.errors, e.field ≠ field := by
  have hlen : (s.take m).length = m := by
    rw [List.length_take]; omega
  have hpv : processValue rt (.str s) rule field =
      .ok { isValid := true, value := .value (.str (trim (s.take m))), errors := [],
            warnings := [lit "Field " ++ apostrophe ++ field ++ apostrophe ++
              lit " truncated to " ++ natToString m ++ lit " characters"] } := by
    rcases defaultRules_maxLength (field, rule) (getOwn_mem _ _ _ hk) with h | h
    · rw [hm] at h; cases h
    · obtain ⟨ht, hm0, ho, hv, htr⟩ := h
      have hm0 : m ≠ 0 := by
        intro h0; apply hm0; show rule.maxLength = some 0; rw [hm, h0]
      refine processValue_truncate rt rule field m s hrt ht hm hm0 ho hv ?_ hs
      rcases htr with htr | ⟨htr, h50⟩
      · exact Or.inl htr
      · right
        have h50 : rule.maxLength = some 50 := h50
        rw [hm] at h50
        cases h50
        exact ⟨htr, by decide⟩
  refine ⟨hpv, ?_, ?_, ?_⟩
  · exact le_trans (trim_length_le _) (le_of_eq hlen)
  · intro h1 h2
    have := trim_eq_self (s.take m) h1 h2
    exact ⟨this, by rw [this, hlen]⟩
  · intro rawData res hx hres
    have hpres : (JSValue.str s).isPresent = true := by
      cases s with
      | nil => simp at hs
      | cons a t => rfl
    obtain ⟨h1, h2, h3⟩ := mapData_of_valid rt rawData field rule (.str s) _ res hk hx hpres
      hpv rfl hres
    exact ⟨h1, h2 _ (List.mem_singleton_self _), h3⟩

/-- Witness of C17 as amended: for a record whose `firstName` is the letter `A` 51 times,
`mapData` returns, the value of `firstName` is the letter `A` fifty times, and there is no
error entry for `firstName`. -/
theorem mapData_truncates_witness :
    (∀ x, x.length ≤ (asciiRuntime.toLowerCase x).length) ∧
      (50 < (List.replicate 51 65 : JSString).length) ∧
      ∃ res, mapData asciiRuntime longNameRecord = .ok res ∧
        res.get (lit "firstName") = some (.value (.str (List.replicate 50 65))) ∧
        ∀ e ∈ res.metadata.errors, e.field ≠ lit "firstName" := by
  have hrt : ∀ x, x.length ≤ (asciiRuntime.toLowerCase x).length := fun x => by
    simp [asciiRuntime]
  have hs : 50 < (List.replicate 51 65 : JSString).length := by decide
  obtain ⟨_, _, _, hmap⟩ := mapData_truncates asciiRuntime (lit "firstName")
    { sources := [lit "firstName", lit "first_name", lit "fname", lit "given_name"],
      required := true, type := .string, maxLength := some 50 } 50 (List.replicate 51 65)
    hrt rfl rfl hs
  refine ⟨hrt, hs, ?_⟩
  cases h : mapData asciiRuntime longNameRecord with
  | error e =>
    have hok : (mapData asciiRuntime longNameRecord).toBool = true := rfl
    rw [h] at hok
    cases hok
  | ok res =>
    obtain ⟨h1, _, h3⟩ := hmap longNameRecord res rfl h
    exact ⟨res, rfl, h1, h3⟩

/-- A rule whose only check is the named validation `postalCode` accepts every string: the
entry `postalCode` of the validation rules has no `pattern`, so nothing is tested. -/
theorem processValue_postalCode (rt : JSRuntime) (rule : FieldRule) (field : JSString)
    (s : JSString) (ht : rule.type = .string) (hm : rule.maxLength = none)
    (ho : rule.options = none) (hv : rule.validation = some .postalCode)
    (htr : rule.transformation = none) :
    processValue rt (.str s) rule field =
      .ok { isValid := true, value := .value (.str (trim s)), errors := [], warnings := [] } := by
  simp [processValue, typeConversion, JSValue.isString, ht, Stage.andThen,
    lengthValidation, hm, rangeValidation, optionsValidation, ho, patternValidation,
    hv, transformAndClean, htr, getValidationRules]

/-- Claim C18, where the code departs from it: the entry `postalCode` of the validation rules
has no `pattern`, so with the default rule of `postalCode` the method `processValue` accepts
every candidate string and returns it trimmed; the candidate `abc` matches neither the US nor
the Canadian format, and `mapData` returns a result with `postalCode` equal to `abc` and with
no error entry. -/
theorem mapData_accepts_any_postalCode :
    (getValidationRules .postalCode).pattern.isNone = true ∧
      (∀ (rt : JSRuntime) (s : JSString),
        processValue rt (.str s)
            { sources := [lit "postalCode", lit "zipCode", lit "zip", lit "postal_code",
                lit "zip_code"],
              required := false, type := .string, validation := some .postalCode }
            (lit "postalCode") =
          .ok { isValid := true, value := .value (.str (trim s)), errors := [],
                warnings := [] }) ∧
      usPostalPattern (lit "abc") = false ∧ caPostalPattern (lit "abc") = false ∧
      ∃ res, mapData asciiRuntime badPostalRecord = .ok res ∧
        res.get (lit "postalCode") = some (.value (.str (lit "abc"))) ∧
        res.metadata.errors.length = 0 :=
  ⟨rfl, fun rt s => processValue_postalCode rt _ _ s rfl rfl rfl rfl rfl, rfl, rfl,
    _, rfl, rfl, rfl⟩

/-- The three cases of `processValue` with the default rule of `state` on a candidate of at
most fifty characters: an entry of the table gives its code, a property name of
`Object.prototype` gives what the table inherits under it, and any other string gives the
candidate trimmed. -/
theorem processValue_state (rt : JSRuntime) (s : JSString) (hs : s.length ≤ 50) :
    (∀ code, getOwn (getTransformationRules .stateCode) (rt.toLowerCase s) = some code →
      processValue rt (.str s)
          { sources := [lit "state", lit "province", lit "region", lit "state_province"],
            required := false, type := .string, maxLength := some 50,
            transformation := some .stateCode }
          (lit "state") =
        .ok { isValid := true, value := .value (.str code), errors := [], warnings := [] }) ∧
    (getOwn (getTransformationRules .stateCode) (rt.toLowerCase s) = none →
      objectPrototypeKeys.contains (rt.toLowerCase s) = false →
      processValue rt (.str s)
          { sources := [lit "state", lit "province", lit "region", lit "state_province"],
            required := false, type := .string, maxLength := some 50,
            transformation := some .stateCode }
          (lit "state") =
        .ok { isValid := true, value := .value (.str (trim s)), errors := [],
              warnings := [] }) ∧
    (getOwn (getTransformationRules .stateCode) (rt.toLowerCase s) = none →
      objectPrototypeKeys.contains (rt.toLowerCase s) = true →
      processValue rt (.str s)
          { sources := [lit "state", lit "province", lit "region", lit "state_province"],
            required := false, type := .string, maxLength := some 50,
            transformation := some .stateCode }
          (lit "state") =
        .ok { isValid := true, value := .inherited (rt.toLowerCase s), errors := [],
              warnings := [] }) := by
  have hs1 : ¬ (50 < s.length) := by omega
  have hcodes : ∀ p ∈ getTransformationRules .stateCode, trim p.2 = p.2 := by decide
  refine ⟨?_, ?_, ?_⟩
  · intro code hc
    have ht := hcodes _ (getOwn_mem _ _ _ hc)
    simp only at ht
    simp [processValue, typeConversion, JSValue.isString, Stage.andThen,
      lengthValidation, hs1, rangeValidation, optionsValidation, patternValidation,
      transformAndClean, toStringJS, transformLookup, hc, ht]
  · intro hn hc
    have hmem : rt.toLowerCase s ∉ objectPrototypeKeys := by simpa using hc
    simp [processValue, typeConversion, JSValue.isString, Stage.andThen,
      lengthValidation, hs1, rangeValidation, optionsValidation, patternValidation,
      transformAndClean, toStringJS, transformLookup, hn, hmem]
  · intro hn hc
    have hmem : rt.toLowerCase s ∈ objectPrototypeKeys := by simpa using hc
    simp [processValue, typeConversion, JSValue.isString, Stage.andThen,
      lengthValidation, hs1, rangeValidation, optionsValidation, patternValidation,
      transformAndClean, toStringJS, transformLookup, hn, hmem]

/-- Claim C19, where the code departs from it: the candidate `constructor` of `state` has at
most fifty characters and is not a key of the table of the state codes, and `mapData` returns,
without error or warning, a result whose `state` is not the candidate but what the table
inherits from `Object.prototype` under `constructor`. -/
theorem mapData_state_inherited :
    (lit "constructor").length ≤ 50 ∧
      getOwn (getTransformationRules .stateCode) (asciiRuntime.toLowerCase (lit "constructor")) =
        none ∧
      ∃ res, mapData asciiRuntime constructorStateRecord = .ok res ∧
        res.get (lit "state") = some (.inherited (lit "constructor")) ∧
        res.metadata.errors.length = 0 ∧ res.metadata.warnings.length = 0 :=
  ⟨by decide, rfl, _, rfl, rfl, rfl, rfl⟩

/-- On a record without an own property `hasOwnProperty`, `extractValue` returns the value
under the first source key that holds a value other than `null`, `undefined` and the empty
string, and `null` when there is none. -/
theorem extractValue_eq_firstPresent (data : List (JSString × JSValue))
    (sources : List JSString) (h : hasOwn data (lit "hasOwnProperty") = false) :
    extractValue data sources = .ok (firstPresent data sources) := by
  induction sources with
  | nil => rfl
  | cons source rest ih =>
    simp only [extractValue, firstPresent, h, Bool.false_eq_true, if_false]
    cases getOwn data source with
    | none => exact ih
    | some v =>
      by_cases hv : v.isPresent = true
      · simp [hv]
      · simp [hv, ih]

/-- Claim C20, where the code departs from it: on the record
`{hasOwnProperty: 1, phone: "5551234567"}` and the sources `["phone"]` the method
`extractValue` throws a `TypeError`, although the first source key holds a present value; it
throws on every record with an own property `hasOwnProperty` and every non-empty list of
sources. -/
theorem extractValue_throws_on_shadowed_hasOwnProperty :
    extractValue shadowingRecord [lit "phone"] = .error .typeError ∧
      (firstPresent shadowingRecord [lit "phone"]).isPresent = true ∧
      ∀ (data : List (JSString × JSValue)) (source : JSString) (rest : List JSString),
        hasOwn data (lit "hasOwnProperty") = true →
        extractValue data (source :: rest) = .error .typeError := by
  refine ⟨rfl, rfl, ?_⟩
  intro data source rest h
  simp [extractValue, h]

/-! ## Theorems: `mergeDeep` -/

theorem mergeInto_cons (result : List (JSString × JSValue)) (key : JSString) (v : JSValue)
    (rest : List (JSString × JSValue)) :
    mergeInto result ((key, v) :: rest) =
      mergeInto (assignProp result key (mergeValue (orEmptyObject (getOwn result key)) v))
        rest := by
  rw [mergeInto, mergeEntry]

theorem mergeValue_obj (current : JSValue) (props : List (JSString × JSValue)) :
    mergeValue current (.obj props) = .obj (mergeInto (ownProps current) props) := by
  rw [mergeValue]

theorem mergeValue_leaf (current v : JSValue) (h : ∀ props, v ≠ .obj props) :
    mergeValue current v = v := by
  cases v with
  | obj props => exact absurd rfl (h props)
  | undefined => rw [mergeValue]
  | null => rw [mergeValue]
  | bool b => rw [mergeValue]
  | num n => rw [mergeValue]
  | str s => rw [mergeValue]
  | arr items => rw [mergeValue]

theorem hasOwn_false_getOwn {V : Type} (l : List (JSString × V)) (k : JSString)
    (h : hasOwn l k = false) : getOwn l k = none := by
  induction l with
  | nil => rfl
  | cons p rest ih =>
    obtain ⟨pk, pv⟩ := p
    simp only [hasOwn, Bool.or_eq_false_iff] at h
    simp only [getOwn, h.1, Bool.false_eq_true, if_false]
    exact ih h.2

theorem properProps_cons (key : JSString) (v : JSValue) (rest : List (JSString × JSValue))
    (h : properProps ((key, v) :: rest) = true) :
    key ≠ lit "__proto__" ∧ properValue v = true ∧ hasOwn rest key = false ∧
      properProps rest = true := by
  rw [properProps, properEntry] at h
  simp only [Bool.and_eq_true, bne_iff_ne, ne_eq, Bool.not_eq_true'] at h
  exact ⟨h.1.1.1, h.1.1.2, h.1.2, h.2⟩

theorem properProps_getOwn (props : List (JSString × JSValue)) (k : JSString)
    (sub : List (JSString × JSValue)) (h : properProps props = true)
    (hk : getOwn props k = some (.obj sub)) : properProps sub = true := by
  induction props with
  | nil => simp [getOwn] at hk
  | cons p rest ih =>
    obtain ⟨pk, pv⟩ := p
    obtain ⟨_, hv, _, hrest⟩ := properProps_cons pk pv rest h
    simp only [getOwn] at hk
    split at hk
    · cases hk
      rw [properValue] at hv
      exact hv
    · exact ih hrest hk

/-- The property `k` of the result of the loop of `mergeDeep`: what the loop assigns for the
property `k` of the source, and the property of `result` when the source has none. -/
theorem getOwn_mergeInto (props : List (JSString × JSValue)) (k : JSString) :
    ∀ (result : List (JSString × JSValue)), properProps props = true →
      getOwn (mergeInto result props) k =
        match getOwn props k with
        | some v => some (mergeValue (orEmptyObject (getOwn result k)) v)
        | none => getOwn result k := by
  induction props with
  | nil => intro result _; rfl
  | cons p rest ih =>
    intro result h
    obtain ⟨pk, pv⟩ := p
    obtain ⟨hproto, _, hnot, hrest⟩ := properProps_cons pk pv rest h
    rw [mergeInto_cons, ih _ hrest]
    have hassign : assignProp result pk (mergeValue (orEmptyObject (getOwn result pk)) pv) =
        setProp result pk (mergeValue (orEmptyObject (getOwn result pk)) pv) := by
      simp [assignProp, hproto]
    rw [hassign]
    by_cases hpk : pk = k
    · subst hpk
      rw [hasOwn_false_getOwn rest pk hnot]
      simp [getOwn, getOwn_setProp_self]
    · have hb : (pk == k) = false := by simpa using hpk
      simp only [getOwn, hb, Bool.false_eq_true, if_false]
      rw [getOwn_setProp_ne _ _ _ _ hpk]

theorem ownProps_of_not_truthy (v : JSValue) (h : v.isTruthy = false) : ownProps v = [] := by
  cases v with
  | undefined => rfl
  | null => rfl
  | bool b => rfl
  | num n => rfl
  | str s =>
    cases s with
    | nil => rfl
    | cons a t => simp [JSValue.isTruthy] at h
  | arr items => simp [JSValue.isTruthy] at h
  | obj props => simp [JSValue.isTruthy] at h

/-- The own properties of `result[key] || {}` are those of the own property `key`. -/
theorem ownProps_orEmptyObject (result : List (JSString × JSValue)) (k : JSString) :
    ownProps (orEmptyObject (getOwn result k)) =
      match getOwn result k with
      | some c => ownProps c
      | none => [] := by
  cases hg : getOwn result k with
  | none => rfl
  | some c =>
    simp only [orEmptyObject]
    split_ifs with ht
    · rfl
    · have : c.isTruthy = false := by simpa using ht
      rw [ownProps_of_not_truthy c this]
      rfl

/-- A leaf of the override is at its path in the merged properties. -/
theorem valueAt_mergeInto_leaf (p : List JSString) :
    ∀ (result props : List (JSString × JSValue)) (v : JSValue), properProps props = true →
      leafAt props p = some v → valueAt (.obj (mergeInto result props)) p = some v := by
  induction p with
  | nil => intro result props v _ h; simp [leafAt] at h
  | cons k rest ih =>
    intro result props v hp h
    cases rest with
    | nil =>
      simp only [leafAt] at h
      simp only [valueAt, ownProps]
      rw [getOwn_mergeInto props k result hp]
      cases hg : getOwn props k with
      | none => rw [hg] at h; cases h
      | some c =>
        rw [hg] at h
        simp only
        cases c with
        | obj sub => cases h
        | undefined => cases h; rw [mergeValue]
        | null => cases h; rw [mergeValue]
        | bool b => cases h; rw [mergeValue]
        | num n => cases h; rw [mergeValue]
        | str s => cases h; rw [mergeValue]
        | arr items => cases h; rw [mergeValue]
    | cons next rest2 =>
      simp only [leafAt] at h
      rw [valueAt]
      simp only [ownProps]
      rw [getOwn_mergeInto props k result hp]
      cases hg : getOwn props k with
      | none => rw [hg] at h; cases h
      | some c =>
        rw [hg] at h
        cases c with
        | obj sub =>
          simp only at h ⊢
          rw [mergeValue_obj]
          exact ih _ sub v (properProps_getOwn props k sub hp hg) h
        | undefined => cases h
        | null => cases h
        | bool b => cases h
        | num n => cases h
        | str s => cases h
        | arr items => cases h

theorem valueAt_cons (v : JSValue) (k : JSString) (rest : List JSString) :
    valueAt v (k :: rest) =
      match getOwn (ownProps v) k with
      | some child => valueAt child rest
      | none => none := by
  cases v <;> rfl

/-- A path that the override leaves alone holds in the merged properties what it holds in the
properties merged into. -/
theorem valueAt_mergeInto_alone (p : List JSString) :
    ∀ (result props : List (JSString × JSValue)), properProps props = true →
      leavesAlone props p = true →
      valueAt (.obj (mergeInto result props)) p = valueAt (.obj result) p := by
  induction p with
  | nil => intro result props _ h; simp [leavesAlone] at h
  | cons k rest ih =>
    intro result props hp h
    simp only [leavesAlone] at h
    rw [valueAt_cons, valueAt_cons]
    simp only [ownProps]
    rw [getOwn_mergeInto props k result hp]
    cases hg : getOwn props k with
    | none => rfl
    | some c =>
      rw [hg] at h
      cases c with
      | obj sub =>
        simp only at h ⊢
        rw [mergeValue_obj]
        have hrest : rest ≠ [] := by
          intro hr; rw [hr] at h; simp [leavesAlone] at h
        have := ih (ownProps (orEmptyObject (getOwn result k))) sub
          (properProps_getOwn props k sub hp hg) h
        rw [this, ownProps_orEmptyObject]
        cases hr : getOwn result k with
        | none =>
          cases rest with
          | nil => exact absurd rfl hrest
          | cons a b => rfl
        | some child =>
          cases rest with
          | nil => exact absurd rfl hrest
          | cons a b => simp only [valueAt_cons, ownProps]
      | undefined => simp at h
      | null => simp at h
      | bool b => simp at h
      | num n => simp at h
      | str s => simp at h
      | arr items => simp at h

/-- Claim C21, amended: for every target tree, every override tree whose objects have
distinct property names, none of them `__proto__`, and every path, `mergeDeep(target, source)`
has at the path the value of the override when the override defines a leaf there (a value that
is not an object, or an array, which replaces the value of the target), and the value of the
target when the override leaves the path alone (on the way along the path the override has no
property for the next name). -/
theorem mergeDeep_override (target source : JSValue) (p : List JSString)
    (hproper : properProps (ownProps source) = true) :
    (∀ v, leafAt (ownProps source) p = some v → valueAt (mergeDeep target source) p = some v) ∧
      (leavesAlone (ownProps source) p = true →
        valueAt (mergeDeep target source) p = valueAt target p) := by
  constructor
  · intro v hv
    exact valueAt_mergeInto_leaf p _ _ v hproper hv
  · intro h
    have := valueAt_mergeInto_alone p (ownProps target) _ hproper h
    rw [mergeDeep, this]
    cases p with
    | nil => simp [leavesAlone] at h
    | cons k rest => simp only [valueAt_cons, ownProps]

/-- Witness of C21 as amended, on the default rules and the override
`{contact: {phone: {required: false}}}`: the merged rules have `false` at
`contact.phone.required`, keep `validation` of `phone` and the rule of `email`, and are the
default rules with `required: false` in the rule of `phone` and no other change. -/
theorem mergeDeep_override_witness :
    properProps (ownProps phoneOptional) = true ∧
      valueAt (mergeDeep (rulesToJS getDefaultMappingRules) phoneOptional)
          [lit "contact", lit "phone", lit "required"] = some (.bool false) ∧
      valueAt (mergeDeep (rulesToJS getDefaultMappingRules) phoneOptional)
          [lit "contact", lit "phone", lit "validation"] = some (.str (lit "phone")) ∧
      valueAt (mergeDeep (rulesToJS getDefaultMappingRules) phoneOptional)
          [lit "contact", lit "email"] =
        valueAt (rulesToJS getDefaultMappingRules) [lit "contact", lit "email"] ∧
      mergeDeep (rulesToJS getDefaultMappingRules) phoneOptional =
        rulesToJS rulesWithOptionalPhone :=
  ⟨rfl,
    (mergeDeep_override (rulesToJS getDefaultMappingRules) phoneOptional
      [lit "contact", lit "phone", lit "required"] rfl).1 _ rfl,
    ((mergeDeep_override (rulesToJS getDefaultMappingRules) phoneOptional
      [lit "contact", lit "phone", lit "validation"] rfl).2 rfl).trans rfl,
    (mergeDeep_override (rulesToJS getDefaultMappingRules) phoneOptional
      [lit "contact", lit "email"] rfl).2 rfl,
    rfl⟩

/-- Counterexample to C21 as written: the override `JSON.parse('{"__proto__": 5}')` defines
the leaf `5` at the path `__proto__`, but the merged rules have no property `__proto__`: they
are the default rules. -/
theorem mergeDeep_drops_proto_key :
    leafAt (ownProps protoOverride) [lit "__proto__"] = some (.num (.fin 5)) ∧
      valueAt (mergeDeep (rulesToJS getDefaultMappingRules) protoOverride) [lit "__proto__"] =
        none ∧
      mergeDeep (rulesToJS getDefaultMappingRules) protoOverride =
        rulesToJS getDefaultMappingRules :=
  ⟨rfl, rfl, rfl⟩

/-! ## Theorems: the outcomes of a field -/

/-- What `mapData` leaves for a field of the default rules, by the branch that the step of the
field takes: the candidate is processed and accepted, processed and rejected, missing and
required, missing with a default, or missing without one. -/
theorem mapData_field (rt : JSRuntime) (rawData : List (JSString × JSValue))
    (field : JSString) (rule : FieldRule) (res : MappingResult)
    (hk : getOwn (allFields getDefaultMappingRules) field = some rule)
    (hres : mapData rt rawData = .ok res) :
    ∃ cand, extractValue rawData rule.sources = .ok cand ∧
      (cand.isPresent = true → ∃ pr, processValue rt cand rule field = .ok pr ∧
        (pr.isValid = true → res.get field = some pr.value ∧
          ∀ e ∈ res.metadata.errors, e.field ≠ field) ∧
        (pr.isValid = false → res.get field = none ∧
          ∃ e ∈ res.metadata.errors, e.field = field ∧ e.value = some cand ∧
            e.errors = some pr.errors)) ∧
      (cand.isPresent = false → rule.required = true → res.get field = none ∧
        ∃ e ∈ res.metadata.errors, e.field = field ∧
          e.error = some (lit "Required field " ++ apostrophe ++ field ++ apostrophe ++
            lit " is missing")) ∧
      (cand.isPresent = false → rule.required = false → ∀ d, rule.default = some d →
        res.get field = some (.value d) ∧ ∀ e ∈ res.metadata.errors, e.field ≠ field) ∧
      (cand.isPresent = false → rule.required = false → rule.default = none →
        res.get field = none ∧ ∀ e ∈ res.metadata.errors, e.field ≠ field) := by
  unfold mapData mapDataWith at hres
  split at hres
  · cases hres
  · rename_i st hst
    cases hres
    obtain ⟨sta, stb, hstep, hsta, hstaerr, hget, herr, herrk, _⟩ :=
      processFields_field rt rawData _ _ _ defaultFields_nodup hk _ _ hst
    have hnone : getOwn sta.mappedData field = none := by simpa [getOwn] using hsta
    have hnoerr : ∀ x ∈ sta.errors, x.field ≠ field := by
      intro x hx hxf
      have := hstaerr x hx hxf
      cases this
    simp only [processField] at hstep
    cases hx : extractValue rawData rule.sources with
    | error e => rw [hx] at hstep; cases hstep
    | ok cand =>
      rw [hx] at hstep
      simp only at hstep
      refine ⟨cand, rfl, ?_, ?_, ?_, ?_⟩
      · intro hp
        rw [if_pos hp] at hstep
        cases hpv : processValue rt cand rule field with
        | error e => rw [hpv] at hstep; cases hstep
        | ok pr =>
          rw [hpv] at hstep
          simp only at hstep
          refine ⟨pr, rfl, ?_, ?_⟩
          · intro hv
            rw [if_pos hv] at hstep
            cases hstep
            refine ⟨?_, ?_⟩
            · simp only [MappingResult.get, hget, getOwn_setProp_self]
            · intro e he hef
              exact hnoerr e (herrk e he hef) hef
          · intro hv
            rw [if_neg (by simp [hv])] at hstep
            cases hstep
            refine ⟨?_, ?_⟩
            · simp only [MappingResult.get, hget]; exact hnone
            · exact ⟨_, herr _ (List.mem_append_right _ (List.mem_singleton_self _)), rfl, rfl,
                rfl⟩
      · intro hp hreq
        rw [if_neg (by simp [hp]), if_pos hreq] at hstep
        cases hstep
        refine ⟨?_, ?_⟩
        · simp only [MappingResult.get, hget]; exact hnone
        · exact ⟨_, herr _ (List.mem_append_right _ (List.mem_singleton_self _)), rfl, rfl⟩
      · intro hp hreq d hd
        rw [if_neg (by simp [hp]), if_neg (by simp [hreq]), hd] at hstep
        cases hstep
        refine ⟨?_, ?_⟩
        · simp only [MappingResult.get, hget, getOwn_setProp_self]
        · intro e he hef
          exact hnoerr e (herrk e he hef) hef
      · intro hp hreq hd
        rw [if_neg (by simp [hp]), if_neg (by simp [hreq]), hd] at hstep
        cases hstep
        refine ⟨?_, ?_⟩
        · simp only [MappingResult.get, hget]; exact hnone
        · intro e he hef
          exact hnoerr e (herrk e he hef) hef

theorem getOwn_eq_none_iff {V : Type} (l : List (JSString × V)) (k : JSString) :
    getOwn l k = none ↔ k ∉ l.map Prod.fst := by
  induction l with
  | nil => simp [getOwn]
  | cons p rest ih =>
    obtain ⟨pk, pv⟩ := p
    by_cases hpk : pk = k
    · subst hpk; simp [getOwn]
    · have hb : (pk == k) = false := by simpa using hpk
      simp only [getOwn, hb, List.map_cons, List.mem_cons, not_or, Bool.false_eq_true,
        if_false]
      rw [ih]
      constructor
      · intro h; exact ⟨fun hh => hpk hh.symm, h⟩
      · intro h; exact h.2

/-- The properties of the result of the loop are among the fields of the rules. -/
theorem mapData_keys (rt : JSRuntime) (rawData : List (JSString × JSValue))
    (res : MappingResult) (hres : mapData rt rawData = .ok res) (k : JSString)
    (hk : res.get k ≠ none) : k ∈ (allFields getDefaultMappingRules).map Prod.fst := by
  unfold mapData mapDataWith at hres
  split at hres
  · cases hres
  · rename_i st hst
    cases hres
    by_contra hnot
    apply hk
    have := processFields_getOwn_of_not_mem rt rawData (allFields getDefaultMappingRules) k
      (fun e he hek => hnot (hek ▸ List.mem_map_of_mem Prod.fst he)) _ _ hst
    simp only [MappingResult.get, this]
    rfl

/-- An emitted field is not named in an error entry. -/
theorem mapData_emitted_not_reported (rt : JSRuntime) (rawData : List (JSString × JSValue))
    (res : MappingResult) (hres : mapData rt rawData = .ok res) (k : JSString)
    (hk : res.get k ≠ none) : ∀ e ∈ res.metadata.errors, e.field ≠ k := by
  have hmem := mapData_keys rt rawData res hres k hk
  cases hr : getOwn (allFields getDefaultMappingRules) k with
  | none => exact absurd hmem ((getOwn_eq_none_iff _ _).1 hr)
  | some rule =>
    obtain ⟨cand, hx, h1, h2, h3, h4⟩ := mapData_field rt rawData k rule res hr hres
    cases hp : cand.isPresent with
    | true =>
      obtain ⟨pr, hpv, hv, hi⟩ := h1 hp
      cases hval : pr.isValid with
      | true => exact (hv hval).2
      | false => exact absurd (hi hval).1 hk
    | false =>
      cases hreq : rule.required with
      | true => exact absurd (h2 hp hreq).1 hk
      | false =>
        cases hd : rule.default with
        | none => exact (h4 hp hreq hd).2
        | some d => exact (h3 hp hreq d hd).2

/-- Claim C23: whenever `mapData` returns, for every field of the default rules exactly one
of the outcomes (a) to (d) holds: (a) a candidate was found, `processValue` accepted it, and
the field is emitted with the processed value; (b) no candidate, not required, a default, and
the field is emitted with the default; (c) an error entry names the field and the field is not
emitted; (d) no candidate, not required, no default, and the field is neither emitted nor
named in an error entry.  No emitted property is named in an error entry, `mappedFields` lists
exactly the emitted properties, and `isValid` is true exactly when `errors` is empty. -/
theorem mapData_field_outcome (rt : JSRuntime) (rawData : List (JSString × JSValue))
    (field : JSString) (rule : FieldRule) (res : MappingResult)
    (hk : getOwn (allFields getDefaultMappingRules) field = some rule)
    (hres : mapData rt rawData = .ok res) :
    (emittedProcessed rt rawData field rule res ∨ emittedDefault rawData field rule res ∨
        reportedError field res ∨ passedOver rawData field rule res) ∧
      ¬ (emittedProcessed rt rawData field rule res ∧ emittedDefault rawData field rule res) ∧
      ¬ (emittedProcessed rt rawData field rule res ∧ reportedError field res) ∧
      ¬ (emittedProcessed rt rawData field rule res ∧ passedOver rawData field rule res) ∧
      ¬ (emittedDefault rawData field rule res ∧ reportedError field res) ∧
      ¬ (emittedDefault rawData field rule res ∧ passedOver rawData field rule res) ∧
      ¬ (reportedError field res ∧ passedOver rawData field rule res) ∧
      (∀ k, res.get k ≠ none → ∀ e ∈ res.metadata.errors, e.field ≠ k) ∧
      res.metadata.mappedFields = res.fields.map Prod.fst ∧
      (∀ k, k ∈ res.metadata.mappedFields ↔ res.get k ≠ none) ∧
      (res.metadata.isValid = true ↔ res.metadata.errors = []) := by
  obtain ⟨cand, hx, h1, h2, h3, h4⟩ := mapData_field rt rawData field rule res hk hres
  have hcases : emittedProcessed rt rawData field rule res ∨
      emittedDefault rawData field rule res ∨ reportedError field res ∨
      passedOver rawData field rule res := by
    cases hp : cand.isPresent with
    | true =>
      obtain ⟨pr, hpv, hv, hi⟩ := h1 hp
      cases hval : pr.isValid with
      | true => exact Or.inl ⟨cand, pr, hx, hp, hpv, hval, (hv hval).1⟩
      | false =>
        obtain ⟨hn, e, he, hef, _⟩ := hi hval
        exact Or.inr (Or.inr (Or.inl ⟨⟨e, he, hef⟩, hn⟩))
    | false =>
      cases hreq : rule.required with
      | true =>
        obtain ⟨hn, e, he, hef, _⟩ := h2 hp hreq
        exact Or.inr (Or.inr (Or.inl ⟨⟨e, he, hef⟩, hn⟩))
      | false =>
        cases hd : rule.default with
        | none =>
          exact Or.inr (Or.inr (Or.inr ⟨cand, hx, hp, hreq, hd, (h4 hp hreq hd).1,
            (h4 hp hreq hd).2⟩))
        | some d => exact Or.inr (Or.inl ⟨cand, d, hx, hp, hreq, hd, (h3 hp hreq d hd).1⟩)
  have hmapped : res.metadata.mappedFields = res.fields.map Prod.fst := by
    have hmeta : res.get (lit "_metadata") = none := by
      by_contra hne
      have := mapData_keys rt rawData res hres _ hne
      revert this
      decide
    have hnot : lit "_metadata" ∉ res.fields.map Prod.fst := (getOwn_eq_none_iff _ _).1 hmeta
    have hfields : res.metadata.mappedFields =
        (res.fields.map Prod.fst).filter (fun k => k != lit "_metadata") := by
      unfold mapData mapDataWith at hres
      split at hres
      · cases hres
      · cases hres; rfl
    rw [hfields]
    apply List.filter_eq_self.2
    intro k hkm
    simp only [bne_iff_ne, ne_eq]
    intro hk2
    exact hnot (hk2 ▸ hkm)
  have hvalid : res.metadata.isValid = true ↔ res.metadata.errors = [] := by
    have : res.metadata.isValid = (res.metadata.errors.length == 0) := by
      unfold mapData mapDataWith at hres
      split at hres
      · cases hres
      · cases hres; rfl
    rw [this]
    simp
  refine ⟨hcases, ?_, ?_, ?_, ?_, ?_, ?_, ?_, hmapped, ?_, hvalid⟩
  · rintro ⟨⟨c1, pr, hx1, hp1, _⟩, ⟨c2, d, hx2, hp2, _⟩⟩
    rw [hx1] at hx2; cases hx2
    rw [hp1] at hp2; cases hp2
  · rintro ⟨⟨c1, pr, _, _, _, _, hg⟩, ⟨_, hn⟩⟩
    rw [hn] at hg; cases hg
  · rintro ⟨⟨c1, pr, hx1, hp1, _⟩, ⟨c2, hx2, hp2, _⟩⟩
    rw [hx1] at hx2; cases hx2
    rw [hp1] at hp2; cases hp2
  · rintro ⟨⟨c1, d, _, _, _, _, hg⟩, ⟨_, hn⟩⟩
    rw [hn] at hg; cases hg
  · rintro ⟨⟨c1, d, _, _, _, hd1, _⟩, ⟨c2, _, _, _, hd2, _⟩⟩
    rw [hd1] at hd2; cases hd2
  · rintro ⟨⟨⟨e, he, hef⟩, _⟩, ⟨c2, _, _, _, _, _, hno⟩⟩
    exact hno e he hef
  · exact fun k hk2 => mapData_emitted_not_reported rt rawData res hres k hk2
  · intro k
    rw [hmapped]
    constructor
    · intro hm hn
      exact (getOwn_eq_none_iff _ _).1 hn hm
    · intro hn
      by_contra hm
      exact hn ((getOwn_eq_none_iff _ _).2 hm)

/-- Witness of C23 on the record `{firstName: "John", phone: "5551234567",
email: "john@x.com"}` and the field `firstName`: `mapData` returns, and the outcome of the
field is (a). -/
theorem mapData_field_outcome_witness :
    ∃ res, mapData asciiRuntime johnRecord = .ok res ∧
      emittedProcessed asciiRuntime johnRecord (lit "firstName")
        { sources := [lit "firstName", lit "first_name", lit "fname", lit "given_name"],
          required := true, type := .string, maxLength := some 50 } res ∧
      (res.metadata.isValid = true ↔ res.metadata.errors = []) := by
  cases h : mapData asciiRuntime johnRecord with
  | error e =>
    have hok : (mapData asciiRuntime johnRecord).toBool = true := rfl
    rw [h] at hok
    cases hok
  | ok res =>
    obtain ⟨hcases, _, hnc, _, _, _, _, _, _, _, hvalid⟩ :=
      mapData_field_outcome asciiRuntime johnRecord (lit "firstName")
        { sources := [lit "firstName", lit "first_name", lit "fname", lit "given_name"],
          required := true, type := .string, maxLength := some 50 } res rfl h
    refine ⟨res, rfl, ?_, hvalid⟩
    rcases hcases with ha | hb | hc | hd
    · exact ha
    · obtain ⟨cand, d, hx, hp, _⟩ := hb
      have hx2 : extractValue johnRecord
          [lit "firstName", lit "first_name", lit "fname", lit "given_name"] =
          .ok (.str (lit "John")) := rfl
      rw [hx2] at hx
      cases hx
      cases hp
    · obtain ⟨_, hn⟩ := hc
      have hg : (mapData asciiRuntime johnRecord).map (fun r => (r.get (lit "firstName")).isSome)
          = .ok true := rfl
      rw [h] at hg
      simp only [Except.map, Except.ok.injEq] at hg
      rw [hn] at hg
      cases hg
    · obtain ⟨cand, hx, hp, _⟩ := hd
      have hx2 : extractValue johnRecord
          [lit "firstName", lit "first_name", lit "fname", lit "given_name"] =
          .ok (.str (lit "John")) := rfl
      rw [hx2] at hx
      cases hx
      cases hp

/-! ## Theorems: the range of `leadScore` -/

/-- The result of `processValue` on a number with a rule of type `number` that has both bounds
and nothing else. -/
theorem processValue_number (rt : JSRuntime) (rule : FieldRule) (field : JSString) (q lo hi : ℚ)
    (ht : rule.type = .number) (hm : rule.maxLength = none) (hmin : rule.min = some lo)
    (hmax : rule.max = some hi) (ho : rule.options = none) (hv : rule.validation = none)
    (htr : rule.transformation = none) :
    processValue rt (.num (.fin q)) rule field =
      .ok (if q < lo then
          { isValid := false, value := .value (.num (.fin q)),
            errors := [lit "Field " ++ apostrophe ++ field ++ apostrophe ++
              lit " must be at least " ++ rt.numberToString (.fin lo)],
            warnings := [] }
        else if hi < q then
          { isValid := false, value := .value (.num (.fin q)),
            errors := [lit "Field " ++ apostrophe ++ field ++ apostrophe ++
              lit " must be at most " ++ rt.numberToString (.fin hi)],
            warnings := [] }
        else { isValid := true, value := .value (.num (.fin q)), errors := [], warnings := [] }) := by
  by_cases h1 : q < lo
  · simp [processValue, typeConversion, JSValue.isNumber, ht, Stage.andThen, lengthValidation,
      hm, rangeValidation, hmin, hmax, JSNumber.lt, h1]
  · by_cases h2 : hi < q
    · simp [processValue, typeConversion, JSValue.isNumber, ht, Stage.andThen, lengthValidation,
        hm, rangeValidation, hmin, hmax, JSNumber.lt, h1, h2]
    · simp [processValue, typeConversion, JSValue.isNumber, ht, Stage.andThen, lengthValidation,
        hm, rangeValidation, hmin, hmax, JSNumber.lt, h1, h2, optionsValidation, ho,
        patternValidation, hv, transformAndClean, htr]

/-- The result of `processValue` on a string with a rule of type `number`: the string is
parsed, and the parsed number is processed; a string that does not parse is rejected. -/
theorem processValue_numeric_string (rt : JSRuntime) (rule : FieldRule) (field : JSString)
    (s : JSString) (ht : rule.type = .number) :
    (rt.parseFloat s = .nan →
      processValue rt (.str s) rule field =
        .ok { isValid := false, value := .value (.str s),
              errors := [lit "Invalid number format for field " ++ apostrophe ++ field ++
                apostrophe],
              warnings := [] }) ∧
    (∀ q, rt.parseFloat s = .fin q →
      processValue rt (.str s) rule field = processValue rt (.num (.fin q)) rule field) := by
  constructor
  · intro hp
    simp [processValue, typeConversion, JSValue.isNumber, ht, Stage.andThen, toStringJS, hp]
  · intro q hp
    simp [processValue, typeConversion, JSValue.isNumber, ht, Stage.andThen, toStringJS, hp]

/-- Claim C24: for every integer `v` and every `leadScore` candidate that is the number `v`
or a non-empty string that `parseFloat` reads as `v`, `processValue` with the default rule of
`leadScore` returns a result that is valid exactly when `0 ≤ v ≤ 100`, and a valid result has
the number `v` as value and no error; whenever `mapData` returns for a record with that
candidate, it emits `leadScore = v` with no error entry exactly when `0 ≤ v ≤ 100`, and
otherwise records an error entry and omits `leadScore`; and for a candidate string that
`parseFloat` reads as `NaN`, it records the error `Invalid number format for field
'leadScore'` and omits `leadScore`. -/
theorem mapData_leadScore (rt : JSRuntime) (v : ℤ) (cand : JSValue)
    (hc : cand = .num (.fin v) ∨ ∃ s, s ≠ [] ∧ cand = .str s ∧ rt.parseFloat s = .fin v) :
    (∃ pr, processValue rt cand
          { sources := [lit "leadScore", lit "lead_score", lit "score"],
            required := false, type := .number, min := some 0, max := some 100 }
          (lit "leadScore") = .ok pr ∧
        (pr.isValid = true ↔ 0 ≤ v ∧ v ≤ 100) ∧
        (pr.isValid = true →
          pr.value = .value (.num (.fin v)) ∧ pr.errors = [] ∧ pr.warnings = []) ∧
        (pr.isValid = false → pr.errors.length = 1)) ∧
      (∀ (rawData : List (JSString × JSValue)) (res : MappingResult),
        extractValue rawData [lit "leadScore", lit "lead_score", lit "score"] = .ok cand →
        mapData rt rawData = .ok res →
        ((res.get (lit "leadScore") = some (.value (.num (.fin v))) ∧
            ∀ e ∈ res.metadata.errors, e.field ≠ lit "leadScore") ↔ (0 ≤ v ∧ v ≤ 100)) ∧
          (¬ (0 ≤ v ∧ v ≤ 100) → res.get (lit "leadScore") = none ∧
            ∃ e ∈ res.metadata.errors, e.field = lit "leadScore")) ∧
      (∀ (s : JSString), s ≠ [] → rt.parseFloat s = .nan →
        ∀ (rawData : List (JSString × JSValue)) (res : MappingResult),
          extractValue rawData [lit "leadScore", lit "lead_score", lit "score"] =
            .ok (.str s) →
          mapData rt rawData = .ok res →
          res.get (lit "leadScore") = none ∧
            ∃ e ∈ res.metadata.errors, e.field = lit "leadScore" ∧
              e.errors = some [lit "Invalid number format for field " ++ apostrophe ++
                lit "leadScore" ++ apostrophe]) := by
  have hnum := processValue_number rt
    { sources := [lit "leadScore", lit "lead_score", lit "score"],
      required := false, type := .number, min := some 0, max := some 100 }
    (lit "leadScore") (v : ℚ) 0 100 rfl rfl rfl rfl rfl rfl rfl
  have hstr := fun s => processValue_numeric_string rt
    { sources := [lit "leadScore", lit "lead_score", lit "score"],
      required := false, type := .number, min := some 0, max := some 100 }
    (lit "leadScore") s rfl
  have hpv : processValue rt cand
      { sources := [lit "leadScore", lit "lead_score", lit "score"],
        required := false, type := .number, min := some 0, max := some 100 }
      (lit "leadScore") = processValue rt (.num (.fin (v : ℚ)))
      { sources := [lit "leadScore", lit "lead_score", lit "score"],
        required := false, type := .number, min := some 0, max := some 100 }
      (lit "leadScore") := by
    rcases hc with hc | ⟨s, _, hc, hp⟩
    · rw [hc]
    · rw [hc]; exact (hstr s).2 _ hp
  have hpres : cand.isPresent = true := by
    rcases hc with hc | ⟨s, hs, hc, _⟩
    · rw [hc]; rfl
    · rw [hc]
      cases s with
      | nil => exact absurd rfl hs
      | cons a t => rfl
  have hlo : ((v : ℚ) < 0) ↔ v < 0 := by exact_mod_cast Iff.rfl
  have hhi : ((100 : ℚ) < (v : ℚ)) ↔ 100 < v := by exact_mod_cast Iff.rfl
  have hprop : ∃ pr, processValue rt cand
        { sources := [lit "leadScore", lit "lead_score", lit "score"],
          required := false, type := .number, min := some 0, max := some 100 }
        (lit "leadScore") = .ok pr ∧
      (pr.isValid = true ↔ 0 ≤ v ∧ v ≤ 100) ∧
      (pr.isValid = true →
        pr.value = .value (.num (.fin v)) ∧ pr.errors = [] ∧ pr.warnings = []) ∧
      (pr.isValid = false → pr.errors.length = 1) := by
    rw [hpv, hnum]
    refine ⟨_, rfl, ?_, ?_, ?_⟩
    · split_ifs with h1 h2
      · simp only [Bool.false_eq_true, false_iff, not_and, not_le]
        intro h0; have := hlo.1 h1; omega
      · simp only [Bool.false_eq_true, false_iff, not_and, not_le]
        intro _; exact hhi.1 h2
      · simp only [true_iff]
        constructor
        · by_contra hneg; exact h1 (hlo.2 (by omega))
        · by_contra hneg; exact h2 (hhi.2 (by omega))
    · split_ifs with h1 h2
      · intro hh; cases hh
      · intro hh; cases hh
      · intro _; exact ⟨rfl, rfl, rfl⟩
    · split_ifs with h1 h2
      · intro _; rfl
      · intro _; rfl
      · intro hh; cases hh
  refine ⟨hprop, ?_, ?_⟩
  · intro rawData res hx hres
    obtain ⟨pr, hpr, hiff, hval, _⟩ := hprop
    obtain ⟨cand2, hx2, h1, _⟩ := mapData_field rt rawData (lit "leadScore")
      { sources := [lit "leadScore", lit "lead_score", lit "score"],
        required := false, type := .number, min := some 0, max := some 100 } res rfl hres
    have hx3 : extractValue rawData [lit "leadScore", lit "lead_score", lit "score"] =
        .ok cand2 := hx2
    rw [hx] at hx3
    cases hx3
    obtain ⟨pr2, hpr2, hv, hi⟩ := h1 hpres
    rw [hpr] at hpr2
    cases hpr2
    constructor
    · constructor
      · rintro ⟨hget, _⟩
        by_contra hnot
        have hinv : pr.isValid = false := by
          cases hb : pr.isValid with
          | true => exact absurd (hiff.1 hb) hnot
          | false => rfl
        rw [(hi hinv).1] at hget
        cases hget
      · intro hin
        have hb := hiff.2 hin
        obtain ⟨hg, hne⟩ := hv hb
        rw [(hval hb).1] at hg
        exact ⟨hg, hne⟩
    · intro hnot
      have hinv : pr.isValid = false := by
        cases hb : pr.isValid with
        | true => exact absurd (hiff.1 hb) hnot
        | false => rfl
      obtain ⟨hn, e, he, hef, _⟩ := hi hinv
      exact ⟨hn, e, he, hef⟩
  · intro s hs hnan rawData res hx hres
    obtain ⟨cand2, hx2, h1, _⟩ := mapData_field rt rawData (lit "leadScore")
      { sources := [lit "leadScore", lit "lead_score", lit "score"],
        required := false, type := .number, min := some 0, max := some 100 } res rfl hres
    have hx3 : extractValue rawData [lit "leadScore", lit "lead_score", lit "score"] =
        .ok cand2 := hx2
    rw [hx] at hx3
    cases hx3
    have hpres2 : (JSValue.str s).isPresent = true := by
      cases s with
      | nil => exact absurd rfl hs
      | cons a t => rfl
    obtain ⟨pr2, hpr2, _, hi⟩ := h1 hpres2
    rw [(hstr s).1 hnan] at hpr2
    cases hpr2
    obtain ⟨hn, e, he, hef, _, hee⟩ := hi rfl
    exact ⟨hn, e, he, hef, hee⟩

/-- Witness of C24 on a record whose `leadScore` is the number 0: `mapData` returns and emits
`leadScore = 0` with no error entry for it. -/
theorem mapData_leadScore_witness :
    JSValue.num (.fin 0) = .num (.fin ((0 : ℤ) : ℚ)) ∧
      ∃ res, mapData asciiRuntime zeroScoreRecord = .ok res ∧
        res.get (lit "leadScore") = some (.value (.num (.fin 0))) ∧
        ∀ e ∈ res.metadata.errors, e.field ≠ lit "leadScore" := by
  have h0 : ((0 : ℤ) : ℚ) = 0 := Int.cast_zero
  refine ⟨by rw [h0], ?_⟩
  obtain ⟨_, hmap, _⟩ := mapData_leadScore asciiRuntime 0 (.num (.fin ((0 : ℤ) : ℚ)))
    (Or.inl rfl)
  cases h : mapData asciiRuntime zeroScoreRecord with
  | error e =>
    have hok : (mapData asciiRuntime zeroScoreRecord).toBool = true := rfl
    rw [h] at hok
    cases hok
  | ok res =>
    have hx : extractValue zeroScoreRecord [lit "leadScore", lit "lead_score", lit "score"] =
        .ok (.num (.fin ((0 : ℤ) : ℚ))) := by
      rw [h0]
      rfl
    obtain ⟨hiff, _⟩ := hmap zeroScoreRecord res hx h
    have := hiff.2 ⟨le_refl _, by decide⟩
    rw [h0] at this
    exact ⟨res, rfl, this.1, this.2⟩

/-! ## Theorems: the relay and the options of the constructor -/

/-- A string with a hyphen does not pass the phone pattern. -/
theorem phonePattern_hyphen (s : JSString) (h : 45 ∈ s) : phonePattern s = false := by
  cases hp : phonePattern s with
  | false => rfl
  | true =>
    obtain ⟨ds, hs, _, _, hd, _⟩ := (phonePattern_iff s).1 hp
    have h45 : 45 ∈ ds := by
      rcases hs with hs | hs
      · rw [hs] at h; exact h
      · rw [hs] at h
        rcases List.mem_cons.1 h with h | h
        · cases h
        · exact h
    have := hd 45 h45
    revert this
    decide

/-- The default rule of `phone` rejects a string that does not pass the phone pattern. -/
theorem processValue_phone_rejected (rt : JSRuntime) (s : JSString)
    (hp : phonePattern s = false) :
    processValue rt (.str s)
        { sources := [lit "phone", lit "phoneNumber", lit "phone_number", lit "mobile",
            lit "cell", lit "telephone"],
          required := true, type := .phone, validation := some .phone }
        (lit "phone") =
      .ok { isValid := false, value := .value (.str s),
            errors := [lit "Invalid phone number format"], warnings := [] } := by
  simp [processValue, typeConversion, lengthValidation, rangeValidation, optionsValidation,
    patternValidation, Stage.andThen, getValidationRules, toStringJS, Except.map, hp]

/-- Claim C25, where the code departs from it: the default rule of `phone` rejects every
string with a hyphen; for the record of `testBasicWebhook` (a well-formed email, the phone
`555-123-4567`, which `formatPhoneNumber` would write as `(555) 123-4567`) `mapData` returns
a result that is not valid, with the one error `Invalid phone number format` for `phone`, and
the relay answers the request with status 422 and no `success`. -/
theorem handleWebhook_rejects_hyphenated_phone :
    (∀ (rt : JSRuntime) (s : JSString), 45 ∈ s →
      processValue rt (.str s)
          { sources := [lit "phone", lit "phoneNumber", lit "phone_number", lit "mobile",
              lit "cell", lit "telephone"],
            required := true, type := .phone, validation := some .phone }
          (lit "phone") =
        .ok { isValid := false, value := .value (.str s),
              errors := [lit "Invalid phone number format"], warnings := [] }) ∧
      emailPattern (lit "john.smith@example.com") = true ∧
      phonePattern (lit "555-123-4567") = false ∧
      formatPhoneNumber (lit "555-123-4567") = lit "(555) 123-4567" ∧
      (∃ res, mapData asciiRuntime basicTestData = .ok res ∧
        res.metadata.isValid = false ∧
        res.metadata.errors.map (fun e => (e.field, e.errors)) =
          [(lit "phone", some [lit "Invalid phone number format"])]) ∧
      handleWebhook asciiRuntime basicTestData (lit "test") (lit "2025-01-01T00:00:00.000Z")
        (lit "req_1") = { status := 422, success := none } :=
  ⟨fun rt s h => processValue_phone_rejected rt s (phonePattern_hyphen s h), by decide,
    by decide, by decide, ⟨_, rfl, rfl, rfl⟩, rfl⟩

/-- The numbers of a constructed engine are the numbers that the constructor stores for the
numeric options of its argument. -/
theorem new_numbers (options : ConstructorOptions) :
    (WebhookErrorHandler.new options).numbers = storedNumbers options.numeric := by
  have hnat : ∀ (x : Option Nat) (d : Nat),
      JSNumber.fin ((orDefault x d : Nat) : ℚ) =
        orNumber (x.map (fun n => JSNumber.fin (n : ℚ))) (d : ℚ) := by
    intro x d
    cases x with
    | none => rfl
    | some v =>
      by_cases hv : v = 0
      · simp [orDefault, orNumber, hv]
      · simp [orDefault, orNumber, hv]
  have hrat : ∀ (x : Option ℚ) (d : ℚ),
      JSNumber.fin (orDefault x d) = orNumber (x.map JSNumber.fin) d := by
    intro x d
    cases x with
    | none => rfl
    | some v =>
      by_cases hv : v = 0
      · simp [orDefault, orNumber, hv]
      · simp [orDefault, orNumber, hv]
  simp only [WebhookErrorHandler.numbers, storedNumbers, ConstructorOptions.numeric,
    WebhookErrorHandler.new]
  have h1 := hnat options.maxRetries 3
  have h2 := hrat options.baseDelay 1000
  have h3 := hrat options.maxDelay 30000
  have h4 := hrat options.exponentialBase 2
  have h5 := hrat options.jitterRange (1 / 10)
  have h6 := hnat options.circuitBreakerThreshold 5
  have h7 := hnat options.circuitBreakerTimeout 60000
  simp only [Nat.cast_ofNat] at h1 h6 h7
  rw [h1, h2, h3, h4, h5, h6, h7]

/-- The expression `option || fallback` does what the amended claim says of an option. -/
theorem orNumber_stores (supplied : Option JSNumber) (fallback : ℚ) :
    StoresOption supplied fallback (orNumber supplied fallback) := by
  constructor
  · intro v hv hnan hzero
    subst hv
    cases v with
    | nan => exact absurd rfl hnan
    | inf negative => rfl
    | fin q =>
      have hq : q ≠ 0 := fun h0 => hzero (by rw [h0])
      simp [orNumber, hq]
  · rintro (h | h | h) <;> subst h <;> simp [orNumber]

/-- Claim C27, amended: for every argument of the constructor, whatever numbers it holds, the
constructor stores each numeric option that is supplied with a number other than `NaN` and
zero (negative numbers, fractions and the infinities included), and stores the default of each
numeric option that is absent, `NaN` or zero: `maxRetries` 3, `baseDelay` 1000, `maxDelay`
30000, `exponentialBase` 2, `jitterRange` 0.1, breaker threshold 5 and cooldown 60000.  The
engine of the model, constructed from natural and finite numbers, holds these stored numbers;
it has the default list of retryable errors unless a list is supplied, logging and metrics
unless `false` is supplied, and the fallback queue only when `true` is supplied; and the
engine constructed with no options has all the defaults. -/
theorem constructor_options (supplied : NumericOptions) (options : ConstructorOptions) :
    StoresOption supplied.maxRetries 3 (storedNumbers supplied).maxRetries ∧
      StoresOption supplied.baseDelay 1000 (storedNumbers supplied).baseDelay ∧
      StoresOption supplied.maxDelay 30000 (storedNumbers supplied).maxDelay ∧
      StoresOption supplied.exponentialBase 2 (storedNumbers supplied).exponentialBase ∧
      StoresOption supplied.jitterRange (1 / 10) (storedNumbers supplied).jitterRange ∧
      StoresOption supplied.circuitBreakerThreshold 5 (storedNumbers supplied).threshold ∧
      StoresOption supplied.circuitBreakerTimeout 60000 (storedNumbers supplied).timeout ∧
      (WebhookErrorHandler.new options).numbers = storedNumbers options.numeric ∧
      (WebhookErrorHandler.new options).options.retryableErrors =
        options.retryableErrors.getD defaultRetryableErrors ∧
      (WebhookErrorHandler.new options).options.enableLogging =
        options.enableLogging.getD true ∧
      (WebhookErrorHandler.new options).options.enableMetrics =
        options.enableMetrics.getD true ∧
      (WebhookErrorHandler.new options).options.fallbackQueue =
        options.fallbackQueue.getD false ∧
      (WebhookErrorHandler.new {}).options.maxRetries = 3 ∧
      (WebhookErrorHandler.new {}).options.baseDelay = 1000 ∧
      (WebhookErrorHandler.new {}).options.maxDelay = 30000 ∧
      (WebhookErrorHandler.new {}).options.exponentialBase = 2 ∧
      (WebhookErrorHandler.new {}).options.jitterRange = 1 / 10 ∧
      (WebhookErrorHandler.new {}).circuitBreaker.threshold = 5 ∧
      (WebhookErrorHandler.new {}).circuitBreaker.timeout = 60000 := by
  refine ⟨orNumber_stores _ _, orNumber_stores _ _, orNumber_stores _ _, orNumber_stores _ _,
    orNumber_stores _ _, orNumber_stores _ _, orNumber_stores _ _, new_numbers options, rfl,
    ?_, ?_, rfl, rfl, rfl, rfl, rfl, rfl, rfl, rfl⟩
  · cases h : options.enableLogging with
    | none => simp [WebhookErrorHandler.new, h]
    | some b => cases b <;> simp [WebhookErrorHandler.new, h]
  · cases h : options.enableMetrics with
    | none => simp [WebhookErrorHandler.new, h]
    | some b => cases b <;> simp [WebhookErrorHandler.new, h]

/-- Witness of C27 as amended on the argument `{maxRetries: 5, baseDelay: NaN, maxDelay: -1,
exponentialBase: 0.5, jitterRange: 0, circuitBreakerTimeout: Infinity}`: the constructor stores
5, the default 1000, -1, 0.5, the default 0.1, the default threshold 5 and `Infinity`. -/
theorem constructor_options_witness :
    mixedOptions.maxRetries = some (.fin 5) ∧ mixedOptions.baseDelay = some .nan ∧
      mixedOptions.maxDelay = some (.fin (-1)) ∧
      mixedOptions.exponentialBase = some (.fin (1 / 2)) ∧
      mixedOptions.jitterRange = some (.fin 0) ∧
      mixedOptions.circuitBreakerThreshold = none ∧
      mixedOptions.circuitBreakerTimeout = some (.inf false) ∧
      (storedNumbers mixedOptions).maxRetries = .fin 5 ∧
      (storedNumbers mixedOptions).baseDelay = .fin 1000 ∧
      (storedNumbers mixedOptions).maxDelay = .fin (-1) ∧
      (storedNumbers mixedOptions).exponentialBase = .fin (1 / 2) ∧
      (storedNumbers mixedOptions).jitterRange = .fin (1 / 10) ∧
      (storedNumbers mixedOptions).threshold = .fin 5 ∧
      (storedNumbers mixedOptions).timeout = .inf false := by
  obtain ⟨h1, h2, h3, h4, h5, h6, h7, _⟩ := constructor_options mixedOptions {}
  refine ⟨rfl, rfl, rfl, rfl, rfl, rfl, rfl, h1.1 _ rfl (by simp) (by norm_num),
    h2.2 (Or.inr (Or.inl rfl)), h3.1 _ rfl (by simp) (by norm_num),
    h4.1 _ rfl (by simp) (by norm_num), h5.2 (Or.inr (Or.inr rfl)), h6.2 (Or.inl rfl),
    h7.1 _ rfl (by simp) (by simp)⟩

/-- Counterexample to C27 as written: with the options `{maxRetries: 0, jitterRange: 0}`
the engine has `maxRetries` 3 and `jitterRange` 0.1, and a call whose deliveries all raise a
500 error makes four attempts. -/
theorem constructor_zero_options :
    noRetriesNoJitter.maxRetries = some 0 ∧ noRetriesNoJitter.jitterRange = some 0 ∧
      (WebhookErrorHandler.new noRetriesNoJitter).options.maxRetries = 3 ∧
      (WebhookErrorHandler.new noRetriesNoJitter).options.jitterRange = 1 / 10 ∧
      (executeWithRetry (WebhookErrorHandler.new noRetriesNoJitter) (alwaysRaising serverError)
        .null).invocations.length = 4 := by
  refine ⟨rfl, rfl, rfl, ?_, rfl⟩
  simp [WebhookErrorHandler.new, noRetriesNoJitter, orDefault]

/-! ## Theorems: the metrics -/

/-- The counters after the loop: `totalRequests` is the one at the entry, and either the
delivery succeeded (one more success, at most one more retried request) or it failed (one more
failure). -/
theorem retryLoop_metrics (env : Env) (payload : JSValue) (opts : Options)
    (hok : ∀ i e, env.deliveryFn i = .reject e → ∃ a, analyzeError opts e = .ok a) :
    ∀ (fuel : Nat) (h : WebhookErrorHandler) (attempt : Nat) (lastError : Option Thrown)
      (invs : List Invocation),
      h.options = opts → attempt ≤ opts.maxRetries + 1 → opts.maxRetries + 2 ≤ fuel + attempt →
      (retryLoop env payload fuel h attempt lastError invs).handler.metrics.totalRequests =
          h.metrics.totalRequests ∧
        (((retryLoop env payload fuel h attempt lastError invs).handler.metrics.successfulRequests
              = h.metrics.successfulRequests + 1 ∧
            (retryLoop env payload fuel h attempt lastError invs).handler.metrics.failedRequests
              = h.metrics.failedRequests ∧
            (retryLoop env payload fuel h attempt lastError invs).handler.metrics.retriedRequests
              ≤ h.metrics.retriedRequests + 1) ∨
          ((retryLoop env payload fuel h attempt lastError invs).handler.metrics.successfulRequests
              = h.metrics.successfulRequests ∧
            (retryLoop env payload fuel h attempt lastError invs).handler.metrics.failedRequests
              = h.metrics.failedRequests + 1 ∧
            (retryLoop env payload fuel h attempt lastError invs).handler.metrics.retriedRequests
              = h.metrics.retriedRequests)) := by
  intro fuel
  induction fuel with
  | zero =>
    intro h attempt lastError invs hopts hle hfuel
    omega
  | succ fuel ih =>
    intro h attempt lastError invs hopts hle hfuel
    by_cases hg : attempt ≤ h.options.maxRetries
    · cases hd : env.deliveryFn attempt with
      | resolve d =>
        rw [retryLoop_success env payload fuel h attempt lastError invs d hg hd]
        by_cases h0 : attempt > 0
        · simp [h0]
        · simp [h0]
      | reject e =>
        obtain ⟨a, ha⟩ := hok attempt e hd
        rw [← hopts] at ha
        by_cases hbreak : a.retryable = false ∨ attempt = h.options.maxRetries
        · rw [retryLoop_break env payload fuel h attempt lastError invs e a hg hd ha hbreak]
          simp
        · have hr : a.retryable = true := by
            cases hb : a.retryable
            · exact absurd (Or.inl hb) hbreak
            · rfl
          have hlt : attempt + 1 ≤ h.options.maxRetries := by
            have : attempt ≠ h.options.maxRetries := fun hh => hbreak (Or.inr hh)
            omega
          rw [retryLoop_retry env payload fuel h attempt lastError invs e a hlt hd ha hr]
          have := ih (afterRetriedFailure h (env.failTime attempt) a.type) (attempt + 1) (some e)
            (invs ++ [invocationOf h attempt]) (by simp [hopts]) (by rw [← hopts]; omega)
            (by omega)
          simpa using this
    · simp only [retryLoop, hg, if_false]
      simp

/-- The counters after a call of `executeWithRetry` with a delivery function that raises
errors: a short-circuited call leaves them, and every other call adds one to `totalRequests`
and one to either `successfulRequests` or `failedRequests`. -/
theorem executeWithRetry_metrics (h : WebhookErrorHandler) (env : Env) (payload : JSValue)
    (herr : raisesErrors env) :
    (shortCircuited h env → (executeWithRetry h env payload).handler.metrics = h.metrics) ∧
    (¬ shortCircuited h env →
      (executeWithRetry h env payload).handler.metrics.totalRequests =
          h.metrics.totalRequests + 1 ∧
        (((executeWithRetry h env payload).handler.metrics.successfulRequests
              = h.metrics.successfulRequests + 1 ∧
            (executeWithRetry h env payload).handler.metrics.failedRequests
              = h.metrics.failedRequests ∧
            (executeWithRetry h env payload).handler.metrics.retriedRequests
              ≤ h.metrics.retriedRequests + 1) ∨
          ((executeWithRetry h env payload).handler.metrics.successfulRequests
              = h.metrics.successfulRequests ∧
            (executeWithRetry h env payload).handler.metrics.failedRequests
              = h.metrics.failedRequests + 1 ∧
            (executeWithRetry h env payload).handler.metrics.retriedRequests
              = h.metrics.retriedRequests))) := by
  have hok : ∀ (opts : Options) i e, env.deliveryFn i = .reject e →
      ∃ a, analyzeError opts e = .ok a := by
    intro opts i e hd
    obtain ⟨name, message, response, type, he⟩ := herr i e hd
    rw [he]
    exact analyzeError_of_message opts name message response type
  constructor
  · rintro ⟨hopen, hlt⟩
    simp only [executeWithRetry, hopen, if_true, hlt]
  · intro hns
    simp only [shortCircuited, not_and] at hns
    simp only [executeWithRetry]
    split_ifs with hopen hlt
    · exact absurd hlt (hns hopen)
    · have := retryLoop_metrics env payload (resetCircuitBreaker h).options
        (hok _) ((resetCircuitBreaker h).options.maxRetries + 2)
        { resetCircuitBreaker h with metrics := { (resetCircuitBreaker h).metrics with
            totalRequests := (resetCircuitBreaker h).metrics.totalRequests + 1 } }
        0 none [] rfl (by omega) (by omega)
      simpa using this
    · have := retryLoop_metrics env payload h.options
        (hok _) (h.options.maxRetries + 2)
        { h with metrics := { h.metrics with totalRequests := h.metrics.totalRequests + 1 } }
        0 none [] rfl (by omega) (by omega)
      simpa using this

/-- The relation between the counters is kept by every operation. -/
theorem applyOps_metrics (ops : List EngineOp) :
    ∀ (h : WebhookErrorHandler),
      (∀ env payload, EngineOp.call env payload ∈ ops → raisesErrors env) →
      h.metrics.totalRequests = h.metrics.successfulRequests + h.metrics.failedRequests →
      h.metrics.retriedRequests ≤ h.metrics.successfulRequests →
      (applyOps h ops).metrics.totalRequests =
          (applyOps h ops).metrics.successfulRequests + (applyOps h ops).metrics.failedRequests ∧
        (applyOps h ops).metrics.retriedRequests ≤ (applyOps h ops).metrics.successfulRequests := by
  induction ops with
  | nil => intro h _ h1 h2; exact ⟨h1, h2⟩
  | cons op rest ih =>
    intro h hops h1 h2
    cases op with
    | resetMetrics =>
      simp only [applyOps]
      exact ih _ (fun env payload hm => hops env payload (List.mem_cons_of_mem _ hm)) rfl
        (le_refl _)
    | call env payload =>
      simp only [applyOps]
      have herr := hops env payload (List.mem_cons_self _ _)
      obtain ⟨hs, hn⟩ := executeWithRetry_metrics h env payload herr
      apply ih _ (fun env payload hm => hops env payload (List.mem_cons_of_mem _ hm))
      · by_cases hsc : shortCircuited h env
        · rw [hs hsc]; exact h1
        · obtain ⟨ht, hcase⟩ := hn hsc
          rcases hcase with ⟨a, b, _⟩ | ⟨a, b, _⟩ <;> omega
      · by_cases hsc : shortCircuited h env
        · rw [hs hsc]; exact h2
        · obtain ⟨ht, hcase⟩ := hn hsc
          rcases hcase with ⟨a, b, c⟩ | ⟨a, b, c⟩ <;> omega

/-- Claim C29: for every engine that is used sequentially with delivery functions that raise
errors (objects with a string `message`), after every sequence of calls of `executeWithRetry`
and of `resetMetrics` since the construction, `totalRequests = successfulRequests +
failedRequests` and `retriedRequests ≤ successfulRequests`; every such call returns; a call
that is short-circuited leaves the counters and returns `CIRCUIT_BREAKER_OPEN`; and every
other call adds exactly 1 to `totalRequests`. -/
theorem metrics_invariant (o : ConstructorOptions) (ops : List EngineOp)
    (hops : ∀ env payload, EngineOp.call env payload ∈ ops → raisesErrors env) :
    (applyOps (WebhookErrorHandler.new o) ops).metrics.totalRequests =
        (applyOps (WebhookErrorHandler.new o) ops).metrics.successfulRequests +
          (applyOps (WebhookErrorHandler.new o) ops).metrics.failedRequests ∧
      (applyOps (WebhookErrorHandler.new o) ops).metrics.retriedRequests ≤
        (applyOps (WebhookErrorHandler.new o) ops).metrics.successfulRequests ∧
      ∀ (h : WebhookErrorHandler) (env : Env) (payload : JSValue), raisesErrors env →
        (∃ res, (executeWithRetry h env payload).completion = .returned res) ∧
        (shortCircuited h env →
          (executeWithRetry h env payload).handler.metrics = h.metrics ∧
            (executeWithRetry h env payload).errorType = some (lit "CIRCUIT_BREAKER_OPEN")) ∧
        (¬ shortCircuited h env →
          (executeWithRetry h env payload).handler.metrics.totalRequests =
            h.metrics.totalRequests + 1) := by
  obtain ⟨h1, h2⟩ := applyOps_metrics ops (WebhookErrorHandler.new o) hops rfl (le_refl _)
  refine ⟨h1, h2, ?_⟩
  intro h env payload herr
  obtain ⟨hs, hn⟩ := executeWithRetry_metrics h env payload herr
  refine ⟨?_, ?_, fun hsc => (hn hsc).1⟩
  · have hok : ∀ (opts : Options) i e, env.deliveryFn i = .reject e →
        ∃ a, analyzeError opts e = .ok a := by
      intro opts i e hd
      obtain ⟨name, message, response, type, he⟩ := herr i e hd
      rw [he]
      exact analyzeError_of_message opts name message response type
    simp only [executeWithRetry]
    split_ifs
    · exact ⟨_, rfl⟩
    · obtain ⟨res, hres, _⟩ := retryLoop_returns env payload (resetCircuitBreaker h).options
        (hok _) ((resetCircuitBreaker h).options.maxRetries + 2)
        { resetCircuitBreaker h with metrics := { (resetCircuitBreaker h).metrics with
            totalRequests := (resetCircuitBreaker h).metrics.totalRequests + 1 } }
        0 none [] rfl (by omega) (by omega)
      exact ⟨res, hres⟩
    · obtain ⟨res, hres, _⟩ := retryLoop_returns env payload h.options
        (hok _) (h.options.maxRetries + 2)
        { h with metrics := { h.metrics with totalRequests := h.metrics.totalRequests + 1 } }
        0 none [] rfl (by omega) (by omega)
      exact ⟨res, hres⟩
  · intro hsc
    refine ⟨hs hsc, ?_⟩
    obtain ⟨hopen, hlt⟩ := hsc
    simp only [executeWithRetry, hopen, if_true, hlt]
    rfl

/-- Every delivery function of `sampleOps` raises errors. -/
theorem sampleOps_raisesErrors :
    ∀ env payload, EngineOp.call env payload ∈ sampleOps → raisesErrors env := by
  intro env payload hm
  simp only [sampleOps, List.mem_cons, EngineOp.call.injEq, List.mem_singleton,
    List.not_mem_nil, or_false, reduceCtorEq, false_or] at hm
  rcases hm with ⟨he, _⟩ | ⟨he, _⟩
  · subst he
    intro i e hd
    simp only [alwaysRaising, Outcome.reject.injEq] at hd
    exact ⟨_, _, _, _, hd.symm⟩
  · subst he
    intro i e hd
    simp only [succeedsOnThird] at hd
    split_ifs at hd
    simp only [Outcome.reject.injEq] at hd
    exact ⟨_, _, _, _, hd.symm⟩

/-- Witness of C29 on a failing call, `resetMetrics` and a call that succeeds in its third
attempt: after them one request is counted in total, it is successful and retried, and
`totalRequests = successfulRequests + failedRequests`. -/
theorem metrics_invariant_witness :
    (∀ env payload, EngineOp.call env payload ∈ sampleOps → raisesErrors env) ∧
      (applyOps (WebhookErrorHandler.new {}) sampleOps).metrics.totalRequests =
        (applyOps (WebhookErrorHandler.new {}) sampleOps).metrics.successfulRequests +
          (applyOps (WebhookErrorHandler.new {}) sampleOps).metrics.failedRequests ∧
      (applyOps (WebhookErrorHandler.new {}) sampleOps).metrics.totalRequests = 1 ∧
      (applyOps (WebhookErrorHandler.new {}) sampleOps).metrics.retriedRequests = 1 :=
  ⟨sampleOps_raisesErrors, (metrics_invariant {} sampleOps sampleOps_raisesErrors).1, rfl, rfl⟩

/-! ## Theorems: the breaker along the stretches of calls -/

/-- A reset breaker is consistent. -/
theorem resetCircuitBreaker_consistent (h : WebhookErrorHandler)
    (ht : 1 ≤ h.circuitBreaker.threshold) :
    BreakerConsistent (resetCircuitBreaker h).circuitBreaker := by
  unfold resetCircuitBreaker
  split_ifs with hc
  · refine ⟨?_, ?_, ht⟩
    · simp only [Bool.false_eq_true, ge_iff_le, false_iff, not_le]
      exact ht
    · intro hh; cases hh
  · simp only [not_or, Bool.not_eq_true, not_lt, Nat.le_zero] at hc
    refine ⟨?_, ?_, ht⟩
    · rw [hc.1, hc.2]
      simp only [Bool.false_eq_true, ge_iff_le, false_iff, not_le]
      exact ht
    · intro hh; rw [hc.1] at hh; cases hh

theorem resetCircuitBreaker_threshold (h : WebhookErrorHandler) :
    (resetCircuitBreaker h).circuitBreaker.threshold = h.circuitBreaker.threshold := by
  unfold resetCircuitBreaker; split_ifs <;> rfl

/-- Every stretch keeps the invariant of the breaker. -/
theorem Stretch.consistent {h h1 : WebhookErrorHandler} (hs : Stretch h h1)
    (hc : BreakerConsistent h.circuitBreaker) : BreakerConsistent h1.circuitBreaker := by
  cases hs with
  | unchanged => exact hc
  | start hclosed => exact hc
  | startAfterCooldown hopen => exact resetCircuitBreaker_consistent h hc.2.2
  | success attempt =>
    have := resetCircuitBreaker_consistent
      { h with metrics := { h.metrics with
        successfulRequests := h.metrics.successfulRequests + 1 } } hc.2.2
    unfold afterSuccess
    simp only []
    split_ifs
    · exact this
    · exact this
  | retriedFailure failTime errorType =>
    rw [afterRetriedFailure_circuitBreaker]
    obtain ⟨hiff, hlast, ht⟩ := hc
    split_ifs with hge
    · refine ⟨?_, ?_, ht⟩
      · simp only [true_iff]; exact hge
      · intro _ hh; cases hh
    · refine ⟨?_, ?_, ht⟩
      · simp only [ge_iff_le]
        constructor
        · intro ho
          have := hiff.1 ho
          omega
        · intro hh
          exact absurd hh hge
      · exact hlast
  | finalFailure errorType payload attempt lastError invocations =>
    simp only [allAttemptsFailed_circuitBreaker, recordError_circuitBreaker]
    exact hc
  | loopExit payload attempt lastError invocations =>
    simp only [allAttemptsFailed_circuitBreaker]
    exact hc

/-- The loop of a call is a sequence of stretches, and the breaker that each of its
invocations sees is the one of a state that its stretches reach. -/
theorem retryLoop_stretches (env : Env) (payload : JSValue) :
    ∀ (fuel : Nat) (h : WebhookErrorHandler) (attempt : Nat) (lastError : Option Thrown)
      (invs : List Invocation),
      Relation.ReflTransGen Stretch h
          (retryLoop env payload fuel h attempt lastError invs).handler ∧
        ∀ inv ∈ (retryLoop env payload fuel h attempt lastError invs).invocations,
          inv ∈ invs ∨
            ∃ h1, Relation.ReflTransGen Stretch h h1 ∧ inv.breaker = h1.circuitBreaker := by
  intro fuel
  induction fuel with
  | zero =>
    intro h attempt lastError invs
    exact ⟨Relation.ReflTransGen.refl, fun inv hinv => Or.inl hinv⟩
  | succ fuel ih =>
    intro h attempt lastError invs
    have hnew : ∀ inv ∈ invs ++ [invocationOf h attempt],
        inv ∈ invs ∨
          ∃ h1, Relation.ReflTransGen Stretch h h1 ∧ inv.breaker = h1.circuitBreaker := by
      intro inv hinv
      rcases List.mem_append.1 hinv with hm | hm
      · exact Or.inl hm
      · simp only [List.mem_singleton] at hm
        exact Or.inr ⟨h, Relation.ReflTransGen.refl, by rw [hm]; rfl⟩
    by_cases hg : attempt ≤ h.options.maxRetries
    · cases hd : env.deliveryFn attempt with
      | resolve d =>
        rw [retryLoop_success env payload fuel h attempt lastError invs d hg hd]
        exact ⟨Relation.ReflTransGen.single (Stretch.success h attempt), hnew⟩
      | reject e =>
        cases ha : analyzeError h.options e with
        | error err =>
          rw [retryLoop_throw env payload fuel h attempt lastError invs e err hg hd ha]
          exact ⟨Relation.ReflTransGen.refl, hnew⟩
        | ok a =>
          by_cases hbreak : a.retryable = false ∨ attempt = h.options.maxRetries
          · rw [retryLoop_break env payload fuel h attempt lastError invs e a hg hd ha hbreak]
            exact ⟨Relation.ReflTransGen.single (Stretch.finalFailure h a.type payload _ _ _),
              hnew⟩
          · have hr : a.retryable = true := by
              cases hb : a.retryable
              · exact absurd (Or.inl hb) hbreak
              · rfl
            have hlt : attempt + 1 ≤ h.options.maxRetries := by
              have : attempt ≠ h.options.maxRetries := fun hh => hbreak (Or.inr hh)
              omega
            rw [retryLoop_retry env payload fuel h attempt lastError invs e a hlt hd ha hr]
            obtain ⟨hsteps, hinvs⟩ := ih (afterRetriedFailure h (env.failTime attempt) a.type)
              (attempt + 1) (some e) (invs ++ [invocationOf h attempt])
            have hstep : Relation.ReflTransGen Stretch h
                (afterRetriedFailure h (env.failTime attempt) a.type) :=
              Relation.ReflTransGen.single (Stretch.retriedFailure h _ _)
            refine ⟨hstep.trans hsteps, ?_⟩
            intro inv hinv
            rcases hinvs inv hinv with hm | ⟨h1, hs1, hb1⟩
            · exact hnew inv hm
            · exact Or.inr ⟨h1, hstep.trans hs1, hb1⟩
    · simp only [retryLoop, hg, if_false]
      exact ⟨Relation.ReflTransGen.single (Stretch.loopExit h payload _ _ _),
        fun inv hinv => Or.inl hinv⟩

/-- A call of `executeWithRetry` is a sequence of stretches, and the breaker that each of its
invocations sees is the one of a state that its stretches reach. -/
theorem executeWithRetry_stretches (h : WebhookErrorHandler) (env : Env) (payload : JSValue) :
    Relation.ReflTransGen Stretch h (executeWithRetry h env payload).handler ∧
      ∀ inv ∈ (executeWithRetry h env payload).invocations,
        ∃ h1, Relation.ReflTransGen Stretch h h1 ∧ inv.breaker = h1.circuitBreaker := by
  simp only [executeWithRetry]
  split_ifs with hopen hlt
  · exact ⟨Relation.ReflTransGen.refl, fun inv hinv => by cases hinv⟩
  · obtain ⟨hs, hi⟩ := retryLoop_stretches env payload
      ((resetCircuitBreaker h).options.maxRetries + 2) (afterStart (resetCircuitBreaker h))
      0 none []
    have hstep : Relation.ReflTransGen Stretch h (afterStart (resetCircuitBreaker h)) :=
      Relation.ReflTransGen.single (Stretch.startAfterCooldown h hopen)
    refine ⟨hstep.trans hs, ?_⟩
    intro inv hinv
    rcases hi inv hinv with hm | ⟨h1, hs1, hb1⟩
    · cases hm
    · exact ⟨h1, hstep.trans hs1, hb1⟩
  · have hclosed : h.circuitBreaker.isOpen = false := by simpa using hopen
    obtain ⟨hs, hi⟩ := retryLoop_stretches env payload (h.options.maxRetries + 2)
      (afterStart h) 0 none []
    have hstep : Relation.ReflTransGen Stretch h (afterStart h) :=
      Relation.ReflTransGen.single (Stretch.start h hclosed)
    refine ⟨hstep.trans hs, ?_⟩
    intro inv hinv
    rcases hi inv hinv with hm | ⟨h1, hs1, hb1⟩
    · cases hm
    · exact ⟨h1, hstep.trans hs1, hb1⟩

/-- Consecutive calls are a sequence of stretches. -/
theorem stateAfter_stretches (payload : JSValue) (envs : List Env) :
    ∀ h : WebhookErrorHandler, Relation.ReflTransGen Stretch h (stateAfter payload h envs) := by
  induction envs with
  | nil => intro h; exact Relation.ReflTransGen.refl
  | cons env rest ih =>
    intro h
    exact (executeWithRetry_stretches h env payload).1.trans (ih _)

/-- A sequence of stretches keeps the invariant of the breaker. -/
theorem stretches_consistent {h h1 : WebhookErrorHandler}
    (hs : Relation.ReflTransGen Stretch h h1) (hc : BreakerConsistent h.circuitBreaker) :
    BreakerConsistent h1.circuitBreaker := by
  induction hs with
  | refl => exact hc
  | tail _ hstep ih => exact hstep.consistent ih

/-- The breaker of a constructed engine is consistent. -/
theorem new_consistent (o : ConstructorOptions) :
    BreakerConsistent (WebhookErrorHandler.new o).circuitBreaker := by
  have ht : 1 ≤ (WebhookErrorHandler.new o).circuitBreaker.threshold :=
    orDefault_pos _ 5 (by decide)
  refine ⟨?_, ?_, ht⟩
  · constructor
    · intro hh; cases hh
    · intro hh
      have h0 : (WebhookErrorHandler.new o).circuitBreaker.failureCount = 0 := rfl
      omega
  · intro hh; cases hh

/-- Claim C28: in every state that is reached from the constructed engine by stretches of
`executeWithRetry`, in any interleaving of the calls they belong to, the breaker is open
exactly when the failure count has reached the threshold, an open breaker has a time of the
last failure, and the threshold is at least 1; every call of `executeWithRetry` on such a
state leads to such a state, and the breaker has these properties at each of its
invocations of the delivery function. -/
theorem breaker_consistent (o : ConstructorOptions) (h : WebhookErrorHandler)
    (hreach : Relation.ReflTransGen Stretch (WebhookErrorHandler.new o) h) :
    (h.circuitBreaker.isOpen = true ↔
        h.circuitBreaker.failureCount ≥ h.circuitBreaker.threshold) ∧
      (h.circuitBreaker.isOpen = true → h.circuitBreaker.lastFailureTime ≠ none) ∧
      1 ≤ h.circuitBreaker.threshold ∧
      ∀ (env : Env) (payload : JSValue),
        Relation.ReflTransGen Stretch (WebhookErrorHandler.new o)
            (executeWithRetry h env payload).handler ∧
          ∀ inv ∈ (executeWithRetry h env payload).invocations,
            (inv.breaker.isOpen = true ↔ inv.breaker.failureCount ≥ inv.breaker.threshold) ∧
              (inv.breaker.isOpen = true → inv.breaker.lastFailureTime ≠ none) := by
  have hc := stretches_consistent hreach (new_consistent o)
  refine ⟨hc.1, hc.2.1, hc.2.2, ?_⟩
  intro env payload
  obtain ⟨hs, hi⟩ := executeWithRetry_stretches h env payload
  refine ⟨hreach.trans hs, ?_⟩
  intro inv hinv
  obtain ⟨h1, hs1, hb1⟩ := hi inv hinv
  have hc1 := stretches_consistent (hreach.trans hs1) (new_consistent o)
  rw [hb1]
  exact ⟨hc1.1, hc1.2.1⟩

/-- Witness of C28: the state after two calls in each of which every delivery raised a 500
error is reached by stretches from the constructed engine; its breaker is open, its failure
count has reached the threshold, and it has a time of the last failure. -/
theorem breaker_consistent_witness :
    Relation.ReflTransGen Stretch (WebhookErrorHandler.new {})
        (stateAfter .null (WebhookErrorHandler.new {})
          [alwaysRaising serverError, alwaysRaising serverError]) ∧
      (stateAfter .null (WebhookErrorHandler.new {})
        [alwaysRaising serverError, alwaysRaising serverError]).circuitBreaker.isOpen = true ∧
      (stateAfter .null (WebhookErrorHandler.new {})
          [alwaysRaising serverError, alwaysRaising serverError]).circuitBreaker.failureCount ≥
        (stateAfter .null (WebhookErrorHandler.new {})
          [alwaysRaising serverError, alwaysRaising serverError]).circuitBreaker.threshold ∧
      (stateAfter .null (WebhookErrorHandler.new {})
          [alwaysRaising serverError, alwaysRaising serverError]).circuitBreaker.lastFailureTime ≠
        none := by
  have hreach := stateAfter_stretches .null
    [alwaysRaising serverError, alwaysRaising serverError] (WebhookErrorHandler.new {})
  obtain ⟨hiff, hlast, _⟩ := breaker_consistent {} _ hreach
  exact ⟨hreach, rfl, hiff.1 rfl, hlast rfl⟩

/-- Claim C26, amended: in every call of `executeWithRetry` that invokes the delivery
function, the first invocation is the one of attempt 0 and is made with the breaker closed,
and the call did not start on an open breaker whose cooldown had not elapsed (such a call
makes no invocation). -/
theorem executeWithRetry_first_invocation_closed (h : WebhookErrorHandler) (env : Env)
    (payload : JSValue) (inv : Invocation)
    (hhead : (executeWithRetry h env payload).invocations.head? = some inv) :
    inv.attempt = 0 ∧ inv.breaker.isOpen = false ∧ ¬ shortCircuited h env := by
  simp only [executeWithRetry] at hhead
  split_ifs at hhead with hopen hlt
  · cases hhead
  · obtain ⟨rest, hrest⟩ := retryLoop_first_invocation env payload
      ((resetCircuitBreaker h).options.maxRetries + 1)
      { resetCircuitBreaker h with metrics := { (resetCircuitBreaker h).metrics with
          totalRequests := (resetCircuitBreaker h).metrics.totalRequests + 1 } }
      0 none [] (Nat.zero_le _)
    rw [show (resetCircuitBreaker h).options.maxRetries + 2 =
      ((resetCircuitBreaker h).options.maxRetries + 1) + 1 from rfl, hrest] at hhead
    simp only [List.nil_append, List.head?_cons, Option.some.injEq] at hhead
    subst hhead
    exact ⟨rfl, (resetCircuitBreaker_closed h).1, fun hsc => hlt hsc.2⟩
  · obtain ⟨rest, hrest⟩ := retryLoop_first_invocation env payload (h.options.maxRetries + 1)
      { h with metrics := { h.metrics with totalRequests := h.metrics.totalRequests + 1 } }
      0 none [] (Nat.zero_le _)
    rw [show h.options.maxRetries + 2 = (h.options.maxRetries + 1) + 1 from rfl,
      hrest] at hhead
    simp only [List.nil_append, List.head?_cons, Option.some.injEq] at hhead
    subst hhead
    exact ⟨rfl, by simpa [invocationOf] using hopen, fun hsc => hopen hsc.1⟩

/-- Witness of C26 as amended on the constructed engine and a delivery function that always
raises a 500 error. -/
theorem executeWithRetry_first_invocation_closed_witness :
    (executeWithRetry (WebhookErrorHandler.new {}) (alwaysRaising serverError)
        .null).invocations.head? =
        some (invocationOf (WebhookErrorHandler.new {}) 0) ∧
      (invocationOf (WebhookErrorHandler.new {}) 0).breaker.isOpen = false ∧
      ¬ shortCircuited (WebhookErrorHandler.new {}) (alwaysRaising serverError) :=
  ⟨rfl, (executeWithRetry_first_invocation_closed (WebhookErrorHandler.new {})
    (alwaysRaising serverError) .null _ rfl).2⟩

/-- Counterexample to C26 as written: with the default options (threshold 5, cooldown
60000 ms), in the second of two calls whose deliveries all raise a 500 error the failure count
reaches 5 when the failure of the second attempt is handled, the breaker opens at time 0, and
the call goes on: it awaits `calculateDelay(1)`, which is 2000 ms without jitter, and makes its
third and fourth attempt while the breaker is open. -/
theorem executeWithRetry_invokes_while_open :
    twoFailingCalls.map (fun r => r.invocations.map (fun i =>
        (i.attempt, i.breaker.isOpen, i.breaker.failureCount, i.breaker.lastFailureTime))) =
      [ [(0, false, 0, none), (1, false, 1, none), (2, false, 2, none), (3, false, 3, none)],
        [(0, false, 3, none), (1, false, 4, none), (2, true, 5, some 0),
          (3, true, 6, some 0)] ] ∧
      (WebhookErrorHandler.new {}).circuitBreaker.threshold = 5 ∧
      (WebhookErrorHandler.new {}).circuitBreaker.timeout = 60000 ∧
      awaitedDelays exactDoubles
          (executeWithRetry (WebhookErrorHandler.new {}) (alwaysRaising serverError)
            .null).handler (alwaysRaising serverError) (fun _ => 1 / 2) =
        [ calculateDelay exactDoubles (WebhookErrorHandler.new {}).options 0 (1 / 2),
          calculateDelay exactDoubles (WebhookErrorHandler.new {}).options 1 (1 / 2),
          calculateDelay exactDoubles (WebhookErrorHandler.new {}).options 2 (1 / 2) ] ∧
      calculateDelay exactDoubles (WebhookErrorHandler.new {}).options 1 (1 / 2) =
        .fin 2000 := by
  refine ⟨rfl, rfl, rfl, rfl, ?_⟩
  norm_num [calculateDelay, jitter, jitterFactor, exponentialDelay, JSNumber.mul,
    JSNumber.add, JSNumber.sub, JSNumber.neg, FloatRuntime.toDouble, exactDoubles,
    overflowBound, mathMin, mathMax, JSNumber.lt, WebhookErrorHandler.new, orDefault]

/-! ## Theorems: `formatPhoneNumber` -/

/-- A list of digits is its own list of digits. -/
theorem filter_isDigit_self (l : JSString) (h : ∀ c ∈ l, isDigit c = true) :
    l.filter isDigit = l :=
  List.filter_eq_self.2 h

/-- The digits of the ten-digit format are the ten digits. -/
theorem filter_isDigit_format10 (d : JSString) (hd : ∀ c ∈ d, isDigit c = true) :
    (lit "(" ++ d.take 3 ++ lit ") " ++ (d.take 6).drop 3 ++ lit "-" ++ d.drop 6).filter
      isDigit = d := by
  have h1 : (lit "(").filter isDigit = [] := by decide
  have h2 : (lit ") ").filter isDigit = [] := by decide
  have h3 : (lit "-").filter isDigit = [] := by decide
  have t1 : (d.take 3).filter isDigit = d.take 3 :=
    filter_isDigit_self _ (fun c hc => hd c (List.mem_of_mem_take hc))
  have t2 : ((d.take 6).drop 3).filter isDigit = (d.take 6).drop 3 :=
    filter_isDigit_self _ (fun c hc => hd c (List.mem_of_mem_take (List.mem_of_mem_drop hc)))
  have t3 : (d.drop 6).filter isDigit = d.drop 6 :=
    filter_isDigit_self _ (fun c hc => hd c (List.mem_of_mem_drop hc))
  simp only [List.filter_append, h1, h2, h3, t1, t2, t3, List.nil_append, List.append_nil]
  have e1 : d.take 3 ++ (d.take 6).drop 3 = d.take 6 := by
    have := List.take_append_drop 3 (d.take 6)
    rw [List.take_take] at this
    simpa using this
  rw [e1, List.take_append_drop]

/-- The digits of the eleven-digit format are the eleven digits. -/
theorem filter_isDigit_format11 (d : JSString) (hd : ∀ c ∈ d, isDigit c = true)
    (h1 : d.head? = some 49) :
    (lit "+1 (" ++ (d.take 4).drop 1 ++ lit ") " ++ (d.take 7).drop 4 ++ lit "-" ++
      d.drop 7).filter isDigit = d := by
  have h0 : (lit "+1 (").filter isDigit = [49] := by decide
  have h2 : (lit ") ").filter isDigit = [] := by decide
  have h3 : (lit "-").filter isDigit = [] := by decide
  have t1 : ((d.take 4).drop 1).filter isDigit = (d.take 4).drop 1 :=
    filter_isDigit_self _ (fun c hc => hd c (List.mem_of_mem_take (List.mem_of_mem_drop hc)))
  have t2 : ((d.take 7).drop 4).filter isDigit = (d.take 7).drop 4 :=
    filter_isDigit_self _ (fun c hc => hd c (List.mem_of_mem_take (List.mem_of_mem_drop hc)))
  have t3 : (d.drop 7).filter isDigit = d.drop 7 :=
    filter_isDigit_self _ (fun c hc => hd c (List.mem_of_mem_drop hc))
  simp only [List.filter_append, h0, h2, h3, t1, t2, t3, List.nil_append, List.append_nil]
  have e0 : [49] ++ (d.take 4).drop 1 = d.take 4 := by
    cases d with
    | nil => simp at h1
    | cons a t =>
      simp only [List.head?_cons, Option.some.injEq] at h1
      subst h1
      rfl
  have e1 : d.take 4 ++ (d.take 7).drop 4 = d.take 7 := by
    have := List.take_append_drop 4 (d.take 7)
    rw [List.take_take] at this
    simpa using this
  rw [e0, e1, List.take_append_drop]

/-- Claim C30: for every string `p`, `formatPhoneNumber(formatPhoneNumber(p))` is
`formatPhoneNumber(p)`, the copy of the method in `GoHighLevelWebhook` returns what the copy
in `WebhookDataMapper` returns, and that copy is idempotent as well. -/
theorem formatPhoneNumber_idempotent (p : JSString) :
    formatPhoneNumber (formatPhoneNumber p) = formatPhoneNumber p ∧
      GoHighLevelWebhook.formatPhoneNumber p = formatPhoneNumber p ∧
      GoHighLevelWebhook.formatPhoneNumber (GoHighLevelWebhook.formatPhoneNumber p) =
        GoHighLevelWebhook.formatPhoneNumber p := by
  have hd : ∀ c ∈ p.filter isDigit, isDigit c = true := fun c hc => (List.mem_filter.1 hc).2
  have hidem : formatPhoneNumber (formatPhoneNumber p) = formatPhoneNumber p := by
    by_cases h10 : (p.filter isDigit).length = 10
    · have hf : formatPhoneNumber p =
          lit "(" ++ (p.filter isDigit).take 3 ++ lit ") " ++
            ((p.filter isDigit).take 6).drop 3 ++ lit "-" ++ (p.filter isDigit).drop 6 := by
        simp only [formatPhoneNumber, h10, if_true]
      rw [hf]
      simp only [formatPhoneNumber]
      rw [filter_isDigit_format10 _ hd, if_pos h10]
    · by_cases h11 : (p.filter isDigit).length = 11 ∧ (p.filter isDigit).head? = some 49
      · have hf : formatPhoneNumber p =
            lit "+1 (" ++ ((p.filter isDigit).take 4).drop 1 ++ lit ") " ++
              ((p.filter isDigit).take 7).drop 4 ++ lit "-" ++ (p.filter isDigit).drop 7 := by
          simp only [formatPhoneNumber]
          rw [if_neg h10, if_pos h11]
        rw [hf]
        simp only [formatPhoneNumber]
        rw [filter_isDigit_format11 _ hd h11.2, if_neg h10, if_pos h11]
      · have hf : formatPhoneNumber p = p := by
          simp only [formatPhoneNumber]
          rw [if_neg h10, if_neg h11]
        rw [hf, hf]
  have heq : ∀ q, GoHighLevelWebhook.formatPhoneNumber q = formatPhoneNumber q := fun q => rfl
  exact ⟨hidem, heq p, by rw [heq, heq, hidem]⟩

/-! ## Theorems: the heap and the objects that `mapData` leaves alone -/

mutual
theorem JSValue.same_sound : ∀ (a b : JSValue), a.same b = true → a = b
  | .undefined, b, h => by cases b <;> simp [JSValue.same] at h; rfl
  | .null, b, h => by cases b <;> simp [JSValue.same] at h; rfl
  | .bool x, b, h => by cases b <;> simp [JSValue.same] at h; rw [h]
  | .num x, b, h => by cases b <;> simp [JSValue.same] at h; rw [h]
  | .str x, b, h => by cases b <;> simp [JSValue.same] at h; rw [h]
  | .arr xs, .arr ys, h => by
    simp only [JSValue.same] at h
    rw [sameItems_sound xs ys h]
  | .arr xs, .undefined, h => by simp [JSValue.same] at h
  | .arr xs, .null, h => by simp [JSValue.same] at h
  | .arr xs, .bool _, h => by simp [JSValue.same] at h
  | .arr xs, .num _, h => by simp [JSValue.same] at h
  | .arr xs, .str _, h => by simp [JSValue.same] at h
  | .arr xs, .obj _, h => by simp [JSValue.same] at h
  | .obj xs, .obj ys, h => by
    simp only [JSValue.same] at h
    rw [sameProps_sound xs ys h]
  | .obj xs, .undefined, h => by simp [JSValue.same] at h
  | .obj xs, .null, h => by simp [JSValue.same] at h
  | .obj xs, .bool _, h => by simp [JSValue.same] at h
  | .obj xs, .num _, h => by simp [JSValue.same] at h
  | .obj xs, .str _, h => by simp [JSValue.same] at h
  | .obj xs, .arr _, h => by simp [JSValue.same] at h
theorem sameItems_sound : ∀ (xs ys : List JSValue), sameItems xs ys = true → xs = ys
  | [], [], _ => rfl
  | [], _ :: _, h => by simp [sameItems] at h
  | _ :: _, [], h => by simp [sameItems] at h
  | x :: xs1, y :: ys1, h => by
    simp only [sameItems, Bool.and_eq_true] at h
    rw [JSValue.same_sound x y h.1, sameItems_sound xs1 ys1 h.2]
theorem sameProps_sound :
    ∀ (xs ys : List (JSString × JSValue)), sameProps xs ys = true → xs = ys
  | [], [], _ => rfl
  | [], _ :: _, h => by simp [sameProps] at h
  | _ :: _, [], h => by simp [sameProps] at h
  | (k, v) :: xs1, (k2, v2) :: ys1, h => by
    simp only [sameProps, sameEntry, Bool.and_eq_true, beq_iff_eq] at h
    rw [h.1.1, JSValue.same_sound v v2 h.1.2, sameProps_sound xs1 ys1 h.2]
end

theorem sameOption_sound (a b : Option JSValue) (h : sameOption a b = true) : a = b := by
  cases a <;> cases b <;> simp [sameOption] at h
  · rfl
  · rw [JSValue.same_sound _ _ h]

theorem FrameBelow.refl (base : Nat) (heap : Heap) : FrameBelow base heap heap :=
  ⟨le_refl _, fun _ _ => rfl⟩

theorem FrameBelow.trans {base : Nat} {h1 h2 h3 : Heap} (a : FrameBelow base h1 h2)
    (b : FrameBelow base h2 h3) : FrameBelow base h1 h3 :=
  ⟨le_trans a.1 b.1, fun x hx => (b.2 x hx).trans (a.2 x hx)⟩

theorem FrameBelow.mono {base base1 : Nat} {h1 h2 : Heap} (a : FrameBelow base1 h1 h2)
    (hle : base ≤ base1) : FrameBelow base h1 h2 :=
  ⟨a.1, fun x hx => a.2 x (lt_of_lt_of_le hx hle)⟩

theorem FrameBelow.append (base : Nat) (heap extra : Heap) (hle : base ≤ heap.length) :
    FrameBelow base heap (heap ++ extra) := by
  refine ⟨by simp, ?_⟩
  intro a ha
  exact List.getElem?_append_left (lt_of_lt_of_le ha hle)

theorem writeProp_length (heap : Heap) (address : Nat) (key : JSString) (value : HValue) :
    (writeProp heap address key value).length = heap.length := by
  unfold writeProp
  split
  · split_ifs
    · rfl
    · simp
  · rfl

theorem writeProp_getElem_ne (heap : Heap) (address : Nat) (key : JSString) (value : HValue)
    (a : Nat) (hne : address ≠ a) : (writeProp heap address key value)[a]? = heap[a]? := by
  unfold writeProp
  split
  · split_ifs
    · rfl
    · exact List.getElem?_set_ne hne
  · rfl

/-- An assignment to a property of the object at `address` leaves every other object. -/
theorem writeProp_frame (base : Nat) (heap : Heap) (address : Nat) (key : JSString)
    (value : HValue) (hle : base ≤ address) :
    FrameBelow base heap (writeProp heap address key value) :=
  ⟨le_of_eq (writeProp_length heap address key value).symm,
    fun a ha => writeProp_getElem_ne heap address key value a (by omega)⟩

/-- The loop of `mergeDeep` leaves every object below `base`, when the object that it assigns
to is not below `base` and the recursive call leaves the objects that exist when it is
made. -/
theorem mergeLoopH_frame (recurse : Heap → HValue → HValue → Heap × Option Nat)
    (hrec : ∀ heap target source, FrameBelow heap.length heap (recurse heap target source).1)
    (base result : Nat) (hres : base ≤ result) :
    ∀ (items : List (JSString × HValue)) (heap : Heap), base ≤ heap.length →
      FrameBelow base heap (mergeLoopH recurse result items heap).1 := by
  intro items
  induction items with
  | nil => intro heap _; exact FrameBelow.refl _ _
  | cons item rest ih =>
    intro heap hlen
    obtain ⟨key, v⟩ := item
    by_cases hobj : (v.isTruthy && isPlainObject heap v) = true
    · simp only [mergeLoopH, hobj, if_true]
      have hpre : FrameBelow base heap
          (orEmptyObjectH heap (readProp (ownPropsH heap (.ref result)) key)).1 := by
        unfold orEmptyObjectH
        split_ifs
        · exact FrameBelow.refl _ _
        · exact FrameBelow.append base heap _ hlen
      cases hprep : orEmptyObjectH heap (readProp (ownPropsH heap (.ref result)) key) with
      | mk heap1 target =>
        rw [hprep] at hpre
        have hcall := hrec heap1 target v
        have hmid := hpre.trans (hcall.mono (le_trans hlen hpre.1))
        cases hout : recurse heap1 target v with
        | mk heap2 merged =>
          rw [hout] at hmid
          cases merged with
          | none => exact hmid
          | some address =>
            have hw := writeProp_frame base heap2 result key (.ref address) hres
            exact (hmid.trans hw).trans (ih _ (le_trans hlen (hmid.trans hw).1))
    · simp only [mergeLoopH, hobj, if_false]
      have hw := writeProp_frame base heap result key v hres
      exact hw.trans (ih _ (le_trans hlen hw.1))

/-- The method `mergeDeep` leaves every object that exists when it is called. -/
theorem mergeDeepH_frame :
    ∀ (fuel : Nat) (heap : Heap) (target source : HValue),
      FrameBelow heap.length heap (mergeDeepH fuel heap target source).1 := by
  intro fuel
  induction fuel with
  | zero => intro heap _ _; exact FrameBelow.refl _ _
  | succ fuel ih =>
    intro heap target source
    simp only [mergeDeepH]
    have h1 := FrameBelow.append heap.length heap
      [{ isArray := false, props := ownPropsH heap target }] (le_refl _)
    have h2 := mergeLoopH_frame (mergeDeepH fuel) ih heap.length heap.length (le_refl _)
      (ownPropsH (heap ++ [{ isArray := false, props := ownPropsH heap target }]) source)
      (heap ++ [{ isArray := false, props := ownPropsH heap target }]) h1.1
    have h3 := h1.trans h2
    cases hout : mergeLoopH (mergeDeepH fuel) heap.length
        (ownPropsH (heap ++ [{ isArray := false, props := ownPropsH heap target }]) source)
        (heap ++ [{ isArray := false, props := ownPropsH heap target }]) with
    | mk heap2 done =>
      rw [hout] at h3
      cases done <;> exact h3

/-- The part of `mapData` up to the binding of `mappingRules` leaves every object that exists
when `mapData` is called. -/
theorem mapDataRulesH_frame (fuel : Nat) (heap : Heap) (mappingRules customMapping : HValue) :
    FrameBelow heap.length heap (mapDataRulesH fuel heap mappingRules customMapping).1 := by
  unfold mapDataRulesH
  have h1 := FrameBelow.append heap.length heap
    [{ isArray := false, props := [] }, { isArray := true, props := [] },
      { isArray := true, props := [] }] (le_refl _)
  exact h1.trans ((mergeDeepH_frame fuel _ mappingRules customMapping).mono h1.1)

theorem readProps_congr (f g : HValue → Option JSValue) (props : List (JSString × HValue))
    (h : ∀ p ∈ props, f p.2 = g p.2) : readProps f props = readProps g props := by
  induction props with
  | nil => rfl
  | cons p rest ih =>
    obtain ⟨k, v⟩ := p
    simp only [readProps]
    rw [h (k, v) (List.mem_cons_self _ _), ih (fun q hq => h q (List.mem_cons_of_mem _ hq))]

theorem closedHeap_props (heap : Heap) (hclosed : closedHeap heap = true) (a : Nat)
    (object : HObject) (ha : heap[a]? = some object) :
    ∀ p ∈ object.props, p.2.within heap = true := by
  intro p hp
  have hmem : object ∈ heap := by
    rw [List.getElem?_eq_some_iff] at ha
    obtain ⟨hlt, he⟩ := ha
    rw [← he]
    exact List.getElem_mem _
  simp only [closedHeap, List.all_eq_true] at hclosed
  exact hclosed object hmem p hp

/-- In a heap whose objects hold addresses of the heap only, what a value stands for does not
change when the objects of the heap are left as they are. -/
theorem readValue_frame (heap heap1 : Heap) (hclosed : closedHeap heap = true)
    (hframe : FrameBelow heap.length heap heap1) :
    ∀ (depth : Nat) (v : HValue), v.within heap = true →
      readValue depth heap1 v = readValue depth heap v := by
  intro depth
  induction depth with
  | zero =>
    intro v _
    cases v <;> rfl
  | succ depth ih =>
    intro v hv
    cases v with
    | undefined => rfl
    | null => rfl
    | bool b => rfl
    | num n => rfl
    | str s => rfl
    | builtin => rfl
    | ref a =>
      have ha : a < heap.length := by simpa [HValue.within] using hv
      simp only [readValue]
      rw [hframe.2 a ha]
      cases ho : heap[a]? with
      | none => rfl
      | some object =>
        simp only
        rw [readProps_congr (readValue depth heap1) (readValue depth heap) object.props
          (fun p hp => ih p.2 (closedHeap_props heap hclosed a object ho p hp))]

set_option maxRecDepth 100000

/-- A call of `mergeDeep` with a source that has no property returns a new object with the
properties of the target. -/
theorem mergeDeepH_empty (fuel : Nat) (heap : Heap) (target source : HValue)
    (hempty : ownPropsH (heap ++ [{ isArray := false, props := ownPropsH heap target }])
      source = []) :
    mergeDeepH (fuel + 1) heap target source =
      (heap ++ [{ isArray := false, props := ownPropsH heap target }], some heap.length) := by
  simp only [mergeDeepH, hempty, mergeLoopH]

theorem readValue_ref (depth : Nat) (heap : Heap) (a : Nat) (object : HObject)
    (ho : heap[a]? = some object) :
    readValue (depth + 1) heap (.ref a) =
      (readProps (readValue depth heap) object.props).map
        (fun props => if object.isArray then .arr (props.map Prod.snd) else .obj props) := by
  simp only [readValue, ho]
  cases readProps (readValue depth heap) object.props with
  | none => rfl
  | some props => cases object.isArray <;> rfl

theorem ownPropsH_frame (heap heap1 : Heap) (hframe : FrameBelow heap.length heap heap1)
    (v : HValue) (hv : v.within heap = true) : ownPropsH heap1 v = ownPropsH heap v := by
  cases v with
  | ref a =>
    have ha : a < heap.length := by simpa [HValue.within] using hv
    simp only [ownPropsH, hframe.2 a ha]
  | undefined => rfl
  | null => rfl
  | bool b => rfl
  | num n => rfl
  | str s => rfl
  | builtin => rfl

/-- The rules that a call of `mapData` without overrides binds stand for the value that the
rules of the mapper stand for. -/
theorem mapDataDefaultH_rules (fuel : Nat) (heap0 heap : Heap) (mappingRules : HValue)
    (hclosed : closedHeap heap0 = true) (hframe : FrameBelow heap0.length heap0 heap)
    (hin : mappingRules.within heap0 = true) (hobj : isPlainObject heap0 mappingRules = true)
    (depth : Nat) :
    (mapDataDefaultH (fuel + 1) heap mappingRules).2.isSome = true ∧
      readValue (depth + 1) (mapDataDefaultH (fuel + 1) heap mappingRules).1
          (returnedValue (mapDataDefaultH (fuel + 1) heap mappingRules)) =
        readValue (depth + 1) heap0 mappingRules := by
  -- the heap on which the rules are merged
  generalize hP : heap ++ [{ isArray := false, props := [] }] ++
    [{ isArray := false, props := [] }, { isArray := true, props := [] },
      { isArray := true, props := [] }] = heapP
  have hframeP : FrameBelow heap0.length heap0 heapP := by
    rw [← hP]
    have h1 := FrameBelow.append heap0.length heap [{ isArray := false, props := [] }]
      hframe.1
    have h2 := FrameBelow.append heap0.length (heap ++ [{ isArray := false, props := [] }])
      [{ isArray := false, props := [] }, { isArray := true, props := [] },
        { isArray := true, props := [] }] (le_trans hframe.1 h1.1)
    exact (hframe.trans h1).trans h2
  have hsource : ∀ extra : Heap, ownPropsH (heapP ++ extra) (.ref heap.length) = [] := by
    intro extra
    have hget : (heapP ++ extra)[heap.length]? =
        some { isArray := false, props := [] } := by
      rw [← hP, List.append_assoc, List.append_assoc,
        List.getElem?_append_right (le_refl _), Nat.sub_self]
      rfl
    simp only [ownPropsH, hget]
  have hcall : mapDataDefaultH (fuel + 1) heap mappingRules =
      (heapP ++ [{ isArray := false, props := ownPropsH heapP mappingRules }],
        some heapP.length) := by
    unfold mapDataDefaultH mapDataRulesH
    rw [hP]
    exact mergeDeepH_empty fuel heapP mappingRules (.ref heap.length) (hsource _)
  rw [hcall]
  refine ⟨rfl, ?_⟩
  have hframeF : FrameBelow heap0.length heap0
      (heapP ++ [{ isArray := false, props := ownPropsH heapP mappingRules }]) :=
    hframeP.trans (FrameBelow.append heap0.length heapP _ hframeP.1)
  cases mappingRules with
  | ref a =>
    have ha : a < heap0.length := by simpa [HValue.within] using hin
    cases ho : heap0[a]? with
    | none =>
      rw [List.getElem?_eq_none_iff] at ho
      omega
    | some object =>
      have harr : object.isArray = false := by
        simpa [isPlainObject, ho] using hobj
      have hprops : ownPropsH heapP (.ref a) = object.props := by
        rw [ownPropsH_frame heap0 heapP hframeP (.ref a) hin]
        simp [ownPropsH, ho]
      rw [hprops] at hframeF ⊢
      have hnew : (heapP ++ [{ isArray := false, props := object.props }])[heapP.length]? =
          some { isArray := false, props := object.props } := List.getElem?_concat_length _ _
      simp only [returnedValue]
      rw [readValue_ref depth _ heapP.length _ hnew, readValue_ref depth heap0 a object ho,
        harr]
      dsimp only
      exact congrArg _ (readProps_congr _ _ object.props
        (fun p hp => readValue_frame heap0 _ hclosed hframeF depth p.2
          (closedHeap_props heap0 hclosed a object ho p hp)))
  | undefined => simp [isPlainObject] at hobj
  | null => simp [isPlainObject] at hobj
  | bool b => simp [isPlainObject] at hobj
  | num n => simp [isPlainObject] at hobj
  | str s => simp [isPlainObject] at hobj
  | builtin => simp [isPlainObject] at hobj

/-- Claim C22: in a heap whose objects hold addresses of the heap only, the part of
`mapData(rawData, customMapping)` that deals with the rules (it creates `mappedData`, `errors`
and `warnings`, and merges `customMapping` into `this.mappingRules` with `mergeDeep`) leaves
every object that exists when `mapData` is called, whether the merge returns or its recursion
does not end; so every value of that heap (the rules of the mapper, the override, the record)
stands afterwards for the JSON value that it stood for before; and a later call of `mapData`
without overrides binds rules that stand for the value of the rules of the mapper before the
first call. -/
theorem mapData_leaves_rules (fuel : Nat) (heap : Heap) (mappingRules customMapping : HValue)
    (hclosed : closedHeap heap = true) :
    (∀ a, a < heap.length →
        (mapDataRulesH fuel heap mappingRules customMapping).1[a]? = heap[a]?) ∧
      (∀ (depth : Nat) (v : HValue), v.within heap = true →
        readValue depth (mapDataRulesH fuel heap mappingRules customMapping).1 v =
          readValue depth heap v) ∧
      (∀ (fuel2 depth : Nat), mappingRules.within heap = true →
        isPlainObject heap mappingRules = true →
        (mapDataDefaultH (fuel2 + 1) (mapDataRulesH fuel heap mappingRules customMapping).1
            mappingRules).2.isSome = true ∧
          readValue (depth + 1)
              (mapDataDefaultH (fuel2 + 1)
                (mapDataRulesH fuel heap mappingRules customMapping).1 mappingRules).1
              (returnedValue (mapDataDefaultH (fuel2 + 1)
                (mapDataRulesH fuel heap mappingRules customMapping).1 mappingRules)) =
            readValue (depth + 1) heap mappingRules) := by
  have hframe := mapDataRulesH_frame fuel heap mappingRules customMapping
  refine ⟨hframe.2, ?_, ?_⟩
  · intro depth v hv
    exact readValue_frame heap _ hclosed hframe depth v hv
  · intro fuel2 depth hin hobj
    exact mapDataDefaultH_rules fuel2 heap _ mappingRules hclosed hframe hin hobj depth

/-- Witness of C22 on a mapper with the default rules, the override
`{contact: {phone: {required: false}}}` and the record `{firstName: "John",
phone: "5551234567", email: "john@x.com"}`: after the call the rules of the mapper stand for
the default rules, the override and the record for themselves, and the merge has returned an
object that stands for `mergeDeep` of the default rules and the override. -/
theorem mapData_leaves_rules_witness :
    closedHeap (mapperHeap phoneOptional (.obj johnRecord)).1 = true ∧
      readValue 4
          (mapDataRulesH 4 (mapperHeap phoneOptional (.obj johnRecord)).1
            (mapperHeap phoneOptional (.obj johnRecord)).2.1
            (mapperHeap phoneOptional (.obj johnRecord)).2.2.1).1
          (mapperHeap phoneOptional (.obj johnRecord)).2.1 =
        some (rulesToJS getDefaultMappingRules) ∧
      readValue 4
          (mapDataRulesH 4 (mapperHeap phoneOptional (.obj johnRecord)).1
            (mapperHeap phoneOptional (.obj johnRecord)).2.1
            (mapperHeap phoneOptional (.obj johnRecord)).2.2.1).1
          (mapperHeap phoneOptional (.obj johnRecord)).2.2.1 =
        some phoneOptional ∧
      readValue 4
          (mapDataRulesH 4 (mapperHeap phoneOptional (.obj johnRecord)).1
            (mapperHeap phoneOptional (.obj johnRecord)).2.1
            (mapperHeap phoneOptional (.obj johnRecord)).2.2.1).1
          (mapperHeap phoneOptional (.obj johnRecord)).2.2.2 =
        some (.obj johnRecord) ∧
      readValue 4
          (mapDataRulesH 4 (mapperHeap phoneOptional (.obj johnRecord)).1
            (mapperHeap phoneOptional (.obj johnRecord)).2.1
            (mapperHeap phoneOptional (.obj johnRecord)).2.2.1).1
          (returnedValue (mapDataRulesH 4 (mapperHeap phoneOptional (.obj johnRecord)).1
            (mapperHeap phoneOptional (.obj johnRecord)).2.1
            (mapperHeap phoneOptional (.obj johnRecord)).2.2.1)) =
        some (mergeDeep (rulesToJS getDefaultMappingRules) phoneOptional) := by
  have hclosed : closedHeap (mapperHeap phoneOptional (.obj johnRecord)).1 = true := by decide!
  obtain ⟨_, hread, _⟩ := mapData_leaves_rules 4 (mapperHeap phoneOptional (.obj johnRecord)).1
    (mapperHeap phoneOptional (.obj johnRecord)).2.1
    (mapperHeap phoneOptional (.obj johnRecord)).2.2.1 hclosed
  refine ⟨hclosed, ?_, ?_, ?_, ?_⟩
  · rw [hread 4 _ (by decide!)]
    exact sameOption_sound _ _ (by decide!)
  · rw [hread 4 _ (by decide!)]
    exact sameOption_sound _ _ (by decide!)
  · rw [hread 4 _ (by decide!)]
    exact sameOption_sound _ _ (by decide!)
  · exact sameOption_sound _ _ (by decide!)

end Roofing
